import Mathlib

/-!
# Tolk compiler core (`tolk/tolk.h`): shallow embedding and verified properties

The definitions below are translations of the inline member functions of
`tolk/tolk.h`.  C++ `int` values are embedded as `Int`; the header's own
range checks (for example `i > 255`) are kept literally.  A function that
can throw returns `Except Fatal _`; a mutating member function that can
throw after it has already changed its object returns the object together
with the outcome.  A function that the header only declares is either a
parameter of the definitions that call it, or it is modelled from the
specification; the doc comment of each such definition says so.

The namespace `ton.validatorsession` holds the memory pool and the session
description of `validator-session/validator-session-description.cpp`; there
`size_t` values are natural numbers reduced modulo `2 ^ 64` and `td::uint32`
values natural numbers reduced modulo `2 ^ 32`.
-/

set_option autoImplicit false

namespace tolk

/-! ## Errors -/

/-- The exception `Fatal` of the compiler.  `message msg` is `throw Fatal{msg}`.
`assertion line expr` is the `Fatal` thrown by a failed `tolk_assert(expr)`
standing on line `line` of `tolk.h`; its text in the source is
`"Assertion failed at " << __FILE__ << ":" << __LINE__ << ": " << #expr`. -/
inductive Fatal where
  | message (msg : String)
  | assertion (line : Nat) (expr : String)
  deriving DecidableEq, Repr

/-- Macro `tolk_assert(expr)` (tolk.h:35-37): nothing happens when `expr`
converts to `true`, otherwise the assertion `Fatal` is thrown. -/
def tolk_assert (cond : Bool) (line : Nat) (expr : String) : Except Fatal Unit :=
  if cond then Except.ok () else Except.error (Fatal.assertion line expr)

/-- Whether an outcome is a failed `tolk_assert`. -/
def isAssertionFailure {α : Type} : Except Fatal α → Bool
  | Except.error (Fatal.assertion _ _) => true
  | _ => false

/-! ## Conversions -/

/-- The conversion `(int)n` of a `std::size_t` value `n` to the 32-bit `int`:
the value is reduced modulo `2^32` and read as a two's-complement number, so
sizes from `2^31` on do not keep their value. -/
def int_of_size (n : Nat) : Int :=
  if n % 2 ^ 32 < 2 ^ 31 then ((n % 2 ^ 32 : Nat) : Int)
  else ((n % 2 ^ 32 : Nat) : Int) - 2 ^ 32

/-! ## Assembler operations (`struct AsmOp`, `struct AsmOpList`) -/

/-- The enumeration `AsmOp::Type` (tolk.h:912). -/
inductive AsmOpType where
  | a_none | a_xchg | a_push | a_pop | a_const | a_custom | a_magic
  deriving DecidableEq, Repr

/-- The data members of `struct AsmOp` (tolk.h:913-918).  `origin` is a
`td::RefInt256`, a nullable reference to a big integer. -/
structure AsmOp where
  t : AsmOpType
  indent : Int
  a : Int
  b : Int
  gconst : Bool
  op : String
  origin : Option Int
  deriving DecidableEq, Repr

namespace AsmOp

/-- `AsmOp::is_custom` (tolk.h:953). -/
def is_custom (x : AsmOp) : Bool := x.t == AsmOpType.a_custom

/-- `AsmOp::is_nop` (tolk.h:947): type `a_none` and empty text. -/
def is_nop (x : AsmOp) : Bool := x.t == AsmOpType.a_none && x.op.isEmpty

/-- `AsmOp::compute_gconst` (tolk.h:944-946). -/
def compute_gconst (x : AsmOp) : AsmOp :=
  { x with gconst := x.is_custom && (x.op == "PUSHNULL" || x.op == "NEWC" || x.op == "NEWB"
      || x.op == "TRUE" || x.op == "FALSE" || x.op == "NOW") }

/-- The constructor `AsmOp(Type _t, int _a, int _b, std::string _op)`
(tolk.h:935-937); `indent`, `gconst` and `origin` start from their default
member initialisers, then `compute_gconst()` runs. -/
def mk4 (t : AsmOpType) (a b : Int) (op : String) : AsmOp :=
  compute_gconst { t := t, indent := 0, a := a, b := b, gconst := false, op := op, origin := none }

/-- `AsmOp::Custom(std::string custom_op)` (tolk.h:1062-1064). -/
def Custom (custom_op : String) : AsmOp := mk4 AsmOpType.a_custom 255 255 custom_op

/-- The op with its `indent` member replaced. -/
def withIndent (x : AsmOp) (i : Int) : AsmOp := { x with indent := i }

end AsmOp

/-- The data members of `struct AsmOpList` (tolk.h:1082-1086) that the inline
member functions read or write.  `constants_` holds `td::RefInt256` values.
The pointer `var_names_` is only read by the printing functions and is left
out. -/
structure AsmOpList where
  list_ : List AsmOp
  indent_ : Int
  constants_ : List (Option Int)
  retalt_ : Bool
  deriving DecidableEq, Repr

namespace AsmOpList

/-- `AsmOpList::adjust_last` (tolk.h:1118-1124): a trailing nop is popped,
any other last op gets the list's current indent.  The source calls
`list_.back()` without a check; on an empty vector that is undefined, and the
embedding leaves the list as it is there. -/
def adjust_last (o : AsmOpList) : AsmOpList :=
  match o.list_.getLast? with
  | none => o
  | some l =>
    if l.is_nop then { o with list_ := o.list_.dropLast }
    else { o with list_ := o.list_.dropLast ++ [l.withIndent o.indent_] }

/-- `AsmOpList::append(const AsmOp& op)` (tolk.h:1096-1100); the returned
`true` is dropped. -/
def append (o : AsmOpList) (op : AsmOp) : AsmOpList :=
  adjust_last { o with list_ := o.list_ ++ [op] }

/-- `AsmOpList::add(Args&&...)` (tolk.h:1091-1095) for an already built op:
`append`, then `adjust_last` once more.  `operator<<(const AsmOp&)` and
`operator<<(AsmOp&&)` (tolk.h:1105-1110) are this function. -/
def add (o : AsmOpList) (op : AsmOp) : AsmOpList :=
  adjust_last (o.append op)

/-- `AsmOpList::operator<<(std::string str)` (tolk.h:1111-1113):
`add(AsmOp::Type::a_custom, 255, 255, str)`. -/
def addStr (o : AsmOpList) (str : String) : AsmOpList :=
  o.add (AsmOp.mk4 AsmOpType.a_custom 255 255 str)

/-- `AsmOpList::insert(size_t pos, const AsmOp& op)` (tolk.h:1137-1141): the op
is inserted before position `pos` and takes the indent of the op now in front
of it, or the list's `indent_` when it became the first op.  The source
requires `pos <= list_.size()`. -/
def insert (o : AsmOpList) (pos : Nat) (op : AsmOp) : AsmOpList :=
  let ind : Int := if pos = 0 then o.indent_ else (o.list_.getD (pos - 1) op).indent
  { o with list_ := o.list_.insertIdx pos (op.withIndent ind) }

/-- `AsmOpList::insert(size_t pos, std::string str)` (tolk.h:1134-1136). -/
def insertStr (o : AsmOpList) (pos : Nat) (str : String) : AsmOpList :=
  o.insert pos (AsmOp.mk4 AsmOpType.a_custom 255 255 str)

/-- `AsmOpList::indent_all` (tolk.h:1142-1146): `++op.indent` for every op.
The increment of an `int` at `INT_MAX` is undefined in the source; the
embedding counts in `Int`. -/
def indent_all (o : AsmOpList) : AsmOpList :=
  { o with list_ := o.list_.map (fun op => op.withIndent (op.indent + 1)) }

end AsmOpList

/-! ## The value stack (`struct Stack`) -/

/-- `var_idx_t` and `const_idx_t` are `int`. -/
abbrev var_idx_t := Int

/-- `using const_idx_t = int` (tolk.h:211). -/
abbrev const_idx_t := Int

/-- `typedef std::pair<var_idx_t, const_idx_t> var_const_idx_t` (tolk.h:906). -/
abbrev var_const_idx_t := var_idx_t × const_idx_t

/-- `typedef std::vector<var_const_idx_t> StackLayoutExt` (tolk.h:907). -/
abbrev StackLayoutExt := List var_const_idx_t

/-- `Stack::_InlineFunc` (tolk.h:1479). -/
def _InlineFunc : Int := 512

/-- The data members of `struct Stack` (tolk.h:1475-1483).  The member `o` is
a reference to the op list the stack emits into; the embedding carries the
list along with the stack. -/
structure Stack where
  s : StackLayoutExt
  o : AsmOpList
  mode : Int
  deriving DecidableEq, Repr

namespace Stack

/-- `Stack::depth` (tolk.h:1490-1492): `(int)s.size()`. -/
def depth (st : Stack) : Int := int_of_size st.s.length

/-- `Stack::validate` (tolk.h:1523-1528). -/
def validate (st : Stack) (i : Int) : Except Fatal Unit :=
  if i > 255 then
    Except.error (Fatal.message "Too deep stack")
  else
    tolk_assert (decide (i ≥ 0) && decide (i < st.depth)) 1527
      "i >= 0 && i < depth() && \"invalid stack reference\""

/-- `Stack::at` (tolk.h:1497-1504; `at` is a reserved word here, hence the
underscore): `validate(i)`, then `s[depth() - i - 1]`.
After a successful `validate` the subscript is inside the vector; the last
branch is the out-of-range subscript, which the source never evaluates. -/
def at_ (st : Stack) (i : Int) : Except Fatal var_const_idx_t :=
  match st.validate i with
  | Except.error e => Except.error e
  | Except.ok _ =>
    match st.s[(st.depth - i - 1).toNat]? with
    | some e => Except.ok e
    | none => Except.error (Fatal.message "subscript out of range")

/-- `Stack::get` (tolk.h:1505-1507). -/
def get (st : Stack) (i : Int) : Except Fatal var_const_idx_t := st.at_ i

/-- `Stack::operator[]` (tolk.h:1493-1496): `validate(i)`, then
`s[depth() - i - 1].first`. -/
def index (st : Stack) (i : Int) : Except Fatal var_idx_t :=
  match st.validate i with
  | Except.error e => Except.error e
  | Except.ok _ =>
    match st.s[(st.depth - i - 1).toNat]? with
    | some e => Except.ok e.1
    | none => Except.error (Fatal.message "subscript out of range")

/-- `Stack::apply_wrappers` (tolk.h:1558-1579).  `pstring n` is the text that
`PSTRING() << n` produces for an `int`; `PSTRING` belongs to the `td`
utility library and is a parameter here.  The result is the stack (with its
op list as the source leaves it, also when the assertion on line 1572 throws)
and the outcome. -/
def apply_wrappers (pstring : Int → String) (st : Stack) (callxargs_count : Int) :
    Stack × Except Fatal Unit :=
  let is_inline : Bool := Int.land st.mode _InlineFunc != 0
  let o1 : AsmOpList :=
    if st.o.retalt_ then (st.o.insertStr 0 "SAMEALTSAVE").insertStr 0 "c2 SAVE" else st.o
  if callxargs_count != -1 || (is_inline && o1.retalt_) then
    let o2 : AsmOpList := ((o1.indent_all).insertStr 0 "CONT:<\x7b").addStr "\x7d>"
    if callxargs_count != -1 then
      if callxargs_count ≤ 15 then
        ({ st with o := o2.add (AsmOp.Custom (pstring callxargs_count ++ " -1 CALLXARGS")) },
          Except.ok ())
      else
        match tolk_assert (decide (callxargs_count ≤ 254)) 1572 "callxargs_count <= 254" with
        | Except.error e => ({ st with o := o2 }, Except.error e)
        | Except.ok _ =>
          ({ st with o := o2.add (AsmOp.Custom
              (pstring callxargs_count ++ " PUSHINT -1 PUSHINT CALLXVARARGS")) }, Except.ok ())
    else
      ({ st with o := o2.addStr "EXECUTE" }, Except.ok ())
  else
    ({ st with o := o1 }, Except.ok ())

end Stack

/-! ## Stack transforms (`struct StackTransform`) -/

/-- The data members of `struct StackTransform` (tolk.h:1195-1198).  `A` is the
`std::array` of `max_n = 16` pairs of `short`. -/
structure StackTransform where
  d : Int
  n : Int
  dp : Int
  c : Int
  invalid : Bool
  A : List (Int × Int)
  deriving DecidableEq, Repr

namespace StackTransform

/-- `StackTransform::max_n` (tolk.h:1195). -/
def max_n : Nat := 16

/-- `StackTransform::id` (tolk.h:1204-1206): `return {}`, the value-initialised
transform: the four counters take their default member initialiser `0`,
`invalid` is `false` and every pair of `A` is `(0, 0)`. -/
def id : StackTransform :=
  { d := 0, n := 0, dp := 0, c := 0, invalid := false, A := List.replicate max_n (0, 0) }

/-- `StackTransform::is_valid` (tolk.h:1211-1213). -/
def is_valid (t : StackTransform) : Bool := !t.invalid

/-- `StackTransform::set_id` (tolk.h:1214-1218): the new transform and the
returned `true`. -/
def set_id (t : StackTransform) : StackTransform × Bool :=
  ({ t with d := 0, n := 0, dp := 0, c := 0, invalid := false }, true)

/-- `StackTransform::is_id` (tolk.h:1288-1290): `is_valid() && !d && !n`. -/
def is_id (t : StackTransform) : Bool := t.is_valid && t.d == 0 && t.n == 0

/-- `StackTransform::almost_equal` (tolk.h:1244-1246).  The member function
`equal(other, relaxed)` is only declared in the header (tolk.h:1243), so it is
a parameter. -/
def almost_equal (equal : StackTransform → StackTransform → Bool → Bool)
    (a other : StackTransform) : Bool :=
  equal a other true

/-- `StackTransform::operator==` (tolk.h:1247-1249). -/
def eq (equal : StackTransform → StackTransform → Bool → Bool)
    (a other : StackTransform) : Bool :=
  a.dp == other.dp && almost_equal equal a other

/-- `StackTransform::operator<=` (tolk.h:1250-1252). -/
def le (equal : StackTransform → StackTransform → Bool → Bool)
    (a other : StackTransform) : Bool :=
  decide (a.dp ≤ other.dp) && almost_equal equal a other

/-- `StackTransform::operator>=` (tolk.h:1253-1255). -/
def ge (equal : StackTransform → StackTransform → Bool → Bool)
    (a other : StackTransform) : Bool :=
  decide (a.dp ≥ other.dp) && almost_equal equal a other

end StackTransform

/-! ## Type expressions (`struct TypeExpr`) -/

/-- The enumeration `TypeExpr::te_type` (tolk.h:56). -/
inductive te_type where
  | te_Unknown | te_Var | te_Indirect | te_Atomic | te_Tensor | te_Tuple | te_Map | te_ForAll
  deriving DecidableEq, Repr

/-- The data members of `struct TypeExpr` (tolk.h:56-70).  A `TypeExpr*` in
`args` is embedded as the node it points to. -/
inductive TypeExpr where
  | mk (constr : te_type) (value : Int) (minw maxw : Int) (args : List TypeExpr)
      (was_forall_var : Bool)
  deriving Repr

namespace TypeExpr

/-- Member `constr`. -/
def constr : TypeExpr → te_type
  | mk c _ _ _ _ _ => c

/-- Member `value`. -/
def value : TypeExpr → Int
  | mk _ v _ _ _ _ => v

/-- Member `minw`. -/
def minw : TypeExpr → Int
  | mk _ _ lo _ _ _ => lo

/-- Member `maxw`. -/
def maxw : TypeExpr → Int
  | mk _ _ _ hi _ _ => hi

/-- Member `args`. -/
def args : TypeExpr → List TypeExpr
  | mk _ _ _ _ as _ => as

/-- Member `was_forall_var`. -/
def was_forall_var : TypeExpr → Bool
  | mk _ _ _ _ _ f => f

/-- `TypeExpr::w_inf` (tolk.h:68). -/
def w_inf : Int := 1023

/-- `TypeExpr::has_fixed_width` (tolk.h:114-116). -/
def has_fixed_width (t : TypeExpr) : Bool := t.minw == t.maxw

/-- `TypeExpr::get_width` (tolk.h:117-119). -/
def get_width (t : TypeExpr) : Int := if t.has_fixed_width then t.minw else -1

/-- The constructor `TypeExpr(te_type _constr, int _val, int width)`
(tolk.h:73-74). -/
def mkWidth (c : te_type) (val width : Int) : TypeExpr := mk c val width width [] false

/-- Modelled from the spec: `TypeExpr::compute_width`, which tolk.h:120 only
declares.  Section 4.A, "Width computation": on construction of a compound
node, child widths are summed (tensor) or fixed to 1 (tuple, map, atomic); with
children of width range `[l_i, h_i]` the parent's range becomes
`[sum of l_i, min(w_inf, sum of h_i)]`.  The spec gives no rule for the other
kinds of node, which keep their range. -/
def compute_width : TypeExpr → TypeExpr
  | mk te_type.te_Tensor v _ _ as f =>
      mk te_type.te_Tensor v (as.map minw).sum (min w_inf (as.map maxw).sum) as f
  | mk te_type.te_Tuple v _ _ as f => mk te_type.te_Tuple v 1 1 as f
  | mk te_type.te_Map v _ _ as f => mk te_type.te_Map v 1 1 as f
  | mk te_type.te_Atomic v _ _ as f => mk te_type.te_Atomic v 1 1 as f
  | t => t

/-- The constructor `TypeExpr(te_type _constr, std::vector<TypeExpr*> list)`
(tolk.h:75-78): `value` is `(int)list.size()`, `args` the list, and the
width range is whatever `compute_width()` sets (the members `minw`, `maxw`
have no initialiser; `0` stands for their value before that call). -/
def mkList (c : te_type) (list : List TypeExpr) : TypeExpr :=
  compute_width (mk c (int_of_size list.length) 0 0 list false)

/-- `TypeExpr::new_hole(int width)` (tolk.h:132-134): `++holes`, then a
`te_Unknown` node of that id and fixed width.  The static counter `holes` is
passed in and returned. -/
def new_hole_width (holes : Int) (width : Int) : TypeExpr × Int :=
  (mkWidth te_type.te_Unknown (holes + 1) width, holes + 1)

/-- `TypeExpr::new_unit` (tolk.h:135-137): `new TypeExpr{te_Tensor, 0, 0}`, which
selects the `(te_type, int, int)` constructor. -/
def new_unit : TypeExpr := mkWidth te_type.te_Tensor 0 0

/-- `TypeExpr::new_tensor(std::vector<TypeExpr*> list, bool red = true)`
(tolk.h:145-147). -/
def new_tensor (list : List TypeExpr) (red : Bool) : TypeExpr :=
  if h : red = true ∧ list.length = 1 then list.get ⟨0, by omega⟩
  else mkList te_type.te_Tensor list

end TypeExpr

/-! ## Unification (section 4.A of the specification) -/

/-- Modelled from the spec: the type expressions of section 3 as a tagged tree,
for the functions `unify` and `TypeExpr::equals_to` that tolk.h only declares.
A hole `Unknown(id, width)` is named by its id; its width range is shared by
all its occurrences and lives in the `Store`.  `Indirect(target)` is not a
variant of its own: a hole that unification has retargeted is a hole with a
target in the `Store`. -/
inductive Ty where
  | hole (id : Int)
  | var (id : Int)
  | atomic (kind : Int)
  | tensor (args : List Ty)
  | tuple (inner : Ty)
  | map (dom cod : Ty)
  | forAll (vars : List Int) (body : Ty)
  deriving Repr

/-- One binding made by unification: the hole, its width range `[minw, maxw]`
when it was bound, and the width range `[bminw, bmaxw]` of what it was bound
to. -/
structure Binding where
  hole : Int
  minw : Int
  maxw : Int
  bminw : Int
  bmaxw : Int
  deriving DecidableEq, Repr

/-- `get_width()` (tolk.h:117-119) of the binding: its width when that is fixed,
`-1` otherwise. -/
def Binding.width (b : Binding) : Int := if b.bminw == b.bmaxw then b.bminw else -1

/-- Modelled from the spec: the mutable state that `unify` works on.
`target h` is the target of the `Indirect` node that hole `h` has become, if
any; `minw h`, `maxw h` is the width range of hole `h`; `holes` is the counter
`TypeExpr::holes`; `bound` lists the bindings made so far, oldest first. -/
structure Store where
  target : Int → Option Ty
  minw : Int → Int
  maxw : Int → Int
  holes : Int
  bound : List Binding

namespace Ty

mutual
/-- Every hole `h` with `b h = some t` replaced by `t`: the expression with
its `Indirect` nodes logically replaced by their targets. -/
def subst (b : Int → Option Ty) : Ty → Ty
  | hole h =>
    match b h with
    | some t => t
    | none => hole h
  | var i => var i
  | atomic k => atomic k
  | tensor args => tensor (substList b args)
  | tuple t => tuple (subst b t)
  | map d c => map (subst b d) (subst b c)
  | forAll vs t => forAll vs (subst b t)
/-- `subst` along a list of children. -/
def substList (b : Int → Option Ty) : List Ty → List Ty
  | [] => []
  | t :: ts => subst b t :: substList b ts
end

mutual
/-- Whether hole `h` appears in the expression. -/
def occurs (h : Int) : Ty → Bool
  | hole k => k == h
  | var _ => false
  | atomic _ => false
  | tensor args => occursList h args
  | tuple t => occurs h t
  | map d c => occurs h d || occurs h c
  | forAll _ t => occurs h t
/-- `occurs` along a list of children. -/
def occursList (h : Int) : List Ty → Bool
  | [] => false
  | t :: ts => occurs h t || occursList h ts
end

mutual
/-- Whether the expression has no `ForAll` node. -/
def forallFree : Ty → Bool
  | hole _ => true
  | var _ => true
  | atomic _ => true
  | tensor args => forallFreeList args
  | tuple t => forallFree t
  | map d c => forallFree d && forallFree c
  | forAll _ _ => false
/-- `forallFree` along a list of children. -/
def forallFreeList : List Ty → Bool
  | [] => true
  | t :: ts => forallFree t && forallFreeList ts
end

mutual
/-- Structural equality of two expressions. -/
def beq : Ty → Ty → Bool
  | hole h, hole k => h == k
  | var i, var j => i == j
  | atomic k, atomic l => k == l
  | tensor as, tensor bs => beqList as bs
  | tuple a, tuple b => beq a b
  | map a1 a2, map b1 b2 => beq a1 b1 && beq a2 b2
  | forAll vs a, forAll ws b => vs == ws && beq a b
  | _, _ => false
/-- `beq` along two lists of children. -/
def beqList : List Ty → List Ty → Bool
  | [], [] => true
  | a :: as, b :: bs => beq a b && beqList as bs
  | _, _ => false
end

mutual
/-- Every rigid variable `v` with `f v = some t` replaced by `t`. -/
def substVar (f : Int → Option Ty) : Ty → Ty
  | hole h => hole h
  | var i =>
    match f i with
    | some t => t
    | none => var i
  | atomic k => atomic k
  | tensor args => tensor (substVarList f args)
  | tuple t => tuple (substVar f t)
  | map d c => map (substVar f d) (substVar f c)
  | forAll vs t => forAll vs (substVar f t)
/-- `substVar` along a list of children. -/
def substVarList (f : Int → Option Ty) : List Ty → List Ty
  | [] => []
  | t :: ts => substVar f t :: substVarList f ts
end

end Ty

namespace Store

mutual
/-- Modelled from the spec: the width range of an expression (section 3 and
section 4.A, "Width computation"): a hole has its own range, atomic, tuple and
map types have width 1, a tensor has the range
`[sum of l_i, min(w_inf, sum of h_i)]` of its children's ranges.  A rigid
variable has width 1 (`new_var`, tolk.h:166-171); the spec gives no width for a
`ForAll`, which takes the range of its body. -/
def widthRange (σ : Store) : Ty → Int × Int
  | Ty.hole h => (σ.minw h, σ.maxw h)
  | Ty.var _ => (1, 1)
  | Ty.atomic _ => (1, 1)
  | Ty.tensor args => ((widthRangeList σ args).1, min TypeExpr.w_inf (widthRangeList σ args).2)
  | Ty.tuple _ => (1, 1)
  | Ty.map _ _ => (1, 1)
  | Ty.forAll _ t => widthRange σ t
/-- The sums of the lower and of the upper ends of the children's ranges. -/
def widthRangeList (σ : Store) : List Ty → Int × Int
  | [] => (0, 0)
  | t :: ts =>
    ((widthRange σ t).1 + (widthRangeList σ ts).1, (widthRange σ t).2 + (widthRangeList σ ts).2)
end

end Store

/-- State `σ2` extends state `σ1`: resolving an expression in `σ1` first makes
no difference to what it is in `σ2`. -/
def Store.ext (σ1 σ2 : Store) : Prop :=
  ∀ u, Ty.subst σ2.target (Ty.subst σ1.target u) = Ty.subst σ2.target u

/-- The composition of two substitutions: first `b1`, then `b2`. -/
def Ty.comp (b1 b2 : Int → Option Ty) (k : Int) : Option Ty :=
  match b1 k with
  | some u => some (Ty.subst b2 u)
  | none => b2 k

/-- The tensor `((hole 2), (atomic 1, atomic 1, atomic 1))`. -/
def Ty.exampleInner : Ty :=
  Ty.tensor [Ty.tensor [Ty.hole 2], Ty.tensor [Ty.atomic 1, Ty.atomic 1, Ty.atomic 1]]

/-- A stack of depth 256 whose entries are the variables 0..255, none of them
known to hold a constant. -/
def Stack.example256 : Stack :=
  { s := List.map (fun (k : Nat) => (Int.ofNat k, -1)) (List.range 256),
    o := { list_ := [], indent_ := 0, constants_ := [], retalt_ := false },
    mode := 0 }

/-- A stack whose layout vector has `2^31` entries, all for the variable 0. -/
def Stack.example_deep : Stack :=
  { s := List.replicate (2 ^ 31) (0, -1),
    o := { list_ := [], indent_ := 0, constants_ := [], retalt_ := false },
    mode := 0 }

/-- A stack holding, from the bottom up, the variables 10, 11 and 12. -/
def Stack.example3 : Stack :=
  { s := [(10, -1), (11, -1), (12, 7)],
    o := { list_ := [], indent_ := 0, constants_ := [], retalt_ := false },
    mode := 0 }

/-- The custom op with text `str` (arity `255, 255`) standing at indent `ind`. -/
def customAt (str : String) (ind : Int) : AsmOp :=
  (AsmOp.mk4 AsmOpType.a_custom 255 255 str).withIndent ind

/-- The ops that `apply_wrappers` puts in front of the body when `retalt_` is set. -/
def AsmOpList.altSave (o : AsmOpList) : List AsmOp :=
  if o.retalt_ then [customAt "c2 SAVE" o.indent_, customAt "SAMEALTSAVE" o.indent_] else []

/-- The condition under which `apply_wrappers` wraps the body (tolk.h:1564). -/
def Stack.wraps (st : Stack) (callxargs_count : Int) : Bool :=
  callxargs_count != -1 || (Int.land st.mode _InlineFunc != 0 && st.o.retalt_)

/-- One more level of indent. -/
def AsmOp.indented (x : AsmOp) : AsmOp := x.withIndent (x.indent + 1)

/-- The op list of a wrapped body before the call op is added. -/
def Stack.wrappedBody (st : Stack) : List AsmOp :=
  customAt "CONT:<\x7b" st.o.indent_ ::
    (st.o.altSave ++ st.o.list_).map AsmOp.indented ++ [customAt "\x7d>" st.o.indent_]

/-- Whether an op carries the text of one of the two alternate-continuation
save instructions. -/
def AsmOp.isAltSave (x : AsmOp) : Bool := x.op == "c2 SAVE" || x.op == "SAMEALTSAVE"

/-- Decimal rendering of an `int`, the instance of `PSTRING() << n` used in the
concrete examples. -/
def decimal (n : Int) : String := toString n

/-- A stack in inline mode whose op list holds one op `NOP` and needs the
alternate-continuation save. -/
def Stack.exampleInline : Stack :=
  { s := [],
    o := { list_ := [customAt "NOP" 0], indent_ := 0, constants_ := [], retalt_ := true },
    mode := 512 }

/-- Two holes of fixed width 600 each, made by `new_hole(600)` twice starting
from the counter value 0. -/
def TypeExpr.exampleWide : List TypeExpr :=
  [(TypeExpr.new_hole_width 0 600).1, (TypeExpr.new_hole_width 1 600).1]

/-- Two holes of fixed widths 2 and 3. -/
def TypeExpr.exampleNarrow : List TypeExpr :=
  [(TypeExpr.new_hole_width 0 2).1, (TypeExpr.new_hole_width 1 3).1]

/-! ## Type expressions: atomic types and holes -/

namespace TypeExpr

/-- The constructor `TypeExpr(te_type _constr, int _val = 0)` (tolk.h:71-72): the
width range is `[0, w_inf]`. -/
def mkVal (c : te_type) (val : Int) : TypeExpr := mk c val 0 w_inf [] false

/-- `TypeExpr::is_atomic()` (tolk.h:96-98). -/
def is_atomic (t : TypeExpr) : Bool := t.constr == te_type.te_Atomic

/-- `TypeExpr::is_atomic(int v)` (tolk.h:99-101). -/
def is_atomic_v (t : TypeExpr) (v : Int) : Bool :=
  t.constr == te_type.te_Atomic && t.value == v

/-- `TypeExpr::new_atomic(int value)` (tolk.h:138-140):
`new TypeExpr{te_Atomic, value, 1}`. -/
def new_atomic (value : Int) : TypeExpr := mkWidth te_type.te_Atomic value 1

/-- `TypeExpr::new_hole()` (tolk.h:129-131): `++holes`, then
`new TypeExpr{te_Unknown, holes}`, which selects the `(te_type, int)`
constructor.  The static counter `holes` is passed in and returned. -/
def new_hole (holes : Int) : TypeExpr × Int :=
  (mkVal te_type.te_Unknown (holes + 1), holes + 1)

end TypeExpr

/-! ## Value descriptors (`struct VarDescr`) -/

/-- The data members of `struct VarDescr` (tolk.h:230-258).  `int_const` is a
`td::RefInt256`, a nullable reference to a big integer. -/
structure VarDescr where
  idx : Int
  flags : Int
  val : Int
  int_const : Option Int
  str_const : String
  deriving DecidableEq, Repr

namespace VarDescr

/-- `VarDescr::_Last` (tolk.h:231). -/
def _Last : Int := 1

/-- `VarDescr::_Unused` (tolk.h:231). -/
def _Unused : Int := 2

/-- `VarDescr::_Const` (tolk.h:234). -/
def _Const : Int := 16

/-- `VarDescr::_Int` (tolk.h:235). -/
def _Int : Int := 32

/-- `VarDescr::_Zero` (tolk.h:236). -/
def _Zero : Int := 64

/-- `VarDescr::_NonZero` (tolk.h:237). -/
def _NonZero : Int := 128

/-- `VarDescr::_Pos` (tolk.h:238). -/
def _Pos : Int := 256

/-- `VarDescr::_Neg` (tolk.h:239). -/
def _Neg : Int := 512

/-- `VarDescr::_Bool` (tolk.h:240). -/
def _Bool : Int := 1024

/-- `VarDescr::_Bit` (tolk.h:241). -/
def _Bit : Int := 2048

/-- `VarDescr::_Finite` (tolk.h:242). -/
def _Finite : Int := 4096

/-- `VarDescr::_Nan` (tolk.h:243). -/
def _Nan : Int := 8192

/-- `VarDescr::_Even` (tolk.h:244). -/
def _Even : Int := 16384

/-- `VarDescr::_Odd` (tolk.h:245). -/
def _Odd : Int := 32768

/-- `VarDescr::_Null` (tolk.h:246): `(1 << 16)`. -/
def _Null : Int := 65536

/-- `VarDescr::_NotNull` (tolk.h:247): `(1 << 17)`. -/
def _NotNull : Int := 131072

/-- The bitwise `a | b` of two `int` values. -/
def bor (a b : Int) : Int := Int.lor a b

/-- The bitwise `a & b` of two `int` values. -/
def band (a b : Int) : Int := Int.land a b

/-- `VarDescr::ConstZero` (tolk.h:249). -/
def ConstZero : Int :=
  bor (bor (bor (bor (bor (bor (bor (bor _Int _Zero) _Pos) _Neg) _Bool) _Bit) _Finite) _Even)
    _NotNull

/-- `VarDescr::ConstOne` (tolk.h:250). -/
def ConstOne : Int :=
  bor (bor (bor (bor (bor (bor _Int _NonZero) _Pos) _Bit) _Finite) _Odd) _NotNull

/-- `VarDescr::ConstTrue` (tolk.h:251). -/
def ConstTrue : Int :=
  bor (bor (bor (bor (bor (bor _Int _NonZero) _Neg) _Bool) _Finite) _Odd) _NotNull

/-- `VarDescr::ValBit` (tolk.h:252). -/
def ValBit : Int := band ConstZero ConstOne

/-- `VarDescr::ValBool` (tolk.h:253). -/
def ValBool : Int := band ConstZero ConstTrue

/-- `VarDescr::FiniteInt` (tolk.h:254). -/
def FiniteInt : Int := bor (bor _Int _Finite) _NotNull

/-- `VarDescr::FiniteUInt` (tolk.h:255). -/
def FiniteUInt : Int := bor FiniteInt _Pos

/-- `VarDescr::always_nonzero` (tolk.h:277-279). -/
def always_nonzero (v : VarDescr) : Bool := band v.val _NonZero != 0

/-- `VarDescr::always_zero` (tolk.h:280-282). -/
def always_zero (v : VarDescr) : Bool := band v.val _Zero != 0

/-- `VarDescr::always_even` (tolk.h:283-285). -/
def always_even (v : VarDescr) : Bool := band v.val _Even != 0

/-- `VarDescr::always_odd` (tolk.h:286-288). -/
def always_odd (v : VarDescr) : Bool := band v.val _Odd != 0

/-- `VarDescr::always_null` (tolk.h:289-291). -/
def always_null (v : VarDescr) : Bool := band v.val _Null != 0

/-- `VarDescr::always_not_null` (tolk.h:292-294). -/
def always_not_null (v : VarDescr) : Bool := band v.val _NotNull != 0

/-- `VarDescr::always_nonpos` (tolk.h:301-303). -/
def always_nonpos (v : VarDescr) : Bool := band v.val _Neg != 0

/-- `VarDescr::always_nonneg` (tolk.h:304-306). -/
def always_nonneg (v : VarDescr) : Bool := band v.val _Pos != 0

/-- `VarDescr::always_pos` (tolk.h:307-309). -/
def always_pos (v : VarDescr) : Bool := band v.val (bor _Pos _NonZero) == bor _Pos _NonZero

/-- `VarDescr::always_neg` (tolk.h:310-312). -/
def always_neg (v : VarDescr) : Bool := band v.val (bor _Neg _NonZero) == bor _Neg _NonZero

/-- `VarDescr::always_finite` (tolk.h:313-315). -/
def always_finite (v : VarDescr) : Bool := band v.val _Finite != 0

/-- The fourteen value-fact masks of tolk.h:233-248, in source order. -/
def factMasks : List Int :=
  [_Const, _Int, _Zero, _NonZero, _Pos, _Neg, _Bool, _Bit, _Finite, _Nan, _Even, _Odd, _Null,
    _NotNull]

/-- The seven named fact sets of tolk.h:249-255. -/
def namedSets : List Int :=
  [ConstZero, ConstOne, ConstTrue, ValBit, ValBool, FiniteInt, FiniteUInt]

/-- Whether fact set `s` contains every fact of `f`. -/
def contains (s f : Int) : Bool := band s f == f

end VarDescr

/-- The answers of the eleven `always_*` predicates of the claim, by name. -/
structure Facts where
  zero : Bool
  nonzero : Bool
  even : Bool
  odd : Bool
  nonneg : Bool
  nonpos : Bool
  pos : Bool
  neg : Bool
  finite : Bool
  null : Bool
  not_null : Bool
  deriving DecidableEq, Repr

/-- What the predicates of a descriptor answer. -/
def VarDescr.alwaysFacts (v : VarDescr) : Facts :=
  { zero := v.always_zero, nonzero := v.always_nonzero, even := v.always_even,
    odd := v.always_odd, nonneg := v.always_nonneg, nonpos := v.always_nonpos,
    pos := v.always_pos, neg := v.always_neg, finite := v.always_finite,
    null := v.always_null, not_null := v.always_not_null }

/-- The truth values of the corresponding statements about the integer `n`: a
finite, non-null integer, with nonneg read as `>= 0`, nonpos as `<= 0`, pos as
`> 0` and neg as `< 0`. -/
def Facts.ofInt (n : Int) : Facts :=
  { zero := decide (n = 0), nonzero := decide (n ≠ 0), even := decide (n % 2 = 0),
    odd := decide (n % 2 = 1), nonneg := decide (n ≥ 0), nonpos := decide (n ≤ 0),
    pos := decide (n > 0), neg := decide (n < 0), finite := true, null := false,
    not_null := true }

/-! ## Assembler operations: stack ops and constants -/

namespace AsmOp

/-- The constructor `AsmOp(Type _t)` (tolk.h:925-926).  The members `a` and `b`
have no initialiser and the constructor does not set them; `leftover` stands
for whatever they hold. -/
def mk1 (t : AsmOpType) (leftover : Int × Int) : AsmOp :=
  { t := t, indent := 0, a := leftover.1, b := leftover.2, gconst := false, op := "",
    origin := none }

/-- The constructor `AsmOp(Type _t, int _a, int _b)` (tolk.h:933-934). -/
def mk3 (t : AsmOpType) (a b : Int) : AsmOp :=
  { t := t, indent := 0, a := a, b := b, gconst := false, op := "", origin := none }

/-- The constructor `AsmOp(Type _t, int _a, int _b, std::string _op,
td::RefInt256 x)` (tolk.h:938-940). -/
def mk5 (t : AsmOpType) (a b : Int) (op : String) (x : Option Int) : AsmOp :=
  compute_gconst { t := t, indent := 0, a := a, b := b, gconst := false, op := op, origin := x }

/-- `AsmOp::is_xchg()` (tolk.h:975-977). -/
def is_xchg (x : AsmOp) : Bool := x.t == AsmOpType.a_xchg

/-- `AsmOp::is_xchg(int x, int y)` (tolk.h:978-980). -/
def is_xchg_at (o : AsmOp) (x y : Int) : Bool := o.is_xchg && o.b == y && o.a == x

/-- `AsmOp::is_xchg_short` (tolk.h:986-988). -/
def is_xchg_short (x : AsmOp) : Bool := x.is_xchg && (decide (x.a ≤ 1) || decide (x.b ≤ 1))

/-- `AsmOp::is_swap` (tolk.h:989-991). -/
def is_swap (x : AsmOp) : Bool := x.is_xchg_at 0 1

/-- `AsmOp::is_const` (tolk.h:992-994): `t == a_const && !a && b == 1`. -/
def is_const (x : AsmOp) : Bool := x.t == AsmOpType.a_const && x.a == 0 && x.b == 1

/-- `AsmOp::is_gconst` (tolk.h:995-997): `!a && b == 1 && (t == a_const || gconst)`. -/
def is_gconst (x : AsmOp) : Bool :=
  x.a == 0 && x.b == 1 && (x.t == AsmOpType.a_const || x.gconst)

/-- `AsmOp::Xchg(int a, int b = 0)` (tolk.h:1001-1003).  `leftover` is passed to
the constructor `AsmOp(a_none)` of the case `a == b`. -/
def Xchg (a b : Int) (leftover : Int × Int) : AsmOp :=
  if a = b then mk1 AsmOpType.a_none leftover
  else if a < b then mk3 AsmOpType.a_xchg a b
  else mk3 AsmOpType.a_xchg b a

/-- `AsmOp::Const(std::string push_op, td::RefInt256 origin = {})`
(tolk.h:1055-1057). -/
def Const (push_op : String) (origin : Option Int) : AsmOp :=
  mk5 AsmOpType.a_const 0 1 push_op origin

/-- `AsmOp::Custom(std::string custom_op, int args, int retv = 1)`
(tolk.h:1066-1068). -/
def CustomArgs (custom_op : String) (args retv : Int) : AsmOp :=
  mk4 AsmOpType.a_custom args retv custom_op

/-- The six op names for which `compute_gconst` sets `gconst` (tolk.h:945). -/
def gconstNames : List String := ["PUSHNULL", "NEWC", "NEWB", "TRUE", "FALSE", "NOW"]

end AsmOp

/-! ## Function symbols (`struct SymValFunc`) -/

/-- The enumeration `SymValFunc::SymValFlag` (tolk.h:661-669). -/
inductive SymValFlag where
  | flagInline | flagInlineRef | flagWrapsAnotherF | flagUsedAsNonCall | flagMarkedAsPure
  | flagBuiltinFunction | flagGetMethod
  deriving DecidableEq, Repr

/-- The enumerator values of `SymValFlag` (tolk.h:662-668). -/
def SymValFlag.mask : SymValFlag → Int
  | flagInline => 1
  | flagInlineRef => 2
  | flagWrapsAnotherF => 4
  | flagUsedAsNonCall => 8
  | flagMarkedAsPure => 16
  | flagBuiltinFunction => 32
  | flagGetMethod => 64

/-- The position of the single bit of each flag. -/
def SymValFlag.bit : SymValFlag → Nat
  | flagInline => 0
  | flagInlineRef => 1
  | flagWrapsAnotherF => 2
  | flagUsedAsNonCall => 3
  | flagMarkedAsPure => 4
  | flagBuiltinFunction => 5
  | flagGetMethod => 6

/-- The data members of `struct SymValFunc` (tolk.h:671-673) and of its bases
`SymVal` (tolk.h:649-650) and `SymValBase` (the index `idx`; the base is declared
in `symtable.h`).  `sym_type` is the function type, `method_id` a nullable
`td::RefInt256`. -/
structure SymValFunc where
  idx : Int
  sym_type : Option TypeExpr
  auto_apply : Bool
  method_id : Option Int
  flags : Int
  arg_order : List Int
  ret_order : List Int

namespace SymValFunc

/-- The constructor `SymValFunc(int val, TypeExpr* _ft, bool marked_as_pure)`
(tolk.h:678-679). -/
def mk3 (val : Int) (_ft : Option TypeExpr) (marked_as_pure : Bool) : SymValFunc :=
  { idx := val, sym_type := _ft, auto_apply := false, method_id := none,
    flags := if marked_as_pure then SymValFlag.flagMarkedAsPure.mask else 0,
    arg_order := [], ret_order := [] }

/-- The constructor `SymValFunc(int val, TypeExpr* _ft,
std::initializer_list<int> _arg_order, std::initializer_list<int> _ret_order,
bool marked_as_pure)` (tolk.h:680-682). -/
def mk5 (val : Int) (_ft : Option TypeExpr) (_arg_order _ret_order : List Int)
    (marked_as_pure : Bool) : SymValFunc :=
  { idx := val, sym_type := _ft, auto_apply := false, method_id := none,
    flags := if marked_as_pure then SymValFlag.flagMarkedAsPure.mask else 0,
    arg_order := _arg_order, ret_order := _ret_order }

/-- `SymValFunc::is_inline` (tolk.h:692-694). -/
def is_inline (s : SymValFunc) : Bool := Int.land s.flags SymValFlag.flagInline.mask != 0

/-- `SymValFunc::is_inline_ref` (tolk.h:695-697). -/
def is_inline_ref (s : SymValFunc) : Bool :=
  Int.land s.flags SymValFlag.flagInlineRef.mask != 0

/-- `SymValFunc::is_just_wrapper_for_another_f` (tolk.h:698-700). -/
def is_just_wrapper_for_another_f (s : SymValFunc) : Bool :=
  Int.land s.flags SymValFlag.flagWrapsAnotherF.mask != 0

/-- `SymValFunc::is_marked_as_pure` (tolk.h:701-703). -/
def is_marked_as_pure (s : SymValFunc) : Bool :=
  Int.land s.flags SymValFlag.flagMarkedAsPure.mask != 0

/-- `SymValFunc::is_builtin` (tolk.h:704-706). -/
def is_builtin (s : SymValFunc) : Bool :=
  Int.land s.flags SymValFlag.flagBuiltinFunction.mask != 0

/-- `SymValFunc::is_get_method` (tolk.h:707-709). -/
def is_get_method (s : SymValFunc) : Bool :=
  Int.land s.flags SymValFlag.flagGetMethod.mask != 0

/-- The test `flags & f` of an arbitrary flag `f`, as the six predicates above
make it for their own flag. -/
def has (s : SymValFunc) (f : SymValFlag) : Bool := Int.land s.flags f.mask != 0

/-- The statement `flags |= f`. -/
def setFlag (s : SymValFunc) (f : SymValFlag) : SymValFunc :=
  { s with flags := Int.lor s.flags f.mask }

/-- The statement `flags &= ~f`. -/
def clearFlag (s : SymValFunc) (f : SymValFlag) : SymValFunc :=
  { s with flags := Int.land s.flags (Int.lnot f.mask) }

end SymValFunc

/-! ## Abstract code (`struct Op`, `struct CodeBlob`) -/

/-- The enumeration `Op::OpKind` (tolk.h:438-458). -/
inductive OpKind where
  | _Undef | _Nop | _Call | _CallInd | _Let | _IntConst | _GlobVar | _SetGlob | _Import
  | _Return | _Tuple | _UnTuple | _If | _While | _Until | _Repeat | _Again | _TryCatch
  | _SliceConst
  deriving DecidableEq, Repr

/-- `SrcLocation` is declared in `src-file.h`; a location is taken as a number. -/
abbrev SrcLocation := Nat

/-- The data members of `struct VarDescrList` (tolk.h:355-356). -/
structure VarDescrList where
  list : List VarDescr
  unreachable : Bool
  deriving DecidableEq, Repr

/-- The data members of `struct Op` (tolk.h:459-470) other than the three owning
pointers `next`, `block0`, `block1`.  `fun_ref` is a `SymDef*`, taken as an
optional address; `loc` is the member `where`. -/
structure OpData where
  cl : OpKind
  flags : Int
  fun_ref : Option Nat
  loc : SrcLocation
  var_info : VarDescrList
  args : List VarDescr
  left : List Int
  right : List Int
  int_const : Option Int
  str_const : String
  deriving DecidableEq, Repr

/-- The constructor `Op(SrcLocation _where = {}, OpKind _cl = _Undef)`
(tolk.h:471-472); the members it does not name are default-constructed. -/
def OpData.mk2 (_where : SrcLocation) (_cl : OpKind) : OpData :=
  { cl := _cl, flags := 0, fun_ref := none, loc := _where,
    var_info := { list := [], unreachable := false }, args := [], left := [], right := [],
    int_const := none, str_const := "" }

/-- The three members of `struct Op` that are a `std::unique_ptr<Op>`
(tolk.h:462, 468). -/
inductive Field where
  | next | block0 | block1
  deriving DecidableEq, Repr

/-- An object of `struct Op`: the address at which it lives, its data, and the
ops it owns through `next`, `block0` and `block1` (a null pointer is `none`). -/
inductive Op where
  | mk (addr : Nat) (d : OpData) (next block0 block1 : Option Op)
  deriving Repr

namespace Op

/-- The address of the object. -/
def addr : Op → Nat
  | mk a _ _ _ _ => a

/-- The data of the object. -/
def d : Op → OpData
  | mk _ x _ _ _ => x

/-- Member `next`. -/
def next : Op → Option Op
  | mk _ _ n _ _ => n

/-- Member `block0`. -/
def block0 : Op → Option Op
  | mk _ _ _ b _ => b

/-- Member `block1`. -/
def block1 : Op → Option Op
  | mk _ _ _ _ b => b

/-- One of the three owning pointers. -/
def field (o : Op) : Field → Option Op
  | Field.next => o.next
  | Field.block0 => o.block0
  | Field.block1 => o.block1

/-- Assignment to one of the three owning pointers. -/
def setField : Op → Field → Option Op → Op
  | mk a x _ b0 b1, Field.next, v => mk a x v b0 b1
  | mk a x n _ b1, Field.block0, v => mk a x n v b1
  | mk a x n b0 _, Field.block1, v => mk a x n b0 v

/-- `Op::is_empty` (tolk.h:522-524): `cl == _Nop && !next`. -/
def is_empty (o : Op) : Bool := o.d.cl == OpKind._Nop && o.next.isNone

/-- `Op::last` (tolk.h:527-532): `next ? next->last() : *this`. -/
def last : Op → Op
  | mk _ _ (some n) _ _ => last n
  | mk a x none b0 b1 => mk a x none b0 b1

/-- The ops of a list, following `next` from its first op. -/
def toList : Op → List Op
  | mk a x (some n) b0 b1 => mk a x (some n) b0 b1 :: toList n
  | mk a x none b0 b1 => [mk a x none b0 b1]

/-- The object that `std::make_unique<Op>(args...)` creates at address `a` with
data `x`: every constructor of `Op` leaves the three owning pointers null. -/
def fresh (a : Nat) (x : OpData) : Op := mk a x none none none

end Op

/-- The op that a `std::unique_ptr<Op>` reaches along a sequence of members,
starting from the op it owns. -/
def opAt : Option Op → List Field → Option Op
  | t, [] => t
  | none, _ :: _ => none
  | some o, f :: p => opAt (o.field f) p

/-- The tree after the assignment of `v` to the owning pointer that is reached
from `t` along the members `p` (`p = []` is `t` itself).  A path through a null
pointer names no pointer and leaves the tree as it is. -/
def writeAt : Option Op → List Field → Option Op → Option Op
  | _, [], v => v
  | none, _ :: _, _ => none
  | some o, f :: p, v => some (o.setField f (writeAt (o.field f) p v))

/-- Whether path `w` is an initial segment of path `r`: the pointer at `w` is
the pointer at `r` or owns it. -/
def above : List Field → List Field → Bool
  | [], _ => true
  | _ :: _, [] => false
  | f :: w, g :: r => f == g && above w r

/-- A value of type `std::unique_ptr<Op>*` as `CodeBlob` uses it: the address
of the member `ops` of the blob, or of the member `f` of the `Op` object at
address `addr`.  `path` records where that object hangs in the tree of `ops`
(the members to follow from the first op); it is used to find the object,
and the pointer is valid only while the object at `path` is the one at `addr`. -/
inductive Slot where
  | ops
  | member (path : List Field) (addr : Nat) (f : Field)
  deriving DecidableEq, Repr

/-- The members to follow from `ops` to reach the pointer itself. -/
def Slot.fields : Slot → List Field
  | Slot.ops => []
  | Slot.member p _ f => p ++ [f]

/-- Whether the pointer points to a live `std::unique_ptr<Op>` of the tree `t`. -/
def Slot.valid (t : Option Op) : Slot → Bool
  | Slot.ops => true
  | Slot.member p a _ =>
    match opAt t p with
    | some o => o.addr == a
    | none => false

/-- `*s`: the op owned by the pointed-to `unique_ptr`; `none` when the pointer
dangles. -/
def Slot.load (t : Option Op) (s : Slot) : Option (Option Op) :=
  if s.valid t then some (opAt t s.fields) else none

/-- `*s = v`: the tree after the assignment (the op that the `unique_ptr` owned
before, with all it owns, is destroyed); `none`, undefined behaviour, when the
pointer dangles. -/
def Slot.store (t : Option Op) (s : Slot) (v : Option Op) : Option (Option Op) :=
  if s.valid t then some (writeAt t s.fields v) else none

/-- The data members of `struct CodeBlob` (tolk.h:585-595) that the inline
member functions use, and the counters and flags next to them.  `ret_type`,
`name`, `loc` and `vars` are left out. -/
structure CodeBlob where
  var_cnt : Int
  in_var_cnt : Int
  op_cnt : Int
  ops : Option Op
  cur_ops : Slot
  cur_ops_stack : List Slot
  flags : Int
  require_callxargs : Bool

namespace CodeBlob

/-- The constructor `CodeBlob(TypeExpr* ret = nullptr)` (tolk.h:596-597). -/
def init : CodeBlob :=
  { var_cnt := 0, in_var_cnt := 0, op_cnt := 0, ops := none, cur_ops := Slot.ops,
    cur_ops_stack := [], flags := 0, require_callxargs := false }

/-- `CodeBlob::emplace_back(args...)` (tolk.h:598-603).  `a` is the address of
the object that `std::make_unique<Op>(args...)` creates and `x` its data; the
returned reference is to the object at `a`. -/
def emplace_back (c : CodeBlob) (a : Nat) (x : OpData) : Option CodeBlob :=
  match c.cur_ops.store c.ops (some (Op.fresh a x)) with
  | none => none
  | some t => some { c with ops := t, cur_ops := Slot.member c.cur_ops.fields a Field.next }

/-- `CodeBlob::push_set_cur` (tolk.h:613-616). -/
def push_set_cur (c : CodeBlob) (new_cur_ops : Slot) : CodeBlob :=
  { c with cur_ops_stack := c.cur_ops :: c.cur_ops_stack, cur_ops := new_cur_ops }

/-- `CodeBlob::close_blk` (tolk.h:617-619); `a` is the address of the new `Nop`. -/
def close_blk (c : CodeBlob) (a : Nat) (location : SrcLocation) : Option CodeBlob :=
  match c.cur_ops.store c.ops (some (Op.fresh a (OpData.mk2 location OpKind._Nop))) with
  | none => none
  | some t => some { c with ops := t }

/-- `CodeBlob::pop_cur` (tolk.h:620-623); `top()` of an empty stack is
undefined. -/
def pop_cur (c : CodeBlob) : Option CodeBlob :=
  match c.cur_ops_stack with
  | [] => none
  | s :: rest => some { c with cur_ops := s, cur_ops_stack := rest }

/-- `CodeBlob::close_pop_cur` (tolk.h:624-627). -/
def close_pop_cur (c : CodeBlob) (a : Nat) (location : SrcLocation) : Option CodeBlob :=
  match c.close_blk a location with
  | none => none
  | some c1 => c1.pop_cur

end CodeBlob

/-- A call of one of the builder functions of `CodeBlob`. -/
inductive BuildCall where
  | emplace_back (a : Nat) (x : OpData)
  | push_set_cur (b : Slot)
  | close_pop_cur (a : Nat) (location : SrcLocation)
  | pop_cur

/-- The effect of one call. -/
def CodeBlob.call (c : CodeBlob) : BuildCall → Option CodeBlob
  | BuildCall.emplace_back a x => c.emplace_back a x
  | BuildCall.push_set_cur b => some (c.push_set_cur b)
  | BuildCall.close_pop_cur a l => c.close_pop_cur a l
  | BuildCall.pop_cur => c.pop_cur

/-- The effect of a sequence of calls, in order. -/
def CodeBlob.run (c : CodeBlob) : List BuildCall → Option CodeBlob
  | [] => some c
  | x :: rest =>
    match c.call x with
    | none => none
    | some c1 => c1.run rest

/-- The sequences of calls in which every `push_set_cur` is closed by a later
`close_pop_cur` or `pop_cur`, and nothing else pops. -/
inductive Balanced : List BuildCall → Prop where
  | nil : Balanced []
  | emplace (a : Nat) (x : OpData) (rest : List BuildCall) :
      Balanced rest → Balanced (BuildCall.emplace_back a x :: rest)
  | closed (b : Slot) (inner : List BuildCall) (a : Nat) (l : SrcLocation)
      (rest : List BuildCall) : Balanced inner → Balanced rest →
      Balanced (BuildCall.push_set_cur b :: (inner ++ BuildCall.close_pop_cur a l :: rest))
  | popped (b : Slot) (inner : List BuildCall) (rest : List BuildCall) :
      Balanced inner → Balanced rest →
      Balanced (BuildCall.push_set_cur b :: (inner ++ BuildCall.pop_cur :: rest))

/-- The pointers that a sequence of calls passes to `push_set_cur`. -/
def pushedSlots : List BuildCall → List Slot
  | [] => []
  | BuildCall.push_set_cur b :: rest => b :: pushedSlots rest
  | _ :: rest => pushedSlots rest

/-- The list of fresh ops with the given addresses and data, linked by `next`. -/
def chainOf : List (Nat × OpData) → Option Op
  | [] => none
  | (a, x) :: rest => some (Op.mk a x (chainOf rest) none none)

/-- The address and the data of the op that is reached along a path. -/
def nodeAt (t : Option Op) (p : List Field) : Option (Nat × OpData) :=
  (opAt t p).map (fun o => (o.addr, o.d))

/-- Whether following the members `w` from `t` reaches a pointer, that is,
passes through no null pointer before its end. -/
def slotExists : Option Op → List Field → Bool
  | _, [] => true
  | none, _ :: _ => false
  | some o, f :: w => slotExists (o.field f) w

/-- The list of fresh ops with the given addresses and data, linked by `next`,
whose last op has `v` as its `next`. -/
def chainThen : List (Nat × OpData) → Option Op → Option Op
  | [], v => v
  | (a, x) :: rest, v => some (Op.mk a x (chainThen rest v) none none)

/-- A blob whose only op is an `_If` at address 100 that already owns a
one-op `block0`; the cursor is the `next` of that op. -/
def CodeBlob.exampleIf : CodeBlob :=
  { CodeBlob.init with
    ops := some (Op.mk 100 (OpData.mk2 0 OpKind._If) none
      (some (Op.fresh 7 (OpData.mk2 0 OpKind._Return))) none),
    cur_ops := Slot.member [] 100 Field.next }

/-- The pointer `&op.block0` of the `_If` op of `CodeBlob.exampleIf`. -/
def Slot.exampleBlock0 : Slot := Slot.member [] 100 Field.block0

/-- The blob after `CodeBlob.init.emplace_back` of one `_Let` op at address 1:
the cursor is the `next` of that op. -/
def CodeBlob.exampleOne : CodeBlob :=
  { CodeBlob.init with
    ops := some (Op.fresh 1 (OpData.mk2 0 OpKind._Let)),
    cur_ops := Slot.member [] 1 Field.next }

/-- Calls that build, inside a block, a `_While` op with a one-op body and a
`_Let` op after it. -/
def BuildCall.exampleInner : List BuildCall :=
  [BuildCall.emplace_back 101 (OpData.mk2 1 OpKind._While),
   BuildCall.push_set_cur (Slot.member [Field.block0] 101 Field.block0),
   BuildCall.emplace_back 102 (OpData.mk2 2 OpKind._Call),
   BuildCall.close_pop_cur 103 2,
   BuildCall.emplace_back 104 (OpData.mk2 3 OpKind._Let)]

/-- The blob `CodeBlob.exampleIf` after `push_set_cur` of the `block0` of its
`_If` op, the calls of `BuildCall.exampleInner`, and `close_pop_cur`. -/
def CodeBlob.exampleIfBuilt : CodeBlob :=
  { CodeBlob.init with
    ops := some (Op.mk 100 (OpData.mk2 0 OpKind._If) none
      (some (Op.mk 101 (OpData.mk2 1 OpKind._While)
        (some (Op.mk 104 (OpData.mk2 3 OpKind._Let)
          (some (Op.fresh 105 (OpData.mk2 4 OpKind._Nop))) none none))
        (some (Op.mk 102 (OpData.mk2 2 OpKind._Call)
          (some (Op.fresh 103 (OpData.mk2 2 OpKind._Nop))) none none))
        none))
      none),
    cur_ops := Slot.member [] 100 Field.next }

/-! ## Value descriptors: the liveness flags -/

namespace VarDescr

/-- The bitwise `~a` of an `int` value. -/
def bnot (a : Int) : Int := Int.lnot a

/-- `VarDescr::is_unused` (tolk.h:262-264): `flags & _Unused`, converted to
`bool`. -/
def is_unused (v : VarDescr) : Bool := band v.flags _Unused != 0

/-- `VarDescr::is_last` (tolk.h:265-267): `flags & _Last`, converted to `bool`. -/
def is_last (v : VarDescr) : Bool := band v.flags _Last != 0

/-- `VarDescr::unused` (tolk.h:322-324): `flags |= _Unused`. -/
def unused (v : VarDescr) : VarDescr := { v with flags := bor v.flags _Unused }

/-- `VarDescr::clear_unused` (tolk.h:325-327): `flags &= ~_Unused`. -/
def clear_unused (v : VarDescr) : VarDescr := { v with flags := band v.flags (bnot _Unused) }

/-- `VarDescr::operator+=` (tolk.h:332-334): `flags &= y.flags`. -/
def add_assign (x y : VarDescr) : VarDescr := { x with flags := band x.flags y.flags }

/-- The two liveness masks of tolk.h:231 followed by the fourteen value-fact
masks of tolk.h:233-248. -/
def allMasks : List Int := [_Last, _Unused] ++ factMasks

/-- The bit numbers of `allMasks`, in the same order. -/
def allBits : List Nat := [0, 1, 4, 5, 6, 7, 8, 9, 10, 11, 12, 13, 14, 15, 16, 17]

end VarDescr

/-! ## Stack transforms: `invalidate`, `shift`, `touch` -/

namespace StackTransform

/-- `StackTransform::invalidate` (tolk.h:1207-1210): the new transform and the
returned `false`. -/
def invalidate (t : StackTransform) : StackTransform × Bool :=
  ({ t with invalid := true }, false)

/-- `StackTransform::shift` (tolk.h:1219-1222): `d += offs`, then
`offs <= 0 || remove_negative()`.  The member function `remove_negative` is
only declared in the header: it is a parameter, called only when `offs > 0`. -/
def shift (remove_negative : StackTransform → StackTransform × Bool) (t : StackTransform)
    (offs : Int) : StackTransform × Bool :=
  if offs ≤ 0 then ({ t with d := t.d + offs }, true)
  else remove_negative { t with d := t.d + offs }

/-- `StackTransform::touch` (tolk.h:1224-1227): `dp = std::max(dp, i + d + 1)`,
and the returned `true`. -/
def touch (t : StackTransform) (i : Int) : StackTransform × Bool :=
  ({ t with dp := max t.dp (i + t.d + 1) }, true)

end StackTransform

/-- A call of `touch(i)` or of `shift(offs)` on a stack transform. -/
inductive StackTransform.Call where
  | touch (i : Int)
  | shift (offs : Int)
  deriving DecidableEq, Repr

/-- The transform after one call; the returned flag is dropped. -/
def StackTransform.call (remove_negative : StackTransform → StackTransform × Bool)
    (t : StackTransform) : StackTransform.Call → StackTransform
  | StackTransform.Call.touch i => (t.touch i).1
  | StackTransform.Call.shift offs => (t.shift remove_negative offs).1

/-- The transform after a sequence of calls, in order. -/
def StackTransform.calls (remove_negative : StackTransform → StackTransform × Bool)
    (t : StackTransform) (cs : List StackTransform.Call) : StackTransform :=
  cs.foldl (StackTransform.call remove_negative) t

/-- Whether a call is a `shift` by a positive offset. -/
def StackTransform.Call.shifts_up : StackTransform.Call → Bool
  | StackTransform.Call.touch _ => false
  | StackTransform.Call.shift offs => decide (0 < offs)

/-! ## Type expressions: tuples, rigid variables, fresh ids -/

namespace TypeExpr

/-- The constructor `TypeExpr(te_type _constr, TypeExpr* elem0)` (tolk.h:83-85):
`value` is 1, `args` is the one element, and the width range is whatever
`compute_width()` sets (`0` stands for the members before that call). -/
def mkElem (c : te_type) (elem0 : TypeExpr) : TypeExpr :=
  compute_width (mk c 1 0 0 [elem0] false)

/-- `TypeExpr::new_tuple(TypeExpr* arg0)` (tolk.h:157-159):
`new TypeExpr{te_Tuple, arg0}`. -/
def new_tuple1 (arg0 : TypeExpr) : TypeExpr := mkElem te_type.te_Tuple arg0

/-- `TypeExpr::new_tuple(std::vector<TypeExpr*> list, bool red = false)`
(tolk.h:160-162): `new_tuple(new_tensor(std::move(list), red))`. -/
def new_tuple (list : List TypeExpr) (red : Bool) : TypeExpr :=
  new_tuple1 (new_tensor list red)

/-- `TypeExpr::new_var()` (tolk.h:166-168): `--type_vars`, then
`new TypeExpr{te_Var, type_vars, 1}`.  The static counter `type_vars` is passed
in and returned. -/
def new_var (type_vars : Int) : TypeExpr × Int :=
  (mkWidth te_type.te_Var (type_vars - 1) 1, type_vars - 1)

/-- The two static counters `TypeExpr::holes` and `TypeExpr::type_vars`
(tolk.h:128). -/
structure Counters where
  holes : Int
  type_vars : Int
  deriving DecidableEq, Repr

/-- A call of `new_hole()`, of `new_hole(width)` or of `new_var()`. -/
inductive Fresh where
  | hole
  | hole_width (width : Int)
  | var
  deriving DecidableEq, Repr

/-- The node that one call returns and the counters after it. -/
def fresh (c : Counters) : Fresh → TypeExpr × Counters
  | Fresh.hole => ((new_hole c.holes).1, { c with holes := (new_hole c.holes).2 })
  | Fresh.hole_width w =>
    ((new_hole_width c.holes w).1, { c with holes := (new_hole_width c.holes w).2 })
  | Fresh.var => ((new_var c.type_vars).1, { c with type_vars := (new_var c.type_vars).2 })

/-- The nodes that a sequence of calls returns, in call order, and the counters
after it. -/
def fresh_seq : Counters → List Fresh → List TypeExpr × Counters
  | c, [] => ([], c)
  | c, f :: rest =>
    ((fresh c f).1 :: (fresh_seq (fresh c f).2 rest).1, (fresh_seq (fresh c f).2 rest).2)

/-- The ids of the holes among the nodes, in order. -/
def hole_ids (nodes : List TypeExpr) : List Int :=
  (nodes.filter (fun t => t.constr == te_type.te_Unknown)).map value

/-- The ids of the rigid variables among the nodes, in order. -/
def var_ids (nodes : List TypeExpr) : List Int :=
  (nodes.filter (fun t => t.constr == te_type.te_Var)).map value

end TypeExpr

/-! ## Assembler operations: comments and `append` -/

namespace AsmOp

/-- The constructor `AsmOp(Type _t, std::string _op)` (tolk.h:927-928).  The
members `a` and `b` have no initialiser and the constructor does not set them;
`leftover` stands for whatever they hold. -/
def mk2 (t : AsmOpType) (op : String) (leftover : Int × Int) : AsmOp :=
  { t := t, indent := 0, a := leftover.1, b := leftover.2, gconst := false, op := op,
    origin := none }

/-- `AsmOp::is_comment` (tolk.h:950-952): type `a_none` and non-empty text. -/
def is_comment (x : AsmOp) : Bool := x.t == AsmOpType.a_none && !x.op.isEmpty

/-- `AsmOp::Comment(std::string comment)` (tolk.h:1059-1061):
`AsmOp(a_none, std::string{"// "} + comment)`. -/
def Comment (comment : String) (leftover : Int × Int) : AsmOp :=
  mk2 AsmOpType.a_none ("// " ++ comment) leftover

end AsmOp

namespace AsmOpList

/-- `AsmOpList::append(const AsmOp& op)` (tolk.h:1096-1100) with the value it
returns: the list after `push_back` and `adjust_last`, and `true`. -/
def append_ret (o : AsmOpList) (op : AsmOp) : AsmOpList × Bool :=
  (adjust_last { o with list_ := o.list_ ++ [op] }, true)

/-- The list after `append` of each op of `ops` in order. -/
def append_all (o : AsmOpList) (ops : List AsmOp) : AsmOpList :=
  ops.foldl append o

/-- The constructor `AsmOpList(int indent = 0, const std::vector<TmpVar>*
var_names = nullptr)` (tolk.h:1088-1089): no ops, no constants, `retalt_`
false. -/
def mk1 (indent : Int) : AsmOpList :=
  { list_ := [], indent_ := indent, constants_ := [], retalt_ := false }

end AsmOpList

/-- A vector of `2^31` types, each the atomic type 1. -/
def TypeExpr.example_long : List TypeExpr := List.replicate (2 ^ 31) (TypeExpr.new_atomic 1)

/-- A nop: `AsmOp(a_none, "")`. -/
def AsmOp.example_nop : AsmOp := AsmOp.mk2 AsmOpType.a_none "" (0, 0)

/-- A list at indent 2 whose only op, `NOP`, was added at indent 0. -/
def AsmOpList.example4 : AsmOpList :=
  { list_ := [AsmOp.Custom "NOP"], indent_ := 2, constants_ := [], retalt_ := false }

end tolk

namespace ton.validatorsession

/-! ## The memory pool (`ValidatorSessionDescriptionImpl::MemPool`)

Translated from `validator-session/validator-session-description.cpp`.  A
`size_t` is a natural number below `2^64` and its arithmetic wraps; an address
(`uint8_t*`) is the natural number that `(size_t)ptr` gives. -/

/-- The number of values of `size_t`. -/
def size_t_range : Nat := 2 ^ 64

/-- Why a call did not return: a `CHECK(...)` on the given source line failed
and aborted the process, the source divided by zero, or `new` threw
`std::bad_alloc`. -/
inductive Fault where
  | check_failed (line : Nat)
  | division_by_zero
  | bad_alloc
  deriving DecidableEq, Repr

/-- The data members of `MemPool`: `chunk_size_`, `ptr_`, and `data_`, the
base addresses of the chunks. -/
structure MemPool where
  chunk_size_ : Nat
  ptr_ : Nat
  data_ : List Nat
  deriving DecidableEq, Repr

namespace MemPool

/-- The lambda `get_padding` of `MemPool::alloc` (lines 187-189):
`(-(size_t)ptr) & (align - 1)` in `size_t` arithmetic. -/
def get_padding (align ptr : Nat) : Nat :=
  Nat.land ((size_t_range - ptr % size_t_range) % size_t_range)
    ((align + size_t_range - 1) % size_t_range)

/-- The loop `while (true)` of `MemPool::alloc` (lines 190-204).  The first
argument bounds the number of iterations, and `none` means that the bound was
reached.  `newChunk n` is what `new td::uint8[chunk_size_]` does when the pool
has `n` chunks: `some v` is the address `v` of the new array, `none` is
`std::bad_alloc`, which ends the call.  The result of a return is the pointer
and the new state of the pool. -/
def alloc_loop (newChunk : Nat → Option Nat) (size align : Nat) :
    Nat → MemPool → Option (Except Fault (Nat × MemPool))
  | 0, _ => none
  | fuel + 1, m =>
    if m.chunk_size_ = 0 then some (Except.error Fault.division_by_zero)
    else
      if m.ptr_ / m.chunk_size_ < m.data_.length then
        let ptr : Nat := m.data_.getD (m.ptr_ / m.chunk_size_) 0 + m.ptr_ % m.chunk_size_
        let ptr_1 : Nat := (m.ptr_ + get_padding align ptr) % size_t_range
        let ptr_2 : Nat := (ptr_1 + size) % size_t_range
        if ptr_2 ≤ (m.data_.length * m.chunk_size_) % size_t_range then
          some (Except.ok (ptr + get_padding align ptr, { m with ptr_ := ptr_2 }))
        else
          match newChunk m.data_.length with
          | none => some (Except.error Fault.bad_alloc)
          | some v =>
            alloc_loop newChunk size align fuel
              { m with
                ptr_ := (m.data_.length * m.chunk_size_) % size_t_range
                data_ := m.data_ ++ [v] }
      else
        match newChunk m.data_.length with
        | none => some (Except.error Fault.bad_alloc)
        | some v => alloc_loop newChunk size align fuel { m with data_ := m.data_ ++ [v] }

/-- `MemPool::alloc(size_t size, size_t align)` (lines 184-205): the two
`CHECK`s, then the loop. -/
def alloc (newChunk : Nat → Option Nat) (fuel : Nat) (m : MemPool) (size align : Nat) :
    Option (Except Fault (Nat × MemPool)) :=
  if ¬ (align ≠ 0 ∧ Nat.land align ((align + size_t_range - 1) % size_t_range) = 0) then
    some (Except.error (Fault.check_failed 185))
  else if ¬ ((size + align) % size_t_range ≤ m.chunk_size_) then
    some (Except.error (Fault.check_failed 186))
  else alloc_loop newChunk size align fuel m

/-- The address `data_[idx] + (ptr_ % chunk_size_)` that line 193 computes when
`ptr_` has the value `t`. -/
def chunk_addr (m : MemPool) (t : Nat) : Nat :=
  m.data_.getD (t / m.chunk_size_) 0 + t % m.chunk_size_

/-- A pool with one chunk at address 4104 and 10 bytes in use. -/
def example1 : MemPool := { chunk_size_ := 64, ptr_ := 10, data_ := [4104] }

end MemPool

/-! ## The memory pool: `clear`, `contains` and runs of calls -/

namespace MemPool

/-- Modelled from the spec: the pool as the constructor `MemPool(size_t
chunk_size)` (lines 175-176) leaves it.  The constructor sets `chunk_size_`
only; the initial value of `ptr_` comes from a member initialiser in
`validator-session-description.hpp`, which is not among the sources, and the
empty pool is described as having no chunks and `ptr_ = 0`. -/
def empty (chunk_size : Nat) : MemPool :=
  { chunk_size_ := chunk_size, ptr_ := 0, data_ := [] }

/-- The loop of `MemPool::clear` (lines 208-211): while there is more than one
chunk, the last one is released.  The first argument bounds the number of
iterations. -/
def clear_loop : Nat → List Nat → List Nat
  | 0, data => data
  | fuel + 1, data => if 1 < data.length then clear_loop fuel data.dropLast else data

/-- `MemPool::clear()` (lines 207-213).  The loop runs at most `data_.size()`
times. -/
def clear (m : MemPool) : MemPool :=
  { m with data_ := clear_loop m.data_.length m.data_, ptr_ := 0 }

/-- `MemPool::contains(const void* ptr)` (lines 215-225); the null pointer is
the address 0. -/
def contains (m : MemPool) (ptr : Nat) : Bool :=
  if ptr = 0 then true
  else m.data_.any (fun v => decide (v ≤ ptr) && decide (ptr ≤ v + m.chunk_size_))

/-- A sequence of calls `alloc(size, align)`, one per pair of the list, with no
other call in between.  The result lists, for each call in order, the returned
pointer, the requested size and the value of `ptr_` after the call, and gives
the final pool. -/
def alloc_seq (newChunk : Nat → Option Nat) (fuel : Nat) :
    MemPool → List (Nat × Nat) → Option (Except Fault (List (Nat × Nat × Nat) × MemPool))
  | m, [] => some (Except.ok ([], m))
  | m, (size, align) :: rest =>
    match alloc newChunk fuel m size align with
    | none => none
    | some (Except.error e) => some (Except.error e)
    | some (Except.ok (p, m1)) =>
      match alloc_seq newChunk fuel m1 rest with
      | none => none
      | some (Except.error e) => some (Except.error e)
      | some (Except.ok (rs, m2)) => some (Except.ok ((p, size, m1.ptr_) :: rs, m2))

/-- Whether the region `[p, p + size)` lies inside one chunk of the pool. -/
def region_in_chunk (m : MemPool) (p size : Nat) : Bool :=
  m.data_.any (fun v => decide (v ≤ p) && decide (p + size ≤ v + m.chunk_size_))

/-- Whether two regions, each given by its first address and its size, have no
address in common, the first lying wholly before the second or wholly after
it. -/
def disjoint_regions (r1 r2 : Nat × Nat × Nat) : Prop :=
  r1.1 + r1.2.1 ≤ r2.1 ∨ r2.1 + r2.2.1 ≤ r1.1

instance (r1 r2 : Nat × Nat × Nat) : Decidable (disjoint_regions r1 r2) := by
  unfold disjoint_regions; infer_instance

/-- Whether two chunks of `c` bytes with the given base addresses occupy
disjoint address ranges. -/
def disjoint_chunks (c : Nat) (v w : Nat) : Prop := v + c ≤ w ∨ w + c ≤ v

instance (c v w : Nat) : Decidable (disjoint_chunks c v w) := by
  unfold disjoint_chunks; infer_instance

/-- An allocator that never fails and places chunk number `n` at address
`4096 * (n + 1)`. -/
def example_chunks (n : Nat) : Option Nat := some (4096 * (n + 1))

/-- An allocator that has no memory left. -/
def no_chunks (_n : Nat) : Option Nat := none

end MemPool

/-- A pool with two chunks of 64 bytes and `ptr_` in the second one. -/
def MemPool.example2 : MemPool := { chunk_size_ := 64, ptr_ := 84, data_ := [4096, 8192] }

/-! ## The session description (`ValidatorSessionDescriptionImpl`)

The class is declared in `validator-session-description.hpp`, which is not
part of the sources at hand; its member functions below are the ones defined in
`validator-session-description.cpp`.  A `td::uint32` is a natural number below
`2^32` and its arithmetic wraps.  What the header alone fixes (the value of
`get_total_nodes()`, the constant `cache_size`, the range of `ValidatorWeight`)
is an argument of the functions that use it. -/

/-- The number of values of `td::uint32`. -/
def uint32_range : Nat := 2 ^ 32

/-- The conversion of a `td::uint32` value to `td::int32`: values from `2^31`
on become negative. -/
def to_int32 (x : Nat) : Int :=
  if x % uint32_range < 2 ^ 31 then ((x % uint32_range : Nat) : Int)
  else ((x % uint32_range : Nat) : Int) - (uint32_range : Int)

/-- `ValidatorSessionNode`: the members that the constructor of the
description reads.  A key, an ADNL id and a key hash are taken as numbers. -/
structure ValidatorSessionNode where
  pub_key : Nat
  adnl_id : Nat
  weight : Nat
  deriving DecidableEq, Repr

/-- `ValidatorSessionDescriptionImpl::Source`, without the member `encryptor`
(an object of the crypto library). -/
structure Source where
  id : Nat
  weight : Nat
  full_id : Nat
  adnl_id : Nat
  deriving DecidableEq, Repr

/-- The constructor `Source::Source(ValidatorSessionNode &node)` (lines 28-34).
`compute_short_id` is the hash of the key library. -/
def Source.mk1 (compute_short_id : Nat → Nat) (node : ValidatorSessionNode) : Source :=
  { id := compute_short_id node.pub_key, weight := node.weight, full_id := node.pub_key,
    adnl_id := node.adnl_id }

/-- The data members of `ValidatorSessionDescriptionImpl` that the functions of
`validator-session-description.cpp` use.  `round_candidates` is
`opts_.round_candidates`; `rev_sources_` is a `std::map` from key hash to index,
kept as its list of pairs; `cache_` gives the pointer held by each slot (0 is
the null pointer). -/
structure ValidatorSessionDescriptionImpl where
  round_candidates : Nat
  sources_ : List Source
  rev_sources_ : List (Nat × Nat)
  total_weight_ : Nat
  cutoff_weight_ : Nat
  self_idx_ : Nat
  cache_ : Nat → Nat
  mem_perm_ : MemPool
  mem_temp_ : MemPool

namespace ValidatorSessionDescriptionImpl

/-- `std::map::find` on `rev_sources_`. -/
def rev_find (rev : List (Nat × Nat)) (id : Nat) : Option Nat :=
  (rev.find? (fun e => e.1 == id)).map (fun e => e.2)

/-- `rev_sources_[id] = i` on a map that has no entry for `id`. -/
def rev_insert (rev : List (Nat × Nat)) (id i : Nat) : List (Nat × Nat) :=
  rev ++ [(id, i)]

/-- The loop of the constructor (lines 42-47) over the nodes still to be read:
the sources so far, the running `total_weight` and the map so far are the
state.  `weight_range` is the number of values of `ValidatorWeight`. -/
def ctor_loop (compute_short_id : Nat → Nat) (weight_range : Nat) :
    List ValidatorSessionNode → List Source × Nat × List (Nat × Nat) →
      Except Fault (List Source × Nat × List (Nat × Nat))
  | [], st => Except.ok st
  | node :: rest, (sources, total_weight, rev) =>
    let s := Source.mk1 compute_short_id node
    let total_weight1 := (total_weight + s.weight) % weight_range
    match rev_find rev s.id with
    | some _ => Except.error (Fault.check_failed 45)
    | none =>
      ctor_loop compute_short_id weight_range rest
        (sources ++ [s], total_weight1, rev_insert rev s.id sources.length)

/-- The constructor of `ValidatorSessionDescriptionImpl` (lines 36-58).  The
options are reduced to `round_candidates`; the two pools are the ones that the
header's member initialisers construct. -/
def create (compute_short_id : Nat → Nat) (weight_range : Nat) (round_candidates : Nat)
    (mem_perm mem_temp : MemPool) (nodes : List ValidatorSessionNode) (local_id : Nat) :
    Except Fault ValidatorSessionDescriptionImpl :=
  let size := nodes.length % uint32_range
  match ctor_loop compute_short_id weight_range (nodes.take size) ([], 0, []) with
  | Except.error e => Except.error e
  | Except.ok (sources, total_weight, rev) =>
    match rev_find rev local_id with
    | none => Except.error (Fault.check_failed 51)
    | some idx =>
      Except.ok
        { round_candidates := round_candidates, sources_ := sources, rev_sources_ := rev,
          total_weight_ := total_weight,
          cutoff_weight_ := ((total_weight * 2) % weight_range / 3 + 1) % weight_range,
          self_idx_ := idx, cache_ := fun _ => 0, mem_perm_ := mem_perm,
          mem_temp_ := mem_temp }

/-- `get_node_priority(src_idx, round)` (lines 60-69); `total_nodes` is the
value of `get_total_nodes()`.  The remainder by zero is an error. -/
def get_node_priority (d : ValidatorSessionDescriptionImpl) (total_nodes : Nat)
    (src_idx round : Nat) : Except Fault Int :=
  if total_nodes = 0 then Except.error Fault.division_by_zero
  else
    let round1 := round % total_nodes
    let src_idx1 := if src_idx < round1 then (src_idx + total_nodes) % uint32_range else src_idx
    let diff := (src_idx1 + uint32_range - round1) % uint32_range
    if diff < d.round_candidates then Except.ok (to_int32 diff) else Except.ok (-1)

/-- `get_max_priority()` (lines 71-73). -/
def get_max_priority (d : ValidatorSessionDescriptionImpl) : Nat :=
  (d.round_candidates + uint32_range - 1) % uint32_range

/-- `get_node_by_priority(round, priority)` (lines 75-78). -/
def get_node_by_priority (d : ValidatorSessionDescriptionImpl) (total_nodes : Nat)
    (round priority : Nat) : Except Fault Nat :=
  if ¬ priority ≤ d.get_max_priority then Except.error (Fault.check_failed 76)
  else if total_nodes = 0 then Except.error Fault.division_by_zero
  else Except.ok ((round + priority) % uint32_range % total_nodes)

/-- `get_by_hash(hash, allow_temp)` (lines 142-147): the pointer held by slot
`hash % cache_size`.  The body does not read `allow_temp`. -/
def get_by_hash (d : ValidatorSessionDescriptionImpl) (cache_size : Nat) (hash : Nat)
    (_allow_temp : Bool) : Except Fault Nat :=
  if cache_size = 0 then Except.error Fault.division_by_zero
  else Except.ok (d.cache_ (hash % cache_size))

/-- A description with the given parameters and nothing else, for the functions
that read only `round_candidates`. -/
def example_opts (round_candidates : Nat) : ValidatorSessionDescriptionImpl :=
  { round_candidates := round_candidates, sources_ := [], rev_sources_ := [],
    total_weight_ := 0, cutoff_weight_ := 0, self_idx_ := 0, cache_ := fun _ => 0,
    mem_perm_ := { chunk_size_ := 0, ptr_ := 0, data_ := [] },
    mem_temp_ := { chunk_size_ := 0, ptr_ := 0, data_ := [] } }

end ValidatorSessionDescriptionImpl

/-- Three validators with the weights 5, 3 and 2; for the constructor example
a key is its own short id. -/
def ValidatorSessionNode.example3 : List ValidatorSessionNode :=
  [{ pub_key := 11, adnl_id := 21, weight := 5 }, { pub_key := 12, adnl_id := 22, weight := 3 },
   { pub_key := 13, adnl_id := 23, weight := 2 }]

/-- The description that the constructor makes of `ValidatorSessionNode.example3`
for the local id 12: total weight 10, cutoff weight 7. -/
def ValidatorSessionDescriptionImpl.example3 : ValidatorSessionDescriptionImpl :=
  { round_candidates := 3,
    sources_ := [{ id := 11, weight := 5, full_id := 11, adnl_id := 21 },
      { id := 12, weight := 3, full_id := 12, adnl_id := 22 },
      { id := 13, weight := 2, full_id := 13, adnl_id := 23 }],
    rev_sources_ := [(11, 0), (12, 1), (13, 2)],
    total_weight_ := 10, cutoff_weight_ := 7, self_idx_ := 1, cache_ := fun _ => 0,
    mem_perm_ := { chunk_size_ := 64, ptr_ := 0, data_ := [] },
    mem_temp_ := { chunk_size_ := 64, ptr_ := 0, data_ := [] } }

/-- `ValidatorSessionDescriptionImpl::is_persistent(const void *ptr)`
(lines 166-168). -/
def ValidatorSessionDescriptionImpl.is_persistent (d : ValidatorSessionDescriptionImpl)
    (ptr : Nat) : Bool :=
  d.mem_perm_.contains ptr

/-- `ValidatorSessionDescriptionImpl::alloc(size, align, temp)` (lines 162-164):
the call on `mem_temp_` or on `mem_perm_`, and the description with the pool as
the call left it. -/
def ValidatorSessionDescriptionImpl.alloc (newChunk : Nat → Option Nat) (fuel : Nat)
    (d : ValidatorSessionDescriptionImpl) (size align : Nat) (temp : Bool) :
    Option (Except Fault (Nat × ValidatorSessionDescriptionImpl)) :=
  match MemPool.alloc newChunk fuel (if temp then d.mem_temp_ else d.mem_perm_) size align with
  | none => none
  | some (Except.error e) => some (Except.error e)
  | some (Except.ok (p, m)) =>
    some (Except.ok (p, if temp then { d with mem_temp_ := m } else { d with mem_perm_ := m }))

/-- `ValidatorSessionDescriptionImpl::update_hash(obj, hash)` (lines 153-160):
nothing happens unless `obj` is persistent; otherwise slot `hash % cache_size`
of the cache is overwritten with `obj`.  `cache_size` is a constant of the
header and is an argument; the remainder by zero is an error. -/
def ValidatorSessionDescriptionImpl.update_hash (d : ValidatorSessionDescriptionImpl)
    (cache_size : Nat) (obj hash : Nat) : Except Fault ValidatorSessionDescriptionImpl :=
  if !d.is_persistent obj then Except.ok d
  else if cache_size = 0 then Except.error Fault.division_by_zero
  else
    Except.ok { d with cache_ := fun x => if x = hash % cache_size then obj else d.cache_ x }

/-- The description `example3` with one chunk of 64 bytes at address 4096 in the
persistent pool. -/
def ValidatorSessionDescriptionImpl.example5 : ValidatorSessionDescriptionImpl :=
  { ValidatorSessionDescriptionImpl.example3 with
    mem_perm_ := { chunk_size_ := 64, ptr_ := 16, data_ := [4096] } }

/-- Two validators of weight `2^63` each, with the keys 1 and 2. -/
def ValidatorSessionNode.example_heavy : List ValidatorSessionNode :=
  [{ pub_key := 1, adnl_id := 1, weight := 2 ^ 63 }, { pub_key := 2, adnl_id := 2, weight := 2 ^ 63 }]

/-- A list of `n` validators of weight 1 with the keys `0, 1, ..., n - 1`. -/
def ValidatorSessionNode.example_many (n : Nat) : List ValidatorSessionNode :=
  List.map (fun (k : Nat) => ({ pub_key := k, adnl_id := k, weight := 1 } : ValidatorSessionNode))
    (List.range n)

end ton.validatorsession

/-! # Theorems -/

namespace tolk

/-! ## The conversion of a size to `int` -/

theorem int_of_size_of_lt (n : Nat) (h : n < 2 ^ 31) : int_of_size n = (n : Int) := by
  unfold int_of_size
  have h1 : n % 2 ^ 32 = n := Nat.mod_eq_of_lt (by omega)
  rw [h1, if_pos h]

theorem int_of_size_le (n : Nat) : int_of_size n ≤ (n : Int) := by
  unfold int_of_size
  have h1 : n % 2 ^ 32 ≤ n := Nat.mod_le _ _
  split <;> omega

theorem int_of_size_two_pow_31 (n : Nat) (h : n = 2 ^ 31) : int_of_size n = -2 ^ 31 := by
  subst h
  decide

/-! ## `Stack::validate` and the indexed accessors -/

theorem Stack.validate_ok_iff (st : Stack) (i : Int) :
    st.validate i = Except.ok () ↔ 0 ≤ i ∧ i < st.depth ∧ i ≤ 255 := by
  unfold Stack.validate tolk_assert
  by_cases h : i > 255
  · simp [h]
  · by_cases h0 : 0 ≤ i <;> by_cases h1 : i < st.depth <;> simp [h, h0, h1]
    omega

theorem Stack.validate_deep_iff (st : Stack) (i : Int) :
    st.validate i = Except.error (Fatal.message "Too deep stack") ↔ i > 255 := by
  unfold Stack.validate tolk_assert
  by_cases h : i > 255
  · simp [h]
  · by_cases h0 : 0 ≤ i <;> by_cases h1 : i < st.depth <;> simp [h, h0, h1]

theorem Stack.validate_assert_iff (st : Stack) (i : Int) :
    isAssertionFailure (st.validate i) = true ↔ i ≤ 255 ∧ (i < 0 ∨ i ≥ st.depth) := by
  unfold Stack.validate tolk_assert
  by_cases h : i > 255
  · simp [h, isAssertionFailure]
  · by_cases h0 : 0 ≤ i <;> by_cases h1 : i < st.depth <;>
      simp [h, h0, h1, isAssertionFailure] <;> omega

theorem Stack.validate_cases (st : Stack) (i : Int) :
    (st.validate i = Except.ok () ∧ 0 ≤ i ∧ i < st.depth) ∨
    (∃ e, st.validate i = Except.error e) := by
  cases h : st.validate i with
  | error e => exact Or.inr ⟨e, rfl⟩
  | ok u =>
    cases u
    have := (Stack.validate_ok_iff st i).mp h
    exact Or.inl ⟨rfl, this.1, this.2.1⟩

theorem Stack.subscript_in_range (st : Stack) (i : Int) (h0 : 0 ≤ i) (h1 : i < st.depth) :
    ∃ h : (st.depth - i - 1).toNat < st.s.length,
      st.s[(st.depth - i - 1).toNat]? = some (st.s.get ⟨(st.depth - i - 1).toNat, h⟩) := by
  have hlt : (st.depth - i - 1).toNat < st.s.length := by
    have hle := int_of_size_le st.s.length
    unfold Stack.depth at *
    omega
  exact ⟨hlt, List.getElem?_eq_getElem hlt⟩

theorem Stack.at_error_iff (st : Stack) (i : Int) (e : Fatal) :
    st.validate i = Except.error e ↔ st.at_ i = Except.error e := by
  rcases Stack.validate_cases st i with ⟨hok, h0, h1⟩ | ⟨e2, he⟩
  · obtain ⟨_, hget⟩ := Stack.subscript_in_range st i h0 h1
    unfold Stack.at_
    rw [hok, hget]
    simp
  · simp [Stack.at_, he]

theorem Stack.index_error_iff (st : Stack) (i : Int) (e : Fatal) :
    st.validate i = Except.error e ↔ st.index i = Except.error e := by
  rcases Stack.validate_cases st i with ⟨hok, h0, h1⟩ | ⟨e2, he⟩
  · obtain ⟨_, hget⟩ := Stack.subscript_in_range st i h0 h1
    unfold Stack.index
    rw [hok, hget]
    simp
  · simp [Stack.index, he]

/-- C1: `Stack::validate(i)` throws `Fatal "Too deep stack"` exactly when
`i > 255`, whatever the depth; it throws the assertion `Fatal` exactly when
`i <= 255` and (`i < 0` or `i >= depth()`); it returns exactly when
`0 <= i < depth()` and `i <= 255`.  `at`, `get` and `operator[]` throw exactly
the exception that `validate` throws, and return a value when it returns.
Hence index 255 of a stack of depth 256 is addressable. -/
theorem Stack.validate_spec (st : Stack) (i : Int) :
    (st.validate i = Except.error (Fatal.message "Too deep stack") ↔ i > 255) ∧
    (isAssertionFailure (st.validate i) = true ↔ i ≤ 255 ∧ (i < 0 ∨ i ≥ st.depth)) ∧
    (st.validate i = Except.ok () ↔ 0 ≤ i ∧ i < st.depth ∧ i ≤ 255) ∧
    (∀ e, st.validate i = Except.error e ↔ st.at_ i = Except.error e) ∧
    (∀ e, st.validate i = Except.error e ↔ st.get i = Except.error e) ∧
    (∀ e, st.validate i = Except.error e ↔ st.index i = Except.error e) ∧
    (st.depth = 256 → i = 255 → st.validate i = Except.ok ()) :=
  ⟨Stack.validate_deep_iff st i, Stack.validate_assert_iff st i, Stack.validate_ok_iff st i,
    Stack.at_error_iff st i, Stack.at_error_iff st i, Stack.index_error_iff st i,
    fun hd hi => (Stack.validate_ok_iff st i).mpr (by omega)⟩

/-- Witness for C1: the stack of depth 256 at index 255. -/
theorem Stack.validate_spec_witness :
    Stack.example256.depth = 256 ∧ Stack.example256.validate 255 = Except.ok () :=
  ⟨by rw [Stack.depth, Stack.example256, List.length_map, List.length_range]; rfl,
    (Stack.validate_spec Stack.example256 255).2.2.2.2.2.2
      (by rw [Stack.depth, Stack.example256, List.length_map, List.length_range]; rfl)
      rfl⟩

theorem Stack.at_value (st : Stack) (i : Int) (hlen : st.s.length < 2 ^ 31) (h0 : 0 ≤ i)
    (hn : i < st.s.length) (h255 : i ≤ 255) (hk : st.s.length - 1 - i.toNat < st.s.length) :
    st.at_ i = Except.ok (st.s.get ⟨st.s.length - 1 - i.toNat, hk⟩) ∧
    st.index i = Except.ok (st.s.get ⟨st.s.length - 1 - i.toNat, hk⟩).1 := by
  have hd : st.depth = (st.s.length : Int) := int_of_size_of_lt _ hlen
  have hok : st.validate i = Except.ok () :=
    (Stack.validate_ok_iff st i).mpr ⟨h0, by rw [hd]; exact hn, h255⟩
  have hidx : (st.depth - i - 1).toNat = st.s.length - 1 - i.toNat := by
    rw [hd]
    omega
  have hget : st.s[(st.depth - i - 1).toNat]? =
      some (st.s.get ⟨st.s.length - 1 - i.toNat, hk⟩) := by
    rw [hidx]
    exact List.getElem?_eq_getElem hk
  constructor
  · unfold Stack.at_
    rw [hok, hget]
  · unfold Stack.index
    rw [hok, hget]

theorem Stack.at_of_length_two_pow_31 (st : Stack) (h : st.s.length = 2 ^ 31) :
    st.depth = -2 ^ 31 ∧
    st.at_ 0 = Except.error (Fatal.assertion 1527
      "i >= 0 && i < depth() && \"invalid stack reference\"") := by
  have hd : st.depth = -2 ^ 31 := int_of_size_two_pow_31 _ h
  refine ⟨hd, ?_⟩
  have hv : st.validate 0 = Except.error (Fatal.assertion 1527
      "i >= 0 && i < depth() && \"invalid stack reference\"") := by
    unfold Stack.validate
    rw [hd]
    rfl
  unfold Stack.at_
  rw [hv]

theorem Stack.example_deep_length : Stack.example_deep.s.length = 2 ^ 31 := by
  unfold Stack.example_deep
  exact List.length_replicate _ _

/-- C2 (counterexample): for a stack whose layout vector has `2^31` entries,
`depth()`, the size converted to `int`, is `-2^31` and not the length, and
`at(0)`, with `0 <= 0 < 2^31` and `0 <= 255`, throws the assertion `Fatal` of
`validate` instead of returning the last entry. -/
theorem Stack.at_counterexample :
    Stack.example_deep.s.length = 2 ^ 31 ∧
    Stack.example_deep.depth = -2 ^ 31 ∧
    Stack.example_deep.at_ 0 = Except.error (Fatal.assertion 1527
      "i >= 0 && i < depth() && \"invalid stack reference\"") :=
  ⟨Stack.example_deep_length,
    (Stack.at_of_length_two_pow_31 Stack.example_deep Stack.example_deep_length).1,
    (Stack.at_of_length_two_pow_31 Stack.example_deep Stack.example_deep_length).2⟩

/-- C2 (amended): for a stack whose layout vector `s` has length `n < 2^31` and
an index `i` with `0 <= i < n` and `i <= 255`, `depth() = n`, `at(i)` and
`get(i)` return the entry `s[n-1-i]` and `operator[](i)` returns its `var_idx`
component; so index 0 is the last element of `s` and index `n-1` is `s[0]`. -/
theorem Stack.at_spec (st : Stack) (i : Int) (hlen : st.s.length < 2 ^ 31) (h0 : 0 ≤ i)
    (hn : i < st.s.length) (h255 : i ≤ 255) :
    st.depth = st.s.length ∧
    ∃ hk : st.s.length - 1 - i.toNat < st.s.length,
      st.at_ i = Except.ok (st.s.get ⟨st.s.length - 1 - i.toNat, hk⟩) ∧
      st.get i = Except.ok (st.s.get ⟨st.s.length - 1 - i.toNat, hk⟩) ∧
      st.index i = Except.ok (st.s.get ⟨st.s.length - 1 - i.toNat, hk⟩).1 ∧
      (i = 0 → ∀ hne : st.s ≠ [], st.at_ i = Except.ok (st.s.getLast hne)) ∧
      (i = st.s.length - 1 → st.at_ i = Except.ok (st.s.get ⟨0, by omega⟩)) := by
  have hk : st.s.length - 1 - i.toNat < st.s.length := by omega
  have hv := Stack.at_value st i hlen h0 hn h255 hk
  refine ⟨int_of_size_of_lt _ hlen, hk, hv.1, hv.1, hv.2, ?_, ?_⟩
  · intro hi hne
    rw [hv.1]
    subst hi
    rw [List.getLast_eq_getElem]
    rfl
  · intro hi
    rw [hv.1]
    have h00 : st.s.length - 1 - i.toNat = 0 := by omega
    simp only [h00]

/-- C2 (witness): index 0 of the three-entry stack is its last entry. -/
theorem Stack.at_spec_witness :
    Stack.example3.s.length < 2 ^ 31 ∧
    Stack.example3.depth = 3 ∧ Stack.example3.at_ 0 = Except.ok (12, 7) ∧
    Stack.example3.index 2 = Except.ok 10 := by
  obtain ⟨hd, _, h1, _, _, _, _⟩ :=
    Stack.at_spec Stack.example3 0 (by decide) (by decide) (by decide) (by decide)
  obtain ⟨_, _, _, _, h2, _, _⟩ :=
    Stack.at_spec Stack.example3 2 (by decide) (by decide) (by decide) (by decide)
  exact ⟨by decide, hd, h1, h2⟩

theorem AsmOp.mk4_custom_not_nop (a b : Int) (str : String) (ind : Int) :
    ((AsmOp.mk4 AsmOpType.a_custom a b str).withIndent ind).is_nop = false := by
  simp [AsmOp.mk4, AsmOp.compute_gconst, AsmOp.withIndent, AsmOp.is_nop]

theorem AsmOpList.insertStr_zero (o : AsmOpList) (str : String) :
    o.insertStr 0 str = { o with list_ := customAt str o.indent_ :: o.list_ } := by
  simp [AsmOpList.insertStr, AsmOpList.insert, customAt]

theorem AsmOpList.adjust_last_snoc (o : AsmOpList) (l : List AsmOp) (x : AsmOp)
    (hx : x.is_nop = false) :
    AsmOpList.adjust_last { o with list_ := l ++ [x] } =
      { o with list_ := l ++ [x.withIndent o.indent_] } := by
  simp [AsmOpList.adjust_last, hx]

theorem AsmOpList.add_custom (o : AsmOpList) (a b : Int) (str : String) :
    o.add (AsmOp.mk4 AsmOpType.a_custom a b str) =
      { o with list_ := o.list_ ++ [(AsmOp.mk4 AsmOpType.a_custom a b str).withIndent o.indent_] } := by
  unfold AsmOpList.add AsmOpList.append
  have h0 : (AsmOp.mk4 AsmOpType.a_custom a b str).is_nop = false := by
    simp [AsmOp.mk4, AsmOp.compute_gconst, AsmOp.is_nop]
  rw [AsmOpList.adjust_last_snoc o o.list_ _ h0]
  have h1 := AsmOpList.adjust_last_snoc o o.list_ _ (AsmOp.mk4_custom_not_nop a b str o.indent_)
  rw [h1]
  simp [AsmOp.withIndent]

theorem Stack.apply_wrappers_prefix (st : Stack) :
    (if st.o.retalt_ then (st.o.insertStr 0 "SAMEALTSAVE").insertStr 0 "c2 SAVE" else st.o) =
      { st.o with list_ := st.o.altSave ++ st.o.list_ } := by
  unfold AsmOpList.altSave
  by_cases h : st.o.retalt_ = true
  · simp [h, AsmOpList.insertStr_zero]
  · cases ho : st.o with
    | mk l i c r =>
      rw [ho] at h
      simp at h
      simp [h]

theorem Stack.apply_wrappers_wrapped (st : Stack) :
    (((({ st.o with list_ := st.o.altSave ++ st.o.list_ } : AsmOpList).indent_all).insertStr 0
      "CONT:<\x7b").addStr "\x7d>") = { st.o with list_ := st.wrappedBody } := by
  unfold AsmOpList.addStr
  rw [AsmOpList.insertStr_zero, AsmOpList.add_custom]
  simp only [AsmOpList.indent_all, Stack.wrappedBody, customAt]
  rfl

theorem Stack.apply_wrappers_eq (pstring : Int → String) (st : Stack) (n : Int) :
    st.apply_wrappers pstring n =
      if st.wraps n then
        if n = -1 then
          ({ st with o := { st.o with list_ := st.wrappedBody ++ [customAt "EXECUTE" st.o.indent_] } },
            Except.ok ())
        else if n ≤ 15 then
          ({ st with o := { st.o with list_ := st.wrappedBody ++
              [customAt (pstring n ++ " -1 CALLXARGS") st.o.indent_] } }, Except.ok ())
        else if n ≤ 254 then
          ({ st with o := { st.o with list_ := st.wrappedBody ++
              [customAt (pstring n ++ " PUSHINT -1 PUSHINT CALLXVARARGS") st.o.indent_] } },
            Except.ok ())
        else
          ({ st with o := { st.o with list_ := st.wrappedBody } },
            Except.error (Fatal.assertion 1572 "callxargs_count <= 254"))
      else
        ({ st with o := { st.o with list_ := st.o.altSave ++ st.o.list_ } }, Except.ok ()) := by
  unfold Stack.apply_wrappers
  simp only [Stack.apply_wrappers_prefix, Stack.apply_wrappers_wrapped]
  unfold Stack.wraps
  by_cases hw : (n != -1 || (Int.land st.mode _InlineFunc != 0 && st.o.retalt_)) = true
  · rw [if_pos hw, if_pos hw]
    by_cases h1 : n = -1
    · subst h1
      simp [AsmOpList.addStr, AsmOpList.add_custom, customAt]
    · have h1b : (n != -1) = true := by simpa using h1
      rw [if_pos h1b, if_neg h1]
      by_cases h15 : n ≤ 15
      · simp [h15, AsmOp.Custom, AsmOpList.add_custom, customAt]
      · by_cases h254 : n ≤ 254
        · simp [h15, h254, tolk_assert, AsmOp.Custom, AsmOpList.add_custom, customAt]
        · simp [h15, h254, tolk_assert]
  · rw [if_neg hw, if_neg hw]

theorem Stack.wraps_iff (st : Stack) (n : Int) :
    st.wraps n = true ↔ (n ≠ -1 ∨ (Int.land st.mode _InlineFunc ≠ 0 ∧ st.o.retalt_ = true)) := by
  simp [Stack.wraps]

theorem customAt_op (str : String) (ind : Int) : (customAt str ind).op = str := rfl

theorem customAt_is_custom (str : String) (ind : Int) : (customAt str ind).is_custom = true := rfl

theorem isAltSave_customAt (str : String) (ind : Int) :
    (customAt str ind).isAltSave = (str == "c2 SAVE" || str == "SAMEALTSAVE") := rfl

theorem AsmOp.isAltSave_indented (x : AsmOp) : x.indented.isAltSave = x.isAltSave := rfl

theorem AsmOp.isAltSave_long (p suffix : String) (ind : Int) (h : 12 ≤ suffix.length) :
    (customAt (p ++ suffix) ind).isAltSave = false := by
  have h1 : "c2 SAVE".length = 7 := by decide
  have h2 : "SAMEALTSAVE".length = 11 := by decide
  have hl : (p ++ suffix).length = p.length + suffix.length := String.length_append p suffix
  have n1 : p ++ suffix ≠ "c2 SAVE" := by
    intro he
    rw [he] at hl
    omega
  have n2 : p ++ suffix ≠ "SAMEALTSAVE" := by
    intro he
    rw [he] at hl
    omega
  simp [AsmOp.isAltSave, customAt_op, n1, n2]

theorem filter_altSave_map_indented (l : List AsmOp) :
    ((l.map AsmOp.indented).filter AsmOp.isAltSave).length = (l.filter AsmOp.isAltSave).length := by
  induction l with
  | nil => rfl
  | cons x xs ih =>
    simp only [List.map_cons, List.filter_cons, AsmOp.isAltSave_indented]
    by_cases hx : x.isAltSave = true
    · simp [hx, ih]
    · simp [hx, ih]

/-- C3: for `callxargs_count <= 254`, `Stack::apply_wrappers` returns normally
and wraps the body iff `callxargs_count != -1` or (`mode` has `_InlineFunc` and
`o.retalt_` is set).  When it wraps, the op list is `CONT:<{`, then every op of
the list as it stood after the optional alt-save prefix, in order, each with
its indent increased by exactly 1, then `}>`, then exactly one (custom) call
op; this is three ops more than the body, and without wrapping none is added.
When it does not wrap and `retalt_` is false, the stack and its op list are
unchanged, whatever `mode` is. -/
theorem Stack.apply_wrappers_shape (pstring : Int → String) (st : Stack) (n : Int)
    (hn : n ≤ 254) :
    (st.apply_wrappers pstring n).2 = Except.ok () ∧
    (st.wraps n = true ↔
      (n ≠ -1 ∨ (Int.land st.mode _InlineFunc ≠ 0 ∧ st.o.retalt_ = true))) ∧
    (st.wraps n = true → ∃ call : AsmOp, call.is_custom = true ∧
      (st.apply_wrappers pstring n).1.o.list_ =
        customAt "CONT:<\x7b" st.o.indent_ ::
          (st.o.altSave ++ st.o.list_).map AsmOp.indented ++
            [customAt "\x7d>" st.o.indent_, call]) ∧
    (st.wraps n = false →
      (st.apply_wrappers pstring n).1.o.list_ = st.o.altSave ++ st.o.list_) ∧
    ((st.apply_wrappers pstring n).1.o.list_.length =
        (st.o.altSave ++ st.o.list_).length + 3 ↔ st.wraps n = true) ∧
    (st.wraps n = false → st.o.retalt_ = false → (st.apply_wrappers pstring n).1 = st) := by
  rw [Stack.apply_wrappers_eq]
  refine ⟨?_, Stack.wraps_iff st n, ?_, ?_, ?_, ?_⟩
  · by_cases hw : st.wraps n = true
    · rw [if_pos hw]
      by_cases h1 : n = -1
      · rw [if_pos h1]
      · rw [if_neg h1]
        by_cases h15 : n ≤ 15
        · rw [if_pos h15]
        · rw [if_neg h15, if_pos hn]
    · rw [if_neg hw]
  · intro hw
    rw [if_pos hw]
    by_cases h1 : n = -1
    · rw [if_pos h1]
      exact ⟨customAt "EXECUTE" st.o.indent_, rfl, by simp [Stack.wrappedBody]⟩
    · rw [if_neg h1]
      by_cases h15 : n ≤ 15
      · rw [if_pos h15]
        exact ⟨customAt (pstring n ++ " -1 CALLXARGS") st.o.indent_, rfl, by
          simp [Stack.wrappedBody]⟩
      · rw [if_neg h15, if_pos hn]
        exact ⟨customAt (pstring n ++ " PUSHINT -1 PUSHINT CALLXVARARGS") st.o.indent_, rfl, by
          simp [Stack.wrappedBody]⟩
  · intro hw
    simp [hw]
  · by_cases hw : st.wraps n = true
    · rw [if_pos hw]
      by_cases h1 : n = -1
      · rw [if_pos h1]
        simp [Stack.wrappedBody, hw]
        omega
      · rw [if_neg h1]
        by_cases h15 : n ≤ 15
        · rw [if_pos h15]
          simp [Stack.wrappedBody, hw]
          omega
        · rw [if_neg h15, if_pos hn]
          simp [Stack.wrappedBody, hw]
          omega
    · rw [if_neg hw]
      simp [hw]
  · intro hw hr
    simp only [hw]
    cases st with
    | mk s o mode =>
      cases o with
      | mk l i c r =>
        simp only at hr
        subst hr
        simp [AsmOpList.altSave]

/-- C4: whenever `Stack::apply_wrappers` wraps the body, the op appended after
`}>` depends on `callxargs_count` alone: `EXECUTE` when it is `-1`; the custom
op `<n> -1 CALLXARGS` when `n` is not `-1` and `n <= 15`; the custom op
`<n> PUSHINT -1 PUSHINT CALLXVARARGS` when `16 <= n <= 254`; for `n > 254` the
assertion on line 1572 throws and no call op is emitted (the list ends with
`}>`). -/
theorem Stack.apply_wrappers_call (pstring : Int → String) (st : Stack) (n : Int)
    (hw : st.wraps n = true) :
    (n = -1 →
      (st.apply_wrappers pstring n).2 = Except.ok () ∧
      (st.apply_wrappers pstring n).1.o.list_ =
        st.wrappedBody ++ [(AsmOp.Custom "EXECUTE").withIndent st.o.indent_]) ∧
    (n ≠ -1 → n ≤ 15 →
      (st.apply_wrappers pstring n).2 = Except.ok () ∧
      (st.apply_wrappers pstring n).1.o.list_ =
        st.wrappedBody ++
          [(AsmOp.Custom (pstring n ++ " -1 CALLXARGS")).withIndent st.o.indent_]) ∧
    (16 ≤ n → n ≤ 254 →
      (st.apply_wrappers pstring n).2 = Except.ok () ∧
      (st.apply_wrappers pstring n).1.o.list_ =
        st.wrappedBody ++
          [(AsmOp.Custom (pstring n ++ " PUSHINT -1 PUSHINT CALLXVARARGS")).withIndent
            st.o.indent_]) ∧
    (n > 254 →
      isAssertionFailure (st.apply_wrappers pstring n).2 = true ∧
      (st.apply_wrappers pstring n).2 =
        Except.error (Fatal.assertion 1572 "callxargs_count <= 254") ∧
      (st.apply_wrappers pstring n).1.o.list_ = st.wrappedBody ∧
      (st.apply_wrappers pstring n).1.o.list_.getLast? =
        some (customAt "\x7d>" st.o.indent_)) := by
  rw [Stack.apply_wrappers_eq, if_pos hw]
  refine ⟨?_, ?_, ?_, ?_⟩
  · intro h1
    rw [if_pos h1]
    exact ⟨rfl, rfl⟩
  · intro h1 h15
    rw [if_neg h1, if_pos h15]
    exact ⟨rfl, rfl⟩
  · intro h16 h254
    have h1 : ¬ n = -1 := by omega
    have h15 : ¬ n ≤ 15 := by omega
    rw [if_neg h1, if_neg h15, if_pos h254]
    exact ⟨rfl, rfl⟩
  · intro hbig
    have h1 : ¬ n = -1 := by omega
    have h15 : ¬ n ≤ 15 := by omega
    have h254 : ¬ n ≤ 254 := by omega
    rw [if_neg h1, if_neg h15, if_neg h254]
    refine ⟨rfl, rfl, rfl, ?_⟩
    show st.wrappedBody.getLast? = _
    rw [Stack.wrappedBody, List.getLast?_append]
    rfl

theorem Stack.apply_wrappers_list_cases (pstring : Int → String) (st : Stack) (n : Int) :
    (st.wraps n = false ∧
      (st.apply_wrappers pstring n).1.o.list_ = st.o.altSave ++ st.o.list_) ∨
    (st.wraps n = true ∧
      (st.apply_wrappers pstring n).1.o.list_ = st.wrappedBody) ∨
    (st.wraps n = true ∧ ∃ str : String, 12 ≤ str.length ∧
      (st.apply_wrappers pstring n).1.o.list_ =
        st.wrappedBody ++ [customAt (pstring n ++ str) st.o.indent_]) ∨
    (st.wraps n = true ∧
      (st.apply_wrappers pstring n).1.o.list_ =
        st.wrappedBody ++ [customAt "EXECUTE" st.o.indent_]) := by
  rw [Stack.apply_wrappers_eq]
  by_cases hw : st.wraps n = true
  · rw [if_pos hw]
    by_cases h1 : n = -1
    · rw [if_pos h1]
      exact Or.inr (Or.inr (Or.inr ⟨hw, rfl⟩))
    · rw [if_neg h1]
      by_cases h15 : n ≤ 15
      · rw [if_pos h15]
        exact Or.inr (Or.inr (Or.inl ⟨hw, " -1 CALLXARGS", by decide, rfl⟩))
      · rw [if_neg h15]
        by_cases h254 : n ≤ 254
        · rw [if_pos h254]
          exact Or.inr (Or.inr (Or.inl
            ⟨hw, " PUSHINT -1 PUSHINT CALLXVARARGS", by decide, rfl⟩))
        · rw [if_neg h254]
          exact Or.inr (Or.inl ⟨hw, rfl⟩)
  · rw [if_neg hw]
    have hw2 : st.wraps n = false := by simpa using hw
    exact Or.inl ⟨hw2, rfl⟩

theorem Stack.wrappedBody_retalt (st : Stack) (hr : st.o.retalt_ = true) :
    st.wrappedBody =
      customAt "CONT:<\x7b" st.o.indent_ :: customAt "c2 SAVE" (st.o.indent_ + 1) ::
        customAt "SAMEALTSAVE" (st.o.indent_ + 1) ::
          (st.o.list_.map AsmOp.indented ++ [customAt "\x7d>" st.o.indent_]) := by
  simp [Stack.wrappedBody, AsmOpList.altSave, hr]
  exact ⟨rfl, rfl⟩

theorem Stack.wrappedBody_altSave_count (st : Stack) (hr : st.o.retalt_ = false) :
    (st.wrappedBody.filter AsmOp.isAltSave).length =
      (st.o.list_.filter AsmOp.isAltSave).length := by
  have hc : (customAt "CONT:<\x7b" st.o.indent_).isAltSave = false := by
    rw [isAltSave_customAt]; decide
  have hd : (customAt "\x7d>" st.o.indent_).isAltSave = false := by
    rw [isAltSave_customAt]; decide
  simp only [Stack.wrappedBody, AsmOpList.altSave, hr, List.filter_cons, hc, List.filter_append,
    hd, List.nil_append, List.filter_nil, List.append_nil, Bool.false_eq_true, if_false]
  exact filter_altSave_map_indented st.o.list_

/-- C5: when `retalt_` is set, after `Stack::apply_wrappers` the ops `c2 SAVE`
and `SAMEALTSAVE` stand next to each other in that order directly in front of
the ops of the original body; when the body is wrapped they come directly after
`CONT:<{` (inside the continuation, one indent deeper), otherwise they are the
first two ops.  When `retalt_` is not set, the number of ops whose text is
`c2 SAVE` or `SAMEALTSAVE` does not change. -/
theorem Stack.apply_wrappers_altsave (pstring : Int → String) (st : Stack) (n : Int) :
    (st.o.retalt_ = true → st.wraps n = true → ∃ rest : List AsmOp,
      (st.apply_wrappers pstring n).1.o.list_ =
        customAt "CONT:<\x7b" st.o.indent_ :: customAt "c2 SAVE" (st.o.indent_ + 1) ::
          customAt "SAMEALTSAVE" (st.o.indent_ + 1) ::
            (st.o.list_.map AsmOp.indented ++ rest)) ∧
    (st.o.retalt_ = true → st.wraps n = false →
      (st.apply_wrappers pstring n).1.o.list_ =
        customAt "c2 SAVE" st.o.indent_ :: customAt "SAMEALTSAVE" st.o.indent_ ::
          st.o.list_) ∧
    (st.o.retalt_ = false →
      ((st.apply_wrappers pstring n).1.o.list_.filter AsmOp.isAltSave).length =
        (st.o.list_.filter AsmOp.isAltSave).length) := by
  refine ⟨?_, ?_, ?_⟩
  · intro hr hw
    rcases Stack.apply_wrappers_list_cases pstring st n with
      ⟨hf, _⟩ | ⟨_, h⟩ | ⟨_, str, _, h⟩ | ⟨_, h⟩
    · rw [hw] at hf
      exact absurd hf (by decide)
    · exact ⟨[customAt "\x7d>" st.o.indent_], by rw [h, Stack.wrappedBody_retalt st hr]⟩
    · exact ⟨[customAt "\x7d>" st.o.indent_, customAt (pstring n ++ str) st.o.indent_], by
        rw [h, Stack.wrappedBody_retalt st hr]; simp⟩
    · exact ⟨[customAt "\x7d>" st.o.indent_, customAt "EXECUTE" st.o.indent_], by
        rw [h, Stack.wrappedBody_retalt st hr]; simp⟩
  · intro hr hw
    rcases Stack.apply_wrappers_list_cases pstring st n with
      ⟨_, h⟩ | ⟨ht, _⟩ | ⟨ht, _⟩ | ⟨ht, _⟩
    · rw [h]
      simp [AsmOpList.altSave, hr]
    · rw [hw] at ht
      exact absurd ht (by decide)
    · rw [hw] at ht
      exact absurd ht (by decide)
    · rw [hw] at ht
      exact absurd ht (by decide)
  · intro hr
    have hbody := Stack.wrappedBody_altSave_count st hr
    rcases Stack.apply_wrappers_list_cases pstring st n with
      ⟨_, h⟩ | ⟨_, h⟩ | ⟨_, str, hlen, h⟩ | ⟨_, h⟩
    · rw [h]
      simp [AsmOpList.altSave, hr]
    · rw [h, hbody]
    · rw [h, List.filter_append, List.length_append, hbody]
      simp [List.filter_cons, AsmOp.isAltSave_long (pstring n) str st.o.indent_ hlen]
    · have he : (customAt "EXECUTE" st.o.indent_).isAltSave = false := by
        rw [isAltSave_customAt]; decide
      rw [h, List.filter_append, List.length_append, hbody]
      simp [List.filter_cons, he]

/-- Witness for C3: wrapping the inline example for a call with 3 arguments. -/
theorem Stack.apply_wrappers_shape_witness :
    (Stack.exampleInline.apply_wrappers decimal 3).2 = Except.ok () ∧
    (Stack.exampleInline.apply_wrappers decimal 3).1.o.list_.length = 6 := by
  have h := Stack.apply_wrappers_shape decimal Stack.exampleInline 3 (by decide)
  exact ⟨h.1, by rw [h.2.2.2.2.1.mpr (by decide)]; decide⟩

/-- Witness for C4: the inline example with `callxargs_count = -1` ends with
`EXECUTE`. -/
theorem Stack.apply_wrappers_call_witness :
    (Stack.exampleInline.apply_wrappers decimal (-1)).1.o.list_.map (fun x => (x.op, x.indent)) =
      [("CONT:<\x7b", 0), ("c2 SAVE", 1), ("SAMEALTSAVE", 1), ("NOP", 1), ("\x7d>", 0),
        ("EXECUTE", 0)] := by
  rw [((Stack.apply_wrappers_call decimal Stack.exampleInline (-1) (by decide)).1 rfl).2]
  decide

/-- Witness for C5: the inline example, wrapped for a call with 3 arguments. -/
theorem Stack.apply_wrappers_altsave_witness :
    ∃ rest : List AsmOp,
      (Stack.exampleInline.apply_wrappers decimal 3).1.o.list_ =
        customAt "CONT:<\x7b" 0 :: customAt "c2 SAVE" 1 :: customAt "SAMEALTSAVE" 1 ::
          ([customAt "NOP" 1] ++ rest) :=
  (Stack.apply_wrappers_altsave decimal Stack.exampleInline 3).1 rfl (by decide)

/-! ## `StackTransform`: comparison operators and the identity -/

/-- C6: for all stack transforms `a` and `b`, `a == b` holds iff
`a.dp == b.dp` and `a.almost_equal(b)`, where `almost_equal(b)` is
`equal(b, relaxed = true)`; hence `a == b` implies `a.almost_equal(b)`, and
`a == b` holds iff both `a <= b` and `a >= b` hold. -/
theorem StackTransform.eq_spec (equal : StackTransform → StackTransform → Bool → Bool)
    (a b : StackTransform) :
    (StackTransform.almost_equal equal a b = equal a b true) ∧
    (StackTransform.eq equal a b = true ↔
      a.dp = b.dp ∧ StackTransform.almost_equal equal a b = true) ∧
    (StackTransform.eq equal a b = true → StackTransform.almost_equal equal a b = true) ∧
    (StackTransform.eq equal a b = true ↔
      StackTransform.le equal a b = true ∧ StackTransform.ge equal a b = true) := by
  refine ⟨rfl, ?_, ?_, ?_⟩
  · simp [StackTransform.eq]
  · intro h
    simp [StackTransform.eq] at h
    exact h.2
  · simp only [StackTransform.eq, StackTransform.le, StackTransform.ge, Bool.and_eq_true,
      beq_iff_eq, decide_eq_true_eq]
    constructor
    · rintro ⟨hd, he⟩
      exact ⟨⟨le_of_eq hd, he⟩, ⟨ge_of_eq hd, he⟩⟩
    · rintro ⟨⟨h1, he⟩, ⟨h2, _⟩⟩
      exact ⟨le_antisymm h1 h2, he⟩

/-- C7: `StackTransform::id()` has `d = 0`, `n = 0`, is valid and satisfies
`is_id()`; for every transform, valid or not, `set_id()` returns `true` and
leaves `d`, `n`, `dp`, `c` all 0 and the transform valid with `is_id()` true
(and `A` untouched); and `is_id()` holds iff the transform is valid and
`d = 0` and `n = 0`, whatever `dp`, `c` and `A` are. -/
theorem StackTransform.id_spec (t : StackTransform) :
    (StackTransform.id.d = 0 ∧ StackTransform.id.n = 0 ∧
      StackTransform.id.is_valid = true ∧ StackTransform.id.is_id = true) ∧
    (t.set_id.2 = true ∧ t.set_id.1.d = 0 ∧ t.set_id.1.n = 0 ∧ t.set_id.1.dp = 0 ∧
      t.set_id.1.c = 0 ∧ t.set_id.1.is_valid = true ∧ t.set_id.1.is_id = true ∧
      t.set_id.1.A = t.A) ∧
    (t.is_id = true ↔ t.is_valid = true ∧ t.d = 0 ∧ t.n = 0) ∧
    (∀ dp c : Int, ∀ A : List (Int × Int),
      StackTransform.is_id { t with dp := dp, c := c, A := A } = t.is_id) := by
  refine ⟨⟨rfl, rfl, rfl, rfl⟩, ⟨rfl, rfl, rfl, rfl, rfl, rfl, rfl, rfl⟩, ?_, ?_⟩
  · simp [StackTransform.is_id, and_assoc]
  · intro dp c A
    rfl

/-! ## `TypeExpr`: widths -/

theorem TypeExpr.sum_minw_eq_sum_width (list : List TypeExpr)
    (hfix : ∀ c ∈ list, c.has_fixed_width = true) :
    (list.map TypeExpr.minw).sum = (list.map TypeExpr.get_width).sum ∧
    (list.map TypeExpr.maxw).sum = (list.map TypeExpr.get_width).sum := by
  induction list with
  | nil => exact ⟨rfl, rfl⟩
  | cons x xs ih =>
    have hx : x.has_fixed_width = true := hfix x (List.mem_cons_self x xs)
    have hxs := ih (fun c hc => hfix c (List.mem_cons_of_mem x hc))
    have hmm : x.minw = x.maxw := by simpa [TypeExpr.has_fixed_width] using hx
    have hw : x.get_width = x.minw := by simp [TypeExpr.get_width, hx]
    simp only [List.map_cons, List.sum_cons, hxs.1, hxs.2, hw]
    exact ⟨trivial, by rw [hmm]⟩

theorem TypeExpr.mkList_tensor (list : List TypeExpr) :
    TypeExpr.mkList te_type.te_Tensor list =
      TypeExpr.mk te_type.te_Tensor (int_of_size list.length) (list.map TypeExpr.minw).sum
        (min TypeExpr.w_inf (list.map TypeExpr.maxw).sum) list false := rfl

/-- C10 (counterexample): two children of fixed width 600 each; the tensor
built from them by `new_tensor` has the range `[1200, 1023]`, so it has no
fixed width and `get_width()` is `-1`, not `1200`. -/
theorem TypeExpr.new_tensor_width_counterexample :
    TypeExpr.exampleWide.all TypeExpr.has_fixed_width = true ∧
    (TypeExpr.exampleWide.map TypeExpr.get_width).sum = 1200 ∧
    (TypeExpr.new_tensor TypeExpr.exampleWide true).has_fixed_width = false ∧
    (TypeExpr.new_tensor TypeExpr.exampleWide true).get_width = -1 := by
  decide

/-- C10 (amended): for a node built by `new_tensor` from children that all have
fixed widths whose sum is at most `w_inf = 1023`, the node has a fixed width and
`get_width()` is the sum of the children's `get_width()`.  `new_unit()` has the
fixed width 0, and `new_tensor` of a one-element list (with `red = true`) is
that element, so it has that element's width. -/
theorem TypeExpr.new_tensor_width (list : List TypeExpr) (red : Bool)
    (hfix : ∀ c ∈ list, c.has_fixed_width = true)
    (hsum : (list.map TypeExpr.get_width).sum ≤ TypeExpr.w_inf) :
    ((TypeExpr.new_tensor list red).has_fixed_width = true ∧
      (TypeExpr.new_tensor list red).get_width = (list.map TypeExpr.get_width).sum) ∧
    (TypeExpr.new_unit.has_fixed_width = true ∧ TypeExpr.new_unit.get_width = 0) ∧
    (∀ t : TypeExpr, TypeExpr.new_tensor [t] true = t) := by
  refine ⟨?_, ⟨rfl, rfl⟩, fun t => rfl⟩
  have hs := TypeExpr.sum_minw_eq_sum_width list hfix
  by_cases h : red = true ∧ list.length = 1
  · obtain ⟨x, hx⟩ := List.length_eq_one.mp h.2
    subst hx
    have hnt : TypeExpr.new_tensor [x] red = x := by
      simp [TypeExpr.new_tensor, h.1]
    rw [hnt]
    exact ⟨hfix x (List.mem_singleton_self x), by simp⟩
  · have hnt : TypeExpr.new_tensor list red = TypeExpr.mkList te_type.te_Tensor list := by
      simp only [TypeExpr.new_tensor, dif_neg h]
    rw [hnt, TypeExpr.mkList_tensor]
    have hmin : min TypeExpr.w_inf (list.map TypeExpr.maxw).sum =
        (list.map TypeExpr.get_width).sum := by
      rw [hs.2]
      exact min_eq_right hsum
    simp [TypeExpr.has_fixed_width, TypeExpr.get_width, TypeExpr.minw, TypeExpr.maxw, hmin, hs.1]

/-- Witness for C10: the tensor of two holes of widths 2 and 3 has width 5. -/
theorem TypeExpr.new_tensor_width_witness :
    (TypeExpr.new_tensor TypeExpr.exampleNarrow true).get_width = 5 :=
  (TypeExpr.new_tensor_width TypeExpr.exampleNarrow true (by decide) (by decide)).1.2

/-! ## Unification: substitution lemmas -/

mutual
theorem Ty.subst_none : ∀ t : Ty, Ty.subst (fun _ => none) t = t
  | Ty.hole _ => rfl
  | Ty.var _ => rfl
  | Ty.atomic _ => rfl
  | Ty.tensor args => by rw [Ty.subst, Ty.substList_none args]
  | Ty.tuple t => by rw [Ty.subst, Ty.subst_none t]
  | Ty.map d c => by rw [Ty.subst, Ty.subst_none d, Ty.subst_none c]
  | Ty.forAll _ t => by rw [Ty.subst, Ty.subst_none t]
theorem Ty.substList_none : ∀ ts : List Ty, Ty.substList (fun _ => none) ts = ts
  | [] => rfl
  | t :: ts => by rw [Ty.substList, Ty.subst_none t, Ty.substList_none ts]
end

mutual
theorem Ty.subst_congr (b1 b2 : Int → Option Ty) :
    ∀ t : Ty, (∀ k, t.occurs k = true → b1 k = b2 k) → Ty.subst b1 t = Ty.subst b2 t
  | Ty.hole h, hyp => by
    have := hyp h (by simp [Ty.occurs])
    simp [Ty.subst, this]
  | Ty.var _, _ => rfl
  | Ty.atomic _, _ => rfl
  | Ty.tensor args, hyp => by
    rw [Ty.subst, Ty.subst, Ty.substList_congr b1 b2 args (fun k hk => hyp k (by simpa [Ty.occurs] using hk))]
  | Ty.tuple t, hyp => by
    rw [Ty.subst, Ty.subst, Ty.subst_congr b1 b2 t (fun k hk => hyp k (by simpa [Ty.occurs] using hk))]
  | Ty.map d c, hyp => by
    rw [Ty.subst, Ty.subst, Ty.subst_congr b1 b2 d (fun k hk => hyp k (by simp [Ty.occurs, hk])),
      Ty.subst_congr b1 b2 c (fun k hk => hyp k (by simp [Ty.occurs, hk]))]
  | Ty.forAll _ t, hyp => by
    rw [Ty.subst, Ty.subst, Ty.subst_congr b1 b2 t (fun k hk => hyp k (by simpa [Ty.occurs] using hk))]
theorem Ty.substList_congr (b1 b2 : Int → Option Ty) :
    ∀ ts : List Ty, (∀ k, Ty.occursList k ts = true → b1 k = b2 k) →
      Ty.substList b1 ts = Ty.substList b2 ts
  | [], _ => rfl
  | t :: ts, hyp => by
    rw [Ty.substList, Ty.substList,
      Ty.subst_congr b1 b2 t (fun k hk => hyp k (by simp [Ty.occursList, hk])),
      Ty.substList_congr b1 b2 ts (fun k hk => hyp k (by simp [Ty.occursList, hk]))]
end

mutual
theorem Ty.subst_subst (b1 b2 : Int → Option Ty) :
    ∀ t : Ty, Ty.subst b2 (Ty.subst b1 t) = Ty.subst (Ty.comp b1 b2) t
  | Ty.hole h => by
    cases hb : b1 h with
    | some u => simp [Ty.subst, Ty.comp, hb]
    | none => simp [Ty.subst, Ty.comp, hb]
  | Ty.var _ => rfl
  | Ty.atomic _ => rfl
  | Ty.tensor args => by
    rw [Ty.subst, Ty.subst, Ty.subst, Ty.substList_substList b1 b2 args]
  | Ty.tuple t => by rw [Ty.subst, Ty.subst, Ty.subst, Ty.subst_subst b1 b2 t]
  | Ty.map d c => by
    rw [Ty.subst, Ty.subst, Ty.subst, Ty.subst_subst b1 b2 d, Ty.subst_subst b1 b2 c]
  | Ty.forAll _ t => by rw [Ty.subst, Ty.subst, Ty.subst, Ty.subst_subst b1 b2 t]
theorem Ty.substList_substList (b1 b2 : Int → Option Ty) :
    ∀ ts : List Ty, Ty.substList b2 (Ty.substList b1 ts) = Ty.substList (Ty.comp b1 b2) ts
  | [] => rfl
  | t :: ts => by
    rw [Ty.substList, Ty.substList, Ty.substList, Ty.subst_subst b1 b2 t,
      Ty.substList_substList b1 b2 ts]
end

mutual
theorem Ty.beq_refl : ∀ t : Ty, Ty.beq t t = true
  | Ty.hole _ => by simp [Ty.beq]
  | Ty.var _ => by simp [Ty.beq]
  | Ty.atomic _ => by simp [Ty.beq]
  | Ty.tensor args => by rw [Ty.beq, Ty.beqList_refl args]
  | Ty.tuple t => by rw [Ty.beq, Ty.beq_refl t]
  | Ty.map d c => by rw [Ty.beq, Ty.beq_refl d, Ty.beq_refl c]; rfl
  | Ty.forAll vs t => by rw [Ty.beq, Ty.beq_refl t]; simp
theorem Ty.beqList_refl : ∀ ts : List Ty, Ty.beqList ts ts = true
  | [] => rfl
  | t :: ts => by rw [Ty.beqList, Ty.beq_refl t, Ty.beqList_refl ts]; rfl
end

mutual
theorem Ty.occurs_subst (b : Int → Option Ty) (k : Int) :
    ∀ t : Ty, (Ty.subst b t).occurs k = true →
      ∃ j, t.occurs j = true ∧
        ((b j = none ∧ j = k) ∨ ∃ u, b j = some u ∧ u.occurs k = true)
  | Ty.hole h, hyp => by
    cases hb : b h with
    | some u =>
      simp only [Ty.subst, hb] at hyp
      exact ⟨h, by simp [Ty.occurs], Or.inr ⟨u, hb, hyp⟩⟩
    | none =>
      simp only [Ty.subst, hb, Ty.occurs, beq_iff_eq] at hyp
      exact ⟨h, by simp [Ty.occurs], Or.inl ⟨hb, hyp⟩⟩
  | Ty.var _, hyp => by simp [Ty.subst, Ty.occurs] at hyp
  | Ty.atomic _, hyp => by simp [Ty.subst, Ty.occurs] at hyp
  | Ty.tensor args, hyp => by
    rw [Ty.subst, Ty.occurs] at hyp
    obtain ⟨j, hj, h⟩ := Ty.occursList_subst b k args hyp
    exact ⟨j, by rw [Ty.occurs]; exact hj, h⟩
  | Ty.tuple t, hyp => by
    rw [Ty.subst, Ty.occurs] at hyp
    obtain ⟨j, hj, h⟩ := Ty.occurs_subst b k t hyp
    exact ⟨j, by rw [Ty.occurs]; exact hj, h⟩
  | Ty.map d c, hyp => by
    rw [Ty.subst, Ty.occurs, Bool.or_eq_true] at hyp
    rcases hyp with hyp | hyp
    · obtain ⟨j, hj, h⟩ := Ty.occurs_subst b k d hyp
      exact ⟨j, by rw [Ty.occurs, hj]; rfl, h⟩
    · obtain ⟨j, hj, h⟩ := Ty.occurs_subst b k c hyp
      exact ⟨j, by rw [Ty.occurs, hj, Bool.or_true], h⟩
  | Ty.forAll _ t, hyp => by
    rw [Ty.subst, Ty.occurs] at hyp
    obtain ⟨j, hj, h⟩ := Ty.occurs_subst b k t hyp
    exact ⟨j, by rw [Ty.occurs]; exact hj, h⟩
theorem Ty.occursList_subst (b : Int → Option Ty) (k : Int) :
    ∀ ts : List Ty, Ty.occursList k (Ty.substList b ts) = true →
      ∃ j, Ty.occursList j ts = true ∧
        ((b j = none ∧ j = k) ∨ ∃ u, b j = some u ∧ u.occurs k = true)
  | [], hyp => by simp [Ty.substList, Ty.occursList] at hyp
  | t :: ts, hyp => by
    rw [Ty.substList, Ty.occursList, Bool.or_eq_true] at hyp
    rcases hyp with hyp | hyp
    · obtain ⟨j, hj, h⟩ := Ty.occurs_subst b k t hyp
      exact ⟨j, by rw [Ty.occursList, hj]; rfl, h⟩
    · obtain ⟨j, hj, h⟩ := Ty.occursList_subst b k ts hyp
      exact ⟨j, by rw [Ty.occursList, hj, Bool.or_true], h⟩
end

mutual
theorem Ty.forallFree_subst (b : Int → Option Ty)
    (hb : ∀ k u, b k = some u → u.forallFree = true) :
    ∀ t : Ty, t.forallFree = true → (Ty.subst b t).forallFree = true
  | Ty.hole h, _ => by
    cases hh : b h with
    | some u => simp only [Ty.subst, hh]; exact hb h u hh
    | none => simp [Ty.subst, hh, Ty.forallFree]
  | Ty.var _, _ => rfl
  | Ty.atomic _, _ => rfl
  | Ty.tensor args, hyp => by
    rw [Ty.forallFree] at hyp
    rw [Ty.subst, Ty.forallFree]
    exact Ty.forallFreeList_subst b hb args hyp
  | Ty.tuple t, hyp => by
    rw [Ty.forallFree] at hyp
    rw [Ty.subst, Ty.forallFree]
    exact Ty.forallFree_subst b hb t hyp
  | Ty.map d c, hyp => by
    rw [Ty.forallFree, Bool.and_eq_true] at hyp
    rw [Ty.subst, Ty.forallFree, Ty.forallFree_subst b hb d hyp.1,
      Ty.forallFree_subst b hb c hyp.2]
    rfl
  | Ty.forAll _ _, hyp => by simp [Ty.forallFree] at hyp
theorem Ty.forallFreeList_subst (b : Int → Option Ty)
    (hb : ∀ k u, b k = some u → u.forallFree = true) :
    ∀ ts : List Ty, Ty.forallFreeList ts = true → Ty.forallFreeList (Ty.substList b ts) = true
  | [], _ => rfl
  | t :: ts, hyp => by
    rw [Ty.forallFreeList, Bool.and_eq_true] at hyp
    rw [Ty.substList, Ty.forallFreeList, Ty.forallFree_subst b hb t hyp.1,
      Ty.forallFreeList_subst b hb ts hyp.2]
    rfl
end

/-! ## Unification: well-formed states -/

/-- C11: for every atomic kind `k`, `new_atomic(k)` is a node with
`constr = te_Atomic`, `value = k`, `minw = maxw = 1`; it has a fixed width,
`get_width()` is 1, `is_atomic()` and `is_atomic(k)` hold, and `is_atomic(k')`
holds for no `k'` other than `k`. -/
theorem TypeExpr.new_atomic_spec (k : Int) :
    (TypeExpr.new_atomic k).constr = te_type.te_Atomic ∧
    (TypeExpr.new_atomic k).value = k ∧
    (TypeExpr.new_atomic k).minw = 1 ∧ (TypeExpr.new_atomic k).maxw = 1 ∧
    (TypeExpr.new_atomic k).has_fixed_width = true ∧
    (TypeExpr.new_atomic k).get_width = 1 ∧
    (TypeExpr.new_atomic k).is_atomic = true ∧
    (TypeExpr.new_atomic k).is_atomic_v k = true ∧
    (∀ k2 : Int, (TypeExpr.new_atomic k).is_atomic_v k2 = true ↔ k2 = k) := by
  refine ⟨rfl, rfl, rfl, rfl, rfl, rfl, rfl, ?_, ?_⟩
  · simp [TypeExpr.is_atomic_v, TypeExpr.new_atomic, TypeExpr.mkWidth, TypeExpr.constr,
      TypeExpr.value]
  · intro k2
    simp only [TypeExpr.is_atomic_v, TypeExpr.new_atomic, TypeExpr.mkWidth, TypeExpr.constr,
      TypeExpr.value, beq_self_eq_true, Bool.true_and, beq_iff_eq]
    exact eq_comm

/-- C12: a hole made by `new_hole()` has the width range `[0, 1023]`, has no
fixed width, and its `get_width()` is `-1`; a hole made by `new_hole(w)` has
`minw = maxw = w` and `get_width() = w`; both are `te_Unknown` nodes whose id is
the incremented counter.  For every type expression, `get_width()` is `minw`
when `minw = maxw` and `-1` otherwise. -/
theorem TypeExpr.new_hole_spec (holes w : Int) (t : TypeExpr) :
    ((TypeExpr.new_hole holes).1.minw = 0 ∧ (TypeExpr.new_hole holes).1.maxw = 1023 ∧
      (TypeExpr.new_hole holes).1.maxw = TypeExpr.w_inf ∧
      (TypeExpr.new_hole holes).1.has_fixed_width = false ∧
      (TypeExpr.new_hole holes).1.get_width = -1 ∧
      (TypeExpr.new_hole holes).1.constr = te_type.te_Unknown ∧
      (TypeExpr.new_hole holes).1.value = holes + 1) ∧
    ((TypeExpr.new_hole_width holes w).1.minw = w ∧
      (TypeExpr.new_hole_width holes w).1.maxw = w ∧
      (TypeExpr.new_hole_width holes w).1.has_fixed_width = true ∧
      (TypeExpr.new_hole_width holes w).1.get_width = w ∧
      (TypeExpr.new_hole_width holes w).1.constr = te_type.te_Unknown ∧
      (TypeExpr.new_hole_width holes w).1.value = holes + 1) ∧
    (t.get_width = if t.minw = t.maxw then t.minw else -1) := by
  refine ⟨⟨rfl, rfl, rfl, rfl, rfl, rfl, rfl⟩, ⟨rfl, rfl, ?_, ?_, rfl, rfl⟩, ?_⟩
  · simp [TypeExpr.has_fixed_width, TypeExpr.new_hole_width, TypeExpr.mkWidth, TypeExpr.minw,
      TypeExpr.maxw]
  · simp [TypeExpr.get_width, TypeExpr.has_fixed_width, TypeExpr.new_hole_width,
      TypeExpr.mkWidth, TypeExpr.minw, TypeExpr.maxw]
  · simp [TypeExpr.get_width, TypeExpr.has_fixed_width]

/-! ## `VarDescr`: the canonical fact sets -/

/-- C13: for a descriptor whose `val` is `ConstZero` (resp. `ConstOne`,
`ConstTrue`), each of `always_zero`, `always_nonzero`, `always_even`,
`always_odd`, `always_nonneg`, `always_nonpos`, `always_pos`, `always_neg`,
`always_finite`, `always_null`, `always_not_null` returns the truth value of the
corresponding statement about the integer 0 (resp. 1, -1). -/
theorem VarDescr.const_facts (v : VarDescr) :
    VarDescr.alwaysFacts { v with val := VarDescr.ConstZero } = Facts.ofInt 0 ∧
    VarDescr.alwaysFacts { v with val := VarDescr.ConstOne } = Facts.ofInt 1 ∧
    VarDescr.alwaysFacts { v with val := VarDescr.ConstTrue } = Facts.ofInt (-1) := by
  refine ⟨?_, ?_, ?_⟩ <;> rfl

/-- C14: `ValBit` is the set of facts shared by `ConstZero` and `ConstOne`,
namely `{Int, Pos, Bit, Finite, NotNull}`; `ValBool` is the set shared by
`ConstZero` and `ConstTrue`, namely `{Int, Neg, Bool, Finite, NotNull}`;
`FiniteInt` is a subset of each of `ConstZero`, `ConstOne`, `ConstTrue`, `ValBit`,
`ValBool`, `FiniteUInt`; `FiniteUInt` is a subset of `ValBit` but not of
`ValBool`; and none of the seven sets contains `Const`, `Null`, `Nan`, or both
`Zero` and `NonZero`, or both `Even` and `Odd`. -/
theorem VarDescr.named_sets :
    (VarDescr.ValBit =
        VarDescr.bor (VarDescr.bor (VarDescr.bor (VarDescr.bor VarDescr._Int VarDescr._Pos)
          VarDescr._Bit) VarDescr._Finite) VarDescr._NotNull ∧
      VarDescr.factMasks.all (fun f => VarDescr.contains VarDescr.ValBit f ==
        (VarDescr.contains VarDescr.ConstZero f && VarDescr.contains VarDescr.ConstOne f))
        = true) ∧
    (VarDescr.ValBool =
        VarDescr.bor (VarDescr.bor (VarDescr.bor (VarDescr.bor VarDescr._Int VarDescr._Neg)
          VarDescr._Bool) VarDescr._Finite) VarDescr._NotNull ∧
      VarDescr.factMasks.all (fun f => VarDescr.contains VarDescr.ValBool f ==
        (VarDescr.contains VarDescr.ConstZero f && VarDescr.contains VarDescr.ConstTrue f))
        = true) ∧
    (VarDescr.contains VarDescr.ConstZero VarDescr.FiniteInt = true ∧
      VarDescr.contains VarDescr.ConstOne VarDescr.FiniteInt = true ∧
      VarDescr.contains VarDescr.ConstTrue VarDescr.FiniteInt = true ∧
      VarDescr.contains VarDescr.ValBit VarDescr.FiniteInt = true ∧
      VarDescr.contains VarDescr.ValBool VarDescr.FiniteInt = true ∧
      VarDescr.contains VarDescr.FiniteUInt VarDescr.FiniteInt = true) ∧
    (VarDescr.contains VarDescr.ValBit VarDescr.FiniteUInt = true ∧
      VarDescr.contains VarDescr.ValBool VarDescr.FiniteUInt = false) ∧
    VarDescr.namedSets.all (fun s =>
      !VarDescr.contains s VarDescr._Const && !VarDescr.contains s VarDescr._Null &&
      !VarDescr.contains s VarDescr._Nan &&
      !(VarDescr.contains s VarDescr._Zero && VarDescr.contains s VarDescr._NonZero) &&
      !(VarDescr.contains s VarDescr._Even && VarDescr.contains s VarDescr._Odd)) = true := by
  decide

/-! ## `AsmOp`: exchanges and constants -/

/-- C17: `AsmOp::Xchg(i, j)` and `AsmOp::Xchg(j, i)` produce the same op (for
`i = j` both are `AsmOp(a_none)`, which agree in every member that the
constructor sets); the result is a nop iff `i = j`; otherwise it is the
`a_xchg` op with `a = min(i, j)` and `b = max(i, j)`, so `a < b`; `is_swap()`
holds iff `{i, j} = {0, 1}`; and `is_xchg_short()` holds iff `i` and `j` differ
and `min(i, j) <= 1`. -/
theorem AsmOp.Xchg_spec (i j : Int) (g g2 : Int × Int) :
    AsmOp.Xchg i j g = AsmOp.Xchg j i g ∧
    ((AsmOp.Xchg i j g).t = (AsmOp.Xchg j i g2).t ∧
      (AsmOp.Xchg i j g).indent = (AsmOp.Xchg j i g2).indent ∧
      (AsmOp.Xchg i j g).gconst = (AsmOp.Xchg j i g2).gconst ∧
      (AsmOp.Xchg i j g).op = (AsmOp.Xchg j i g2).op ∧
      (AsmOp.Xchg i j g).origin = (AsmOp.Xchg j i g2).origin ∧
      (i = j ∨ AsmOp.Xchg i j g = AsmOp.Xchg j i g2)) ∧
    ((AsmOp.Xchg i j g).is_nop = true ↔ i = j) ∧
    (i = j ∨ (AsmOp.Xchg i j g = AsmOp.mk3 AsmOpType.a_xchg (min i j) (max i j) ∧
      (AsmOp.Xchg i j g).t = AsmOpType.a_xchg ∧
      (AsmOp.Xchg i j g).a = min i j ∧ (AsmOp.Xchg i j g).b = max i j ∧
      (AsmOp.Xchg i j g).a < (AsmOp.Xchg i j g).b)) ∧
    ((AsmOp.Xchg i j g).is_swap = true ↔ (i = 0 ∧ j = 1) ∨ (i = 1 ∧ j = 0)) ∧
    ((AsmOp.Xchg i j g).is_xchg_short = true ↔ i ≠ j ∧ min i j ≤ 1) := by
  rcases lt_trichotomy i j with h | h | h
  · have hne : i ≠ j := ne_of_lt h
    have hne2 : j ≠ i := ne_of_gt h
    have hnlt : ¬ j < i := not_lt.mpr h.le
    have e1 : ∀ g, AsmOp.Xchg i j g = AsmOp.mk3 AsmOpType.a_xchg i j := by
      intro g; simp [AsmOp.Xchg, hne, h]
    have e2 : ∀ g, AsmOp.Xchg j i g = AsmOp.mk3 AsmOpType.a_xchg i j := by
      intro g; simp [AsmOp.Xchg, hne2, hnlt]
    rw [e1 g, e2 g, e2 g2, min_eq_left h.le, max_eq_right h.le]
    refine ⟨rfl, ⟨rfl, rfl, rfl, rfl, rfl, Or.inr rfl⟩, ?_, Or.inr ⟨rfl, rfl, rfl, rfl, h⟩, ?_, ?_⟩
    · simp [AsmOp.mk3, AsmOp.is_nop, hne]
    · simp [AsmOp.mk3, AsmOp.is_swap, AsmOp.is_xchg_at, AsmOp.is_xchg]
      omega
    · simp [AsmOp.mk3, AsmOp.is_xchg_short, AsmOp.is_xchg, hne]
      omega
  · subst h
    have e1 : ∀ g, AsmOp.Xchg i i g = AsmOp.mk1 AsmOpType.a_none g := by
      intro g; simp [AsmOp.Xchg]
    rw [e1 g, e1 g2]
    refine ⟨rfl, ⟨rfl, rfl, rfl, rfl, rfl, Or.inl rfl⟩, ?_, Or.inl rfl, ?_, ?_⟩
    · simp only [AsmOp.mk1, AsmOp.is_nop, beq_self_eq_true, Bool.true_and, iff_true]
      rfl
    · simp [AsmOp.mk1, AsmOp.is_swap, AsmOp.is_xchg_at, AsmOp.is_xchg]
      omega
    · simp [AsmOp.mk1, AsmOp.is_xchg_short, AsmOp.is_xchg]
  · have hne : i ≠ j := ne_of_gt h
    have hne2 : j ≠ i := ne_of_lt h
    have hnlt : ¬ i < j := not_lt.mpr h.le
    have e1 : ∀ g, AsmOp.Xchg i j g = AsmOp.mk3 AsmOpType.a_xchg j i := by
      intro g; simp [AsmOp.Xchg, hne, hnlt]
    have e2 : ∀ g, AsmOp.Xchg j i g = AsmOp.mk3 AsmOpType.a_xchg j i := by
      intro g; simp [AsmOp.Xchg, hne2, h]
    rw [e1 g, e2 g, e2 g2, min_eq_right h.le, max_eq_left h.le]
    refine ⟨rfl, ⟨rfl, rfl, rfl, rfl, rfl, Or.inr rfl⟩, ?_, Or.inr ⟨rfl, rfl, rfl, rfl, h⟩, ?_, ?_⟩
    · simp [AsmOp.mk3, AsmOp.is_nop, hne]
    · simp [AsmOp.mk3, AsmOp.is_swap, AsmOp.is_xchg_at, AsmOp.is_xchg]
      omega
    · simp [AsmOp.mk3, AsmOp.is_xchg_short, AsmOp.is_xchg, hne]
      omega

theorem AsmOp.mk4_gconst (a b : Int) (name : String) :
    (AsmOp.mk4 AsmOpType.a_custom a b name).gconst = decide (name ∈ AsmOp.gconstNames) := by
  rw [Bool.eq_iff_iff]
  simp only [AsmOp.mk4, AsmOp.compute_gconst, AsmOp.is_custom, AsmOp.gconstNames,
    beq_self_eq_true, Bool.true_and, Bool.or_eq_true, beq_iff_eq, decide_eq_true_eq,
    List.mem_cons, List.mem_singleton, List.mem_nil_iff, or_false]
  tauto

/-- C18: an op built by `AsmOp::Const(push_op)` satisfies `is_const()` and
`is_gconst()`; an op built by `AsmOp::Custom(name)` (arity 255/255) never
satisfies `is_gconst()`; an op built by `AsmOp::Custom(name, args, retv)`
satisfies `is_gconst()` iff `args = 0`, `retv = 1` and `name` is one of
`PUSHNULL`, `NEWC`, `NEWB`, `TRUE`, `FALSE`, `NOW`; and every op that satisfies
`is_const()` satisfies `is_gconst()`. -/
theorem AsmOp.is_gconst_spec (name : String) (origin : Option Int) (args retv : Int)
    (x : AsmOp) :
    ((AsmOp.Const name origin).is_gconst = true ∧ (AsmOp.Const name origin).is_const = true) ∧
    (AsmOp.Custom name).is_gconst = false ∧
    ((AsmOp.CustomArgs name args retv).is_gconst = true ↔
      args = 0 ∧ retv = 1 ∧ name ∈ AsmOp.gconstNames) ∧
    (AsmOp.CustomArgs name 0 1).gconst = decide (name ∈ AsmOp.gconstNames) ∧
    (x.is_const = true → x.is_gconst = true) := by
  refine ⟨⟨rfl, rfl⟩, rfl, ?_, AsmOp.mk4_gconst 0 1 name, ?_⟩
  · have hg := AsmOp.mk4_gconst args retv name
    have ha : (AsmOp.CustomArgs name args retv).a = args := rfl
    have hb : (AsmOp.CustomArgs name args retv).b = retv := rfl
    have ht : (AsmOp.CustomArgs name args retv).t = AsmOpType.a_custom := rfl
    have hg2 : (AsmOp.CustomArgs name args retv).gconst = decide (name ∈ AsmOp.gconstNames) := hg
    simp only [AsmOp.is_gconst, ha, hb, ht, hg2, Bool.and_eq_true, beq_iff_eq, Bool.or_eq_true,
      decide_eq_true_eq]
    constructor
    · rintro ⟨⟨h1, h2⟩, h3⟩
      refine ⟨h1, h2, ?_⟩
      rcases h3 with h3 | h3
      · exact absurd h3 (by decide)
      · exact h3
    · rintro ⟨h1, h2, h3⟩
      exact ⟨⟨h1, h2⟩, Or.inr h3⟩
  · intro hc
    simp only [AsmOp.is_const, Bool.and_eq_true, beq_iff_eq] at hc
    simp [AsmOp.is_gconst, hc.1.1, hc.1.2, hc.2]

/-- Witness for C18: the op `Const("1 PUSHINT")` satisfies `is_const()`, hence
`is_gconst()`. -/
theorem AsmOp.is_gconst_spec_witness :
    (AsmOp.Const "1 PUSHINT" none).is_gconst = true :=
  (AsmOp.is_gconst_spec "NOW" none 0 1 (AsmOp.Const "1 PUSHINT" none)).2.2.2.2 rfl

/-! ## `SymValFunc`: flags -/

theorem land_two_pow_ne_zero (x : Int) (k : Nat) :
    (Int.land x ((2 ^ k : Nat) : Int) != 0) = x.testBit k := by
  have hbits : ∀ i, (Int.land x ((2 ^ k : Nat) : Int)).testBit i =
      (x.testBit i && decide (k = i)) := by
    intro i
    rw [Int.testBit_land]
    congr 1
    exact Nat.testBit_two_pow
  obtain ⟨m, hm⟩ : ∃ m : Nat, Int.land x ((2 ^ k : Nat) : Int) = (m : Int) := by
    cases x with
    | ofNat n => exact ⟨n &&& 2 ^ k, rfl⟩
    | negSucc n => exact ⟨Nat.ldiff (2 ^ k) n, rfl⟩
  have hmbits : ∀ i, m.testBit i = (x.testBit i && decide (k = i)) := by
    intro i
    rw [← hbits i, hm]
    rfl
  rw [hm]
  cases hx : x.testBit k with
  | false =>
    have hz : m = 0 := by
      apply Nat.zero_of_testBit_eq_false
      intro i
      rw [hmbits i]
      by_cases hki : k = i
      · subst hki; simp [hx]
      · simp [hki]
    simp [hz]
  | true =>
    have hk : m.testBit k = true := by rw [hmbits k]; simp [hx]
    have hne : m ≠ 0 := by
      intro e
      rw [e] at hk
      simp at hk
    simpa using hne

theorem SymValFlag.mask_eq_two_pow (f : SymValFlag) : f.mask = ((2 ^ f.bit : Nat) : Int) := by
  cases f <;> rfl

theorem SymValFlag.bit_injective (f g : SymValFlag) (h : f.bit = g.bit) : f = g := by
  cases f <;> cases g <;> first | rfl | exact absurd h (by decide)

theorem SymValFunc.has_eq_testBit (s : SymValFunc) (f : SymValFlag) :
    s.has f = s.flags.testBit f.bit := by
  unfold SymValFunc.has
  rw [SymValFlag.mask_eq_two_pow]
  exact land_two_pow_ne_zero s.flags f.bit

theorem SymValFlag.testBit_mask (f g : SymValFlag) :
    (f.mask).testBit g.bit = decide (f = g) := by
  cases f <;> cases g <;> decide

/-- C19: a `SymValFunc` constructed with `marked_as_pure = p` has
`is_marked_as_pure() = p` and `is_inline()`, `is_inline_ref()`,
`is_just_wrapper_for_another_f()`, `is_builtin()`, `is_get_method()` all false;
the seven flag masks are single bits (`2^0 .. 2^6`) and pairwise distinct; each
predicate tests its own flag; and for every `flags` value, setting a flag
(`flags |= f`) or clearing it (`flags &= ~f`) makes the test of `f` true
(resp. false) and leaves the test of every other flag as it was. -/
theorem SymValFunc.flags_spec (val : Int) (ft : Option TypeExpr) (p : Bool)
    (ao ro : List Int) (s : SymValFunc) (f g : SymValFlag) :
    ((SymValFunc.mk3 val ft p).is_marked_as_pure = p ∧
      (SymValFunc.mk3 val ft p).is_inline = false ∧
      (SymValFunc.mk3 val ft p).is_inline_ref = false ∧
      (SymValFunc.mk3 val ft p).is_just_wrapper_for_another_f = false ∧
      (SymValFunc.mk3 val ft p).is_builtin = false ∧
      (SymValFunc.mk3 val ft p).is_get_method = false) ∧
    ((SymValFunc.mk5 val ft ao ro p).is_marked_as_pure = p ∧
      (SymValFunc.mk5 val ft ao ro p).is_inline = false ∧
      (SymValFunc.mk5 val ft ao ro p).is_inline_ref = false ∧
      (SymValFunc.mk5 val ft ao ro p).is_just_wrapper_for_another_f = false ∧
      (SymValFunc.mk5 val ft ao ro p).is_builtin = false ∧
      (SymValFunc.mk5 val ft ao ro p).is_get_method = false) ∧
    (f.mask = 2 ^ f.bit ∧ f.bit < 7 ∧ (f.mask = g.mask ↔ f = g)) ∧
    (s.is_inline = s.has SymValFlag.flagInline ∧
      s.is_inline_ref = s.has SymValFlag.flagInlineRef ∧
      s.is_just_wrapper_for_another_f = s.has SymValFlag.flagWrapsAnotherF ∧
      s.is_marked_as_pure = s.has SymValFlag.flagMarkedAsPure ∧
      s.is_builtin = s.has SymValFlag.flagBuiltinFunction ∧
      s.is_get_method = s.has SymValFlag.flagGetMethod) ∧
    ((s.setFlag f).has g = (s.has g || decide (f = g))) ∧
    ((s.clearFlag f).has g = (s.has g && !decide (f = g))) := by
  refine ⟨?_, ?_, ⟨?_, ?_, ?_⟩, ⟨rfl, rfl, rfl, rfl, rfl, rfl⟩, ?_, ?_⟩
  · cases p <;> exact ⟨rfl, rfl, rfl, rfl, rfl, rfl⟩
  · cases p <;> exact ⟨rfl, rfl, rfl, rfl, rfl, rfl⟩
  · cases f <;> rfl
  · cases f <;> decide
  · constructor
    · intro h
      cases f <;> cases g <;> first | rfl | exact absurd h (by decide)
    · intro h
      rw [h]
  · rw [SymValFunc.has_eq_testBit, SymValFunc.has_eq_testBit]
    show (Int.lor s.flags f.mask).testBit g.bit = _
    rw [Int.testBit_lor, SymValFlag.testBit_mask]
  · rw [SymValFunc.has_eq_testBit, SymValFunc.has_eq_testBit]
    show (Int.land s.flags (Int.lnot f.mask)).testBit g.bit = _
    rw [Int.testBit_land, Int.testBit_lnot, SymValFlag.testBit_mask]

/-! ## `CodeBlob`: building nested blocks -/

theorem Op.field_setField_same (o : Op) (f : Field) (v : Option Op) :
    (o.setField f v).field f = v := by
  cases o; cases f <;> rfl

theorem Op.field_setField_other (o : Op) (f g : Field) (v : Option Op) (h : g ≠ f) :
    (o.setField f v).field g = o.field g := by
  cases o; cases f <;> cases g <;> first | rfl | exact absurd rfl h

theorem Op.addr_setField (o : Op) (f : Field) (v : Option Op) :
    (o.setField f v).addr = o.addr := by
  cases o; cases f <;> rfl

theorem Op.d_setField (o : Op) (f : Field) (v : Option Op) : (o.setField f v).d = o.d := by
  cases o; cases f <;> rfl

theorem opAt_writeAt_same : ∀ (w : List Field) (t v : Option Op),
    slotExists t w = true → opAt (writeAt t w v) w = v
  | [], t, v, _ => by simp [writeAt, opAt]
  | _ :: _, none, _, h => by simp [slotExists] at h
  | f :: w, some o, v, h => by
    rw [writeAt, opAt, Op.field_setField_same]
    exact opAt_writeAt_same w (o.field f) v h

theorem writeAt_append : ∀ (p q : List Field) (t x v : Option Op),
    slotExists t p = true →
    writeAt (writeAt t p x) (p ++ q) v = writeAt t p (writeAt x q v)
  | [], q, t, x, v, _ => by simp [writeAt]
  | _ :: _, _, none, _, _, h => by simp [slotExists] at h
  | f :: p, q, some o, x, v, h => by
    rw [writeAt, List.cons_append, writeAt, Op.field_setField_same, writeAt]
    rw [writeAt_append p q (o.field f) x v h]
    cases o; cases f <;> rfl

theorem above_refl : ∀ w : List Field, above w w = true
  | [] => rfl
  | f :: w => by simp [above, above_refl w]

theorem above_trans : ∀ (w r s : List Field), above w r = true → above r s = true →
    above w s = true
  | [], _, _, _, _ => rfl
  | _ :: _, [], _, h, _ => by simp [above] at h
  | _ :: _, _ :: _, [], _, h => by simp [above] at h
  | f :: w, g :: r, k :: s, h1, h2 => by
    simp only [above, Bool.and_eq_true, beq_iff_eq] at h1 h2 ⊢
    exact ⟨h1.1.trans h2.1, above_trans w r s h1.2 h2.2⟩

theorem above_append_left : ∀ (w q r : List Field), above (w ++ q) r = true →
    above w r = true
  | [], _, _, _ => rfl
  | _ :: _, _, [], h => by simp [above] at h
  | f :: w, q, g :: r, h => by
    simp only [List.cons_append, above, Bool.and_eq_true, beq_iff_eq] at h ⊢
    exact ⟨h.1, above_append_left w q r h.2⟩

theorem above_append_self : ∀ (w : List Field) (f : Field), above (w ++ [f]) w = false
  | [], _ => rfl
  | g :: w, f => by simp [above, above_append_self w f]

theorem nodeAt_writeAt : ∀ (w r : List Field) (t v : Option Op), above w r = false →
    nodeAt (writeAt t w v) r = nodeAt t r
  | [], _, _, _, h => by simp [above] at h
  | _ :: _, _, none, _, _ => rfl
  | f :: w, [], some o, v, _ => by
    simp [nodeAt, writeAt, opAt, Op.addr_setField, Op.d_setField]
  | f :: w, g :: r, some o, v, h => by
    by_cases hfg : g = f
    · subst hfg
      have h2 : above w r = false := by simpa [above] using h
      have ih := nodeAt_writeAt w r (o.field g) v h2
      simp only [nodeAt, writeAt, opAt, Op.field_setField_same] at ih ⊢
      exact ih
    · simp only [nodeAt, writeAt, opAt, Op.field_setField_other o f g _ hfg]

theorem slotExists_of_valid (t : Option Op) (s : Slot) (h : s.valid t = true) :
    slotExists t s.fields = true := by
  cases s with
  | ops => simp [Slot.fields, slotExists]
  | member p a f =>
    simp only [Slot.valid] at h
    simp only [Slot.fields]
    have hex : ∃ o, opAt t p = some o := by
      cases ho : opAt t p with
      | none => simp [ho] at h
      | some o => exact ⟨o, rfl⟩
    obtain ⟨o, ho⟩ := hex
    clear h
    induction p generalizing t with
    | nil =>
      simp only [opAt] at ho
      subst ho
      simp [slotExists]
    | cons g p ih =>
      cases t with
      | none => simp [opAt] at ho
      | some o2 =>
        simp only [opAt] at ho
        simp only [List.cons_append, slotExists]
        exact ih (o2.field g) ho

theorem CodeBlob.run_append : ∀ (xs ys : List BuildCall) (c : CodeBlob),
    c.run (xs ++ ys) = (c.run xs).bind (fun c1 => c1.run ys)
  | [], _, _ => rfl
  | x :: xs, ys, c => by
    simp only [List.cons_append, CodeBlob.run]
    cases c.call x with
    | none => rfl
    | some c1 => exact CodeBlob.run_append xs ys c1

theorem Slot.store_of_valid (t : Option Op) (s : Slot) (v : Option Op)
    (h : s.valid t = true) : s.store t v = some (writeAt t s.fields v) := by
  simp [Slot.store, h]

theorem Slot.valid_member_of_opAt (t : Option Op) (p : List Field) (a : Nat) (f : Field)
    (o : Op) (h : opAt t p = some o) (ha : o.addr = a) :
    (Slot.member p a f).valid t = true := by
  simp [Slot.valid, h, ha]

/-- A run of `emplace_back` calls from a live cursor is defined, keeps the
cursor live and the stack as it is, and turns the pointer under the cursor into
the chain of the emplaced ops, the new cursor being the `next` of its last op. -/
theorem CodeBlob.run_emplace_backs : ∀ (items : List (Nat × OpData)) (c : CodeBlob),
    c.cur_ops.valid c.ops = true →
    ∃ c1, c.run (items.map (fun p => BuildCall.emplace_back p.1 p.2)) = some c1 ∧
      c1.cur_ops.valid c1.ops = true ∧ c1.cur_ops_stack = c.cur_ops_stack ∧
      ∀ v, writeAt c1.ops c1.cur_ops.fields v =
        writeAt c.ops c.cur_ops.fields (chainThen items v)
  | [], c, h => ⟨c, rfl, h, rfl, fun _ => rfl⟩
  | (a, x) :: rest, c, h => by
    have hex := slotExists_of_valid c.ops c.cur_ops h
    have hstep : c.emplace_back a x = some
        { c with ops := writeAt c.ops c.cur_ops.fields (some (Op.fresh a x)),
                 cur_ops := Slot.member c.cur_ops.fields a Field.next } := by
      simp [CodeBlob.emplace_back, Slot.store_of_valid c.ops c.cur_ops _ h]
    have hv : (Slot.member c.cur_ops.fields a Field.next).valid
        (writeAt c.ops c.cur_ops.fields (some (Op.fresh a x))) = true :=
      Slot.valid_member_of_opAt _ _ a Field.next (Op.fresh a x)
        (opAt_writeAt_same _ _ _ hex) rfl
    obtain ⟨c1, hrun, hv1, hst, hw⟩ := CodeBlob.run_emplace_backs rest
      { c with ops := writeAt c.ops c.cur_ops.fields (some (Op.fresh a x)),
               cur_ops := Slot.member c.cur_ops.fields a Field.next } hv
    refine ⟨c1, ?_, hv1, hst, ?_⟩
    · simp only [List.map_cons, CodeBlob.run, CodeBlob.call, hstep]
      exact hrun
    · intro v
      rw [hw v]
      show writeAt (writeAt c.ops c.cur_ops.fields (some (Op.fresh a x)))
        (c.cur_ops.fields ++ [Field.next]) (chainThen rest v) = _
      rw [writeAt_append _ _ _ _ _ hex]
      rfl

theorem chainThen_fresh : ∀ (items : List (Nat × OpData)) (a : Nat) (x : OpData),
    chainThen items (some (Op.fresh a x)) = chainOf (items ++ [(a, x)])
  | [], _, _ => rfl
  | (a1, x1) :: rest, a, x => by
    show some (Op.mk a1 x1 (chainThen rest (some (Op.fresh a x))) none none) =
      some (Op.mk a1 x1 (chainOf (rest ++ [(a, x)])) none none)
    rw [chainThen_fresh rest a x]

theorem Op.toList_ne_nil : ∀ o : Op, o.toList ≠ []
  | Op.mk _ _ (some _) _ _ => by simp [Op.toList]
  | Op.mk _ _ none _ _ => by simp [Op.toList]

/-- A chain that ends in the op `(a, x)`: its ops are the listed ones in order,
its `last()` is that final op, and every op before it has a successor. -/
theorem chainOf_snoc : ∀ (items : List (Nat × OpData)) (a : Nat) (x : OpData),
    ∃ blk, chainOf (items ++ [(a, x)]) = some blk ∧
      blk.toList.map (fun o => (o.addr, o.d)) = items ++ [(a, x)] ∧
      blk.last = Op.fresh a x ∧
      ∀ o ∈ blk.toList.dropLast, o.next.isSome = true
  | [], a, x => ⟨Op.fresh a x, rfl, rfl, rfl, by simp [Op.fresh, Op.toList]⟩
  | (a1, x1) :: rest, a, x => by
    obtain ⟨blk, h1, h2, h3, h4⟩ := chainOf_snoc rest a x
    refine ⟨Op.mk a1 x1 (some blk) none none, ?_, ?_, ?_, ?_⟩
    · show some (Op.mk a1 x1 (chainOf (rest ++ [(a, x)])) none none) = _
      rw [h1]
    · show (a1, x1) :: blk.toList.map (fun o => (o.addr, o.d)) = (a1, x1) :: (rest ++ [(a, x)])
      rw [h2]
    · show blk.last = _
      exact h3
    · intro o ho
      simp only [Op.toList] at ho
      rw [List.dropLast_cons_of_ne_nil (Op.toList_ne_nil blk)] at ho
      rcases List.mem_cons.1 ho with h | h
      · subst h; rfl
      · exact h4 o h

theorem Slot.valid_writeAt_fields (t : Option Op) (s : Slot) (v : Option Op)
    (h : s.valid t = true) : s.valid (writeAt t s.fields v) = true := by
  cases s with
  | ops => rfl
  | member p a f =>
    have hn := nodeAt_writeAt (p ++ [f]) p t v (above_append_self p f)
    simp only [Slot.valid] at h ⊢
    simp only [Slot.fields]
    simp only [nodeAt] at hn
    cases ho : opAt t p with
    | none => simp [ho] at h
    | some o =>
      rw [ho] at hn h
      cases ho2 : opAt (writeAt t (p ++ [f]) v) p with
      | none => simp [ho2] at hn
      | some o2 =>
        rw [ho2] at hn
        simp only [Option.map_some', Option.some.injEq, Prod.mk.injEq] at hn
        simpa [hn.1] using h

/-- C15: for every blob `c` and every live block pointer `b`, whatever `b`
owned before, the calls `push_set_cur(b)`, then `emplace_back` for each of the
`k ≥ 0` listed ops, then `close_pop_cur(loc)` are defined, restore the cursor
and the cursor stack, and leave `b` owning exactly the emplaced ops in call
order followed by one fresh `_Nop`: the ops of the list are the listed ones
and the `_Nop`, `last()` of the list is that `_Nop` and satisfies `is_empty()`,
and no earlier op of the list satisfies `is_empty()`. -/
theorem CodeBlob.block_nop_terminated (c : CodeBlob) (b : Slot)
    (items : List (Nat × OpData)) (a : Nat) (loc : SrcLocation)
    (hb : b.valid c.ops = true) :
    ∃ c1 blk, c.run (BuildCall.push_set_cur b ::
        (items.map (fun p => BuildCall.emplace_back p.1 p.2) ++
          [BuildCall.close_pop_cur a loc])) = some c1 ∧
      c1.cur_ops = c.cur_ops ∧ c1.cur_ops_stack = c.cur_ops_stack ∧
      b.load c1.ops = some (some blk) ∧
      blk.toList.map (fun o => (o.addr, o.d)) = items ++ [(a, OpData.mk2 loc OpKind._Nop)] ∧
      blk.last = Op.fresh a (OpData.mk2 loc OpKind._Nop) ∧
      blk.last.is_empty = true ∧
      ∀ o ∈ blk.toList.dropLast, o.is_empty = false := by
  obtain ⟨c2, hrun, hv2, hst2, hw⟩ := CodeBlob.run_emplace_backs items (c.push_set_cur b) hb
  obtain ⟨blk, hblk, hlist, hlast, hnext⟩ := chainOf_snoc items a (OpData.mk2 loc OpKind._Nop)
  have hex := slotExists_of_valid c.ops b hb
  have hops : writeAt c2.ops c2.cur_ops.fields
      (some (Op.fresh a (OpData.mk2 loc OpKind._Nop))) = writeAt c.ops b.fields (some blk) := by
    rw [hw, chainThen_fresh, hblk]
    rfl
  have hclose : c2.close_pop_cur a loc = some
      { c2 with ops := writeAt c.ops b.fields (some blk), cur_ops := c.cur_ops,
                cur_ops_stack := c.cur_ops_stack } := by
    have hst : c2.cur_ops_stack = c.cur_ops :: c.cur_ops_stack := hst2
    simp [CodeBlob.close_pop_cur, CodeBlob.close_blk, Slot.store_of_valid c2.ops c2.cur_ops _ hv2,
      CodeBlob.pop_cur, hst, hops]
  refine ⟨{ c2 with ops := writeAt c.ops b.fields (some blk), cur_ops := c.cur_ops,
                     cur_ops_stack := c.cur_ops_stack }, blk, ?_, rfl, rfl, ?_, hlist, hlast,
    ?_, ?_⟩
  · simp only [CodeBlob.run, CodeBlob.call]
    rw [CodeBlob.run_append, hrun]
    simp only [Option.bind, CodeBlob.run, CodeBlob.call, hclose]
  · simp only [Slot.load, Slot.valid_writeAt_fields c.ops b (some blk) hb, if_true,
      opAt_writeAt_same b.fields c.ops (some blk) hex]
  · rw [hlast]; rfl
  · intro o ho
    have h := hnext o ho
    cases hn : o.next with
    | none => simp [hn] at h
    | some n => simp [Op.is_empty, hn]

/-- C15 (witness): on the `_If` block of `CodeBlob.exampleIf`, which owned a
`_Return` op before: two ops are emplaced and the block is closed. -/
theorem CodeBlob.block_nop_terminated_witness :
    Slot.exampleBlock0.valid CodeBlob.exampleIf.ops = true ∧
    ∃ c1 blk, CodeBlob.exampleIf.run (BuildCall.push_set_cur Slot.exampleBlock0 ::
        ([(101, OpData.mk2 1 OpKind._Let), (102, OpData.mk2 2 OpKind._Call)].map
            (fun p => BuildCall.emplace_back p.1 p.2) ++
          [BuildCall.close_pop_cur 103 3])) = some c1 ∧
      c1.cur_ops = CodeBlob.exampleIf.cur_ops ∧
      c1.cur_ops_stack = CodeBlob.exampleIf.cur_ops_stack ∧
      Slot.exampleBlock0.load c1.ops = some (some blk) ∧
      blk.toList.map (fun o => (o.addr, o.d)) =
        [(101, OpData.mk2 1 OpKind._Let), (102, OpData.mk2 2 OpKind._Call)] ++
          [(103, OpData.mk2 3 OpKind._Nop)] ∧
      blk.last = Op.fresh 103 (OpData.mk2 3 OpKind._Nop) ∧
      blk.last.is_empty = true ∧
      ∀ o ∈ blk.toList.dropLast, o.is_empty = false :=
  ⟨rfl, CodeBlob.block_nop_terminated CodeBlob.exampleIf Slot.exampleBlock0
    [(101, OpData.mk2 1 OpKind._Let), (102, OpData.mk2 2 OpKind._Call)] 103 3 rfl⟩

theorem pushedSlots_append : ∀ (xs ys : List BuildCall),
    pushedSlots (xs ++ ys) = pushedSlots xs ++ pushedSlots ys
  | [], _ => rfl
  | BuildCall.emplace_back _ _ :: xs, ys => by
    show pushedSlots (xs ++ ys) = _
    exact pushedSlots_append xs ys
  | BuildCall.push_set_cur b :: xs, ys => by
    show b :: pushedSlots (xs ++ ys) = b :: (pushedSlots xs ++ pushedSlots ys)
    rw [pushedSlots_append xs ys]
  | BuildCall.close_pop_cur _ _ :: xs, ys => by
    show pushedSlots (xs ++ ys) = _
    exact pushedSlots_append xs ys
  | BuildCall.pop_cur :: xs, ys => by
    show pushedSlots (xs ++ ys) = _
    exact pushedSlots_append xs ys

theorem above_false_of_above (w r s : List Field) (hw : above w s = false)
    (hr : above r s = true) : above w r = false := by
  cases h : above w r with
  | false => rfl
  | true => rw [above_trans w r s h hr] at hw; exact absurd hw (by decide)

theorem CodeBlob.emplace_back_spec (c c1 : CodeBlob) (a : Nat) (x : OpData)
    (h : c.emplace_back a x = some c1) :
    c.cur_ops.valid c.ops = true ∧ c1.cur_ops_stack = c.cur_ops_stack ∧
      c1.cur_ops = Slot.member c.cur_ops.fields a Field.next ∧
      c1.ops = writeAt c.ops c.cur_ops.fields (some (Op.fresh a x)) := by
  unfold CodeBlob.emplace_back Slot.store at h
  by_cases hv : c.cur_ops.valid c.ops = true
  · simp only [hv, if_true, Option.some.injEq] at h
    subst h
    exact ⟨hv, rfl, rfl, rfl⟩
  · simp [hv] at h

theorem CodeBlob.pop_cur_spec (c c1 : CodeBlob) (h : c.pop_cur = some c1) :
    c.cur_ops_stack = c1.cur_ops :: c1.cur_ops_stack ∧ c1.ops = c.ops := by
  unfold CodeBlob.pop_cur at h
  cases hs : c.cur_ops_stack with
  | nil => simp [hs] at h
  | cons s rest =>
    simp only [hs, Option.some.injEq] at h
    subst h
    exact ⟨rfl, rfl⟩

theorem CodeBlob.close_pop_cur_spec (c c1 : CodeBlob) (a : Nat) (l : SrcLocation)
    (h : c.close_pop_cur a l = some c1) :
    c.cur_ops.valid c.ops = true ∧ c.cur_ops_stack = c1.cur_ops :: c1.cur_ops_stack ∧
      c1.ops = writeAt c.ops c.cur_ops.fields
        (some (Op.fresh a (OpData.mk2 l OpKind._Nop))) := by
  unfold CodeBlob.close_pop_cur CodeBlob.close_blk Slot.store at h
  by_cases hv : c.cur_ops.valid c.ops = true
  · simp only [hv, if_true] at h
    obtain ⟨h1, h2⟩ := CodeBlob.pop_cur_spec _ c1 h
    exact ⟨hv, h1, h2⟩
  · simp [hv] at h

theorem CodeBlob.run_cons (c c2 : CodeBlob) (x : BuildCall) (rest : List BuildCall)
    (h : c.run (x :: rest) = some c2) : ∃ c1, c.call x = some c1 ∧ c1.run rest = some c2 := by
  simp only [CodeBlob.run] at h
  cases hc : c.call x with
  | none => simp [hc] at h
  | some c1 => exact ⟨c1, rfl, by simpa [hc] using h⟩

theorem CodeBlob.run_append_some (c c2 : CodeBlob) (xs ys : List BuildCall)
    (h : c.run (xs ++ ys) = some c2) : ∃ c1, c.run xs = some c1 ∧ c1.run ys = some c2 := by
  rw [CodeBlob.run_append] at h
  cases hc : c.run xs with
  | none => simp [hc] at h
  | some c1 => exact ⟨c1, rfl, by simpa [hc] using h⟩

/-- A balanced sequence of calls leaves the cursor stack as it found it; and
when neither the cursor it starts from nor any pointer it pushes is the pointer
that owns the op at `pL` or an op above it, it leaves the cursor off that path
and every op on the path from `ops` down to `pL` at its address with its data. -/
theorem Balanced.run_frame {seq : List BuildCall} (hbal : Balanced seq) :
    ∀ c c1 : CodeBlob, c.run seq = some c1 →
      c1.cur_ops_stack = c.cur_ops_stack ∧
      ∀ pL : List Field, above c.cur_ops.fields pL = false →
        (∀ s ∈ pushedSlots seq, above s.fields pL = false) →
        above c1.cur_ops.fields pL = false ∧
        ∀ r, above r pL = true → nodeAt c1.ops r = nodeAt c.ops r := by
  induction hbal with
  | nil =>
    intro c c1 h
    simp only [CodeBlob.run, Option.some.injEq] at h
    subst h
    exact ⟨rfl, fun pL hc _ => ⟨hc, fun _ _ => rfl⟩⟩
  | emplace a x rest _ ih =>
    intro c c2 h
    obtain ⟨c1, hcall, hrest⟩ := CodeBlob.run_cons c c2 _ _ h
    obtain ⟨_, hst, hcur, hops⟩ := CodeBlob.emplace_back_spec c c1 a x hcall
    obtain ⟨ih1, ih2⟩ := ih c1 c2 hrest
    refine ⟨ih1.trans hst, ?_⟩
    intro pL hc hp
    have hc1 : above c1.cur_ops.fields pL = false := by
      rw [hcur]
      cases h1 : above (Slot.member c.cur_ops.fields a Field.next).fields pL with
      | false => rfl
      | true =>
        have := above_append_left c.cur_ops.fields [Field.next] pL h1
        rw [this] at hc
        exact absurd hc (by decide)
    obtain ⟨h3, h4⟩ := ih2 pL hc1 (fun s hs => hp s (by simpa [pushedSlots] using hs))
    refine ⟨h3, fun r hr => ?_⟩
    rw [h4 r hr, hops]
    exact nodeAt_writeAt _ _ _ _ (above_false_of_above _ _ _ hc hr)
  | closed b inner a l rest _ _ ihin ihrest =>
    intro c c4 h
    obtain ⟨c1, hcall, h1⟩ := CodeBlob.run_cons c c4 _ _ h
    simp only [CodeBlob.call, Option.some.injEq] at hcall
    subst hcall
    obtain ⟨c2, hin, h2⟩ := CodeBlob.run_append_some _ c4 _ _ h1
    obtain ⟨c3, hcl, hrest⟩ := CodeBlob.run_cons c2 c4 _ _ h2
    obtain ⟨_, hpop, hops⟩ := CodeBlob.close_pop_cur_spec c2 c3 a l hcl
    obtain ⟨i1, i2⟩ := ihin _ c2 hin
    obtain ⟨r1, r2⟩ := ihrest c3 c4 hrest
    have hstack : c3.cur_ops :: c3.cur_ops_stack = c.cur_ops :: c.cur_ops_stack := by
      rw [← hpop, i1]; rfl
    simp only [List.cons.injEq] at hstack
    refine ⟨r1.trans hstack.2, ?_⟩
    intro pL hc hp
    have hp1 : ∀ s, s ∈ b :: (pushedSlots inner ++ pushedSlots rest) →
        above s.fields pL = false := by
      intro s hs
      apply hp s
      simpa [pushedSlots, pushedSlots_append] using hs
    obtain ⟨i3, i4⟩ := i2 pL (hp1 b (List.mem_cons_self _ _))
      (fun s hs => hp1 s (List.mem_cons_of_mem _ (List.mem_append_left _ hs)))
    obtain ⟨r3, r4⟩ := r2 pL (by rw [hstack.1]; exact hc)
      (fun s hs => hp1 s (List.mem_cons_of_mem _ (List.mem_append_right _ hs)))
    refine ⟨r3, fun r hr => ?_⟩
    rw [r4 r hr, hops, nodeAt_writeAt _ _ _ _ (above_false_of_above _ _ _ i3 hr), i4 r hr]
    rfl
  | popped b inner rest _ _ ihin ihrest =>
    intro c c4 h
    obtain ⟨c1, hcall, h1⟩ := CodeBlob.run_cons c c4 _ _ h
    simp only [CodeBlob.call, Option.some.injEq] at hcall
    subst hcall
    obtain ⟨c2, hin, h2⟩ := CodeBlob.run_append_some _ c4 _ _ h1
    obtain ⟨c3, hcl, hrest⟩ := CodeBlob.run_cons c2 c4 _ _ h2
    obtain ⟨hpop, hops⟩ := CodeBlob.pop_cur_spec c2 c3 hcl
    obtain ⟨i1, i2⟩ := ihin _ c2 hin
    obtain ⟨r1, r2⟩ := ihrest c3 c4 hrest
    have hstack : c3.cur_ops :: c3.cur_ops_stack = c.cur_ops :: c.cur_ops_stack := by
      rw [← hpop, i1]; rfl
    simp only [List.cons.injEq] at hstack
    refine ⟨r1.trans hstack.2, ?_⟩
    intro pL hc hp
    have hp1 : ∀ s, s ∈ b :: (pushedSlots inner ++ pushedSlots rest) →
        above s.fields pL = false := by
      intro s hs
      apply hp s
      simpa [pushedSlots, pushedSlots_append] using hs
    obtain ⟨i3, i4⟩ := i2 pL (hp1 b (List.mem_cons_self _ _))
      (fun s hs => hp1 s (List.mem_cons_of_mem _ (List.mem_append_left _ hs)))
    obtain ⟨r3, r4⟩ := r2 pL (by rw [hstack.1]; exact hc)
      (fun s hs => hp1 s (List.mem_cons_of_mem _ (List.mem_append_right _ hs)))
    refine ⟨r3, fun r hr => ?_⟩
    rw [r4 r hr, hops, i4 r hr]
    rfl

theorem opAt_writeAt_snoc : ∀ (p : List Field) (f : Field) (t v : Option Op) (o : Op),
    opAt t p = some o → opAt (writeAt t (p ++ [f]) v) p = some (o.setField f v)
  | [], f, t, v, o, h => by
    simp only [opAt] at h
    subst h
    simp [writeAt, opAt]
  | _ :: _, _, none, _, _, h => by simp [opAt] at h
  | g :: p, f, some o2, v, o, h => by
    simp only [opAt] at h
    simp only [List.cons_append, writeAt, opAt, Op.field_setField_same]
    exact opAt_writeAt_snoc p f (o2.field g) v o h

theorem Slot.valid_of_nodeAt_eq (t t1 : Option Op) (p : List Field) (a : Nat) (f : Field)
    (hn : nodeAt t1 p = nodeAt t p) (h : (Slot.member p a f).valid t = true) :
    ∃ o, opAt t1 p = some o ∧ o.addr = a := by
  simp only [Slot.valid] at h
  simp only [nodeAt] at hn
  cases ho : opAt t p with
  | none => simp [ho] at h
  | some o =>
    rw [ho] at hn h
    cases ho1 : opAt t1 p with
    | none => simp [ho1] at hn
    | some o1 =>
      rw [ho1] at hn
      simp only [Option.map_some', Option.some.injEq, Prod.mk.injEq] at hn
      exact ⟨o1, rfl, by rw [hn.1]; simpa using h⟩

/-- C16 (amended): after `push_set_cur(b)`, a balanced sequence of
calls and a final `close_pop_cur` or `pop_cur`, all defined, `cur_ops` and
`cur_ops_stack` are what they were before the `push_set_cur`.  When moreover the
cursor was the live `next` of the op `L` and neither `b` nor a pointer pushed in
between is the pointer that owns `L` or an op above `L`, every op on the path
from `ops` down to `L` keeps its address and data, and the next `emplace_back`
is defined, makes its op the `next` of `L`, and again leaves that path as it
was. -/
theorem CodeBlob.cursor_restored_lifo (c c1 : CodeBlob) (b : Slot) (inner : List BuildCall)
    (fin : BuildCall) (hbal : Balanced inner)
    (hfin : fin = BuildCall.pop_cur ∨ ∃ a l, fin = BuildCall.close_pop_cur a l)
    (hrun : c.run (BuildCall.push_set_cur b :: (inner ++ [fin])) = some c1) :
    (c1.cur_ops = c.cur_ops ∧ c1.cur_ops_stack = c.cur_ops_stack) ∧
    ∀ (pL : List Field) (L : Nat), c.cur_ops = Slot.member pL L Field.next →
      c.cur_ops.valid c.ops = true →
      (∀ s ∈ b :: pushedSlots inner, above s.fields pL = false) →
      (∀ r, above r pL = true → nodeAt c1.ops r = nodeAt c.ops r) ∧
      ∀ (a : Nat) (x : OpData), ∃ c2 o, c1.emplace_back a x = some c2 ∧
        opAt c2.ops pL = some o ∧ o.addr = L ∧ o.next = some (Op.fresh a x) ∧
        ∀ r, above r pL = true → nodeAt c2.ops r = nodeAt c.ops r := by
  have hB : Balanced (BuildCall.push_set_cur b :: (inner ++ [fin])) := by
    rcases hfin with h | ⟨a, l, h⟩
    · subst h; exact Balanced.popped b inner [] hbal Balanced.nil
    · subst h; exact Balanced.closed b inner a l [] hbal Balanced.nil
  obtain ⟨hstack, hframe⟩ := Balanced.run_frame hB c c1 hrun
  have hcur : c1.cur_ops = c.cur_ops := by
    obtain ⟨c0, hcall, h1⟩ := CodeBlob.run_cons c c1 _ _ hrun
    simp only [CodeBlob.call, Option.some.injEq] at hcall
    subst hcall
    obtain ⟨c2, hin, h2⟩ := CodeBlob.run_append_some _ c1 _ _ h1
    obtain ⟨c3, hcl, h3⟩ := CodeBlob.run_cons c2 c1 _ _ h2
    simp only [CodeBlob.run, Option.some.injEq] at h3
    subst h3
    have hs2 : c2.cur_ops_stack = c.cur_ops :: c.cur_ops_stack :=
      (Balanced.run_frame hbal _ c2 hin).1
    have hpop : c2.cur_ops_stack = c3.cur_ops :: c3.cur_ops_stack := by
      rcases hfin with h | ⟨a, l, h⟩
      · subst h; exact (CodeBlob.pop_cur_spec c2 c3 hcl).1
      · subst h; exact (CodeBlob.close_pop_cur_spec c2 c3 a l hcl).2.1
    rw [hs2] at hpop
    simp only [List.cons.injEq] at hpop
    exact hpop.1.symm
  refine ⟨⟨hcur, hstack⟩, ?_⟩
  intro pL L hL hvalid hp
  have hc : above c.cur_ops.fields pL = false := by
    rw [hL]; exact above_append_self pL Field.next
  have hps : ∀ s ∈ pushedSlots (BuildCall.push_set_cur b :: (inner ++ [fin])),
      above s.fields pL = false := by
    intro s hs
    apply hp s
    have hfin0 : pushedSlots [fin] = [] := by
      rcases hfin with h | ⟨a, l, h⟩ <;> subst h <;> rfl
    simpa [pushedSlots, pushedSlots_append, hfin0] using hs
  obtain ⟨_, hnodes⟩ := hframe pL hc hps
  refine ⟨hnodes, ?_⟩
  intro a x
  rw [hL] at hvalid
  obtain ⟨o1, ho1, ha1⟩ := Slot.valid_of_nodeAt_eq c.ops c1.ops pL L Field.next
    (hnodes pL (above_refl pL)) hvalid
  have hv1 : c1.cur_ops.valid c1.ops = true := by
    rw [hcur, hL]; exact Slot.valid_member_of_opAt _ _ _ _ o1 ho1 ha1
  have hf1 : c1.cur_ops.fields = pL ++ [Field.next] := by rw [hcur, hL]; rfl
  refine ⟨{ c1 with ops := writeAt c1.ops (pL ++ [Field.next]) (some (Op.fresh a x)),
                     cur_ops := Slot.member (pL ++ [Field.next]) a Field.next },
    o1.setField Field.next (some (Op.fresh a x)), ?_, ?_, ?_, ?_, ?_⟩
  · simp [CodeBlob.emplace_back, Slot.store_of_valid c1.ops c1.cur_ops _ hv1, hf1]
  · exact opAt_writeAt_snoc pL Field.next c1.ops _ o1 ho1
  · rw [Op.addr_setField]; exact ha1
  · exact Op.field_setField_same o1 Field.next _
  · intro r hr
    show nodeAt (writeAt c1.ops (pL ++ [Field.next]) (some (Op.fresh a x))) r = _
    rw [nodeAt_writeAt _ _ _ _ (above_false_of_above _ _ _ (above_append_self pL Field.next) hr)]
    exact hnodes r hr

/-- C16 (witness): in `CodeBlob.exampleIf` the `block0` of the `_If` op is
built with a nested `_While` body and closed; the cursor is again the `next` of
the `_If` op, which is still at the head of `ops`, and the next `emplace_back`
makes its op the `next` of the `_If` op. -/
theorem CodeBlob.cursor_restored_lifo_witness :
    Balanced BuildCall.exampleInner ∧
    CodeBlob.exampleIf.run (BuildCall.push_set_cur Slot.exampleBlock0 ::
      (BuildCall.exampleInner ++ [BuildCall.close_pop_cur 105 4])) =
        some CodeBlob.exampleIfBuilt ∧
    (CodeBlob.exampleIfBuilt.cur_ops = CodeBlob.exampleIf.cur_ops ∧
      CodeBlob.exampleIfBuilt.cur_ops_stack = CodeBlob.exampleIf.cur_ops_stack) ∧
    nodeAt CodeBlob.exampleIfBuilt.ops [] = nodeAt CodeBlob.exampleIf.ops [] ∧
    ∃ c2 o, CodeBlob.exampleIfBuilt.emplace_back 106 (OpData.mk2 5 OpKind._Return) = some c2 ∧
      opAt c2.ops [] = some o ∧ o.addr = 100 ∧
      o.next = some (Op.fresh 106 (OpData.mk2 5 OpKind._Return)) ∧
      ∀ r, above r [] = true → nodeAt c2.ops r = nodeAt CodeBlob.exampleIf.ops r :=
  have hbal : Balanced BuildCall.exampleInner :=
    Balanced.emplace _ _ _ (Balanced.closed _ [BuildCall.emplace_back 102 _] 103 2 _
      (Balanced.emplace _ _ _ Balanced.nil) (Balanced.emplace _ _ _ Balanced.nil))
  have h := CodeBlob.cursor_restored_lifo CodeBlob.exampleIf CodeBlob.exampleIfBuilt
    Slot.exampleBlock0 BuildCall.exampleInner (BuildCall.close_pop_cur 105 4) hbal
    (Or.inr ⟨105, 4, rfl⟩) rfl
  have h2 := h.2 [] 100 rfl rfl (by decide)
  ⟨hbal, rfl, h.1, h2.1 [] rfl, h2.2 106 (OpData.mk2 5 OpKind._Return)⟩

/-- C16 (counterexample): from the one-op blob
`CodeBlob.exampleOne` (which is `CodeBlob.init` after one `emplace_back`),
`push_set_cur(ops)`, one `emplace_back` and `close_pop_cur` are defined and
restore `cur_ops` and `cur_ops_stack`, but the op at address 1 that was emitted
before the push is no longer in the list (the head of `ops` is now the op at
address 2), and the next `emplace_back` stores through a pointer into the
destroyed op, so it is undefined. -/
theorem CodeBlob.cursor_restored_dangling :
    CodeBlob.init.emplace_back 1 (OpData.mk2 0 OpKind._Let) = some CodeBlob.exampleOne ∧
    Balanced [BuildCall.emplace_back 2 (OpData.mk2 1 OpKind._Call)] ∧
    ∃ c1, CodeBlob.exampleOne.run [BuildCall.push_set_cur Slot.ops,
        BuildCall.emplace_back 2 (OpData.mk2 1 OpKind._Call),
        BuildCall.close_pop_cur 3 1] = some c1 ∧
      c1.cur_ops = CodeBlob.exampleOne.cur_ops ∧
      c1.cur_ops_stack = CodeBlob.exampleOne.cur_ops_stack ∧
      nodeAt CodeBlob.exampleOne.ops [] = some (1, OpData.mk2 0 OpKind._Let) ∧
      nodeAt c1.ops [] = some (2, OpData.mk2 1 OpKind._Call) ∧
      c1.emplace_back 4 (OpData.mk2 2 OpKind._Return) = none :=
  ⟨rfl, Balanced.emplace _ _ _ Balanced.nil, _, rfl, rfl, rfl, rfl, rfl, rfl⟩

/-! ## `AsmOpList::append` and `AsmOpList::add` -/

theorem AsmOp.withIndent_is_nop (x : AsmOp) (i : Int) :
    (x.withIndent i).is_nop = x.is_nop := rfl

theorem AsmOp.withIndent_is_comment (x : AsmOp) (i : Int) :
    (x.withIndent i).is_comment = x.is_comment := rfl

theorem AsmOpList.append_eq (L : AsmOpList) (op : AsmOp) :
    L.append op =
      if op.is_nop then L else { L with list_ := L.list_ ++ [op.withIndent L.indent_] } := by
  cases h : op.is_nop
  · rw [if_neg (by simp)]
    exact AsmOpList.adjust_last_snoc L L.list_ op h
  · rw [if_pos rfl]
    cases L with
    | mk l i c r => simp [AsmOpList.append, AsmOpList.adjust_last, h]

theorem AsmOpList.append_all_eq (ops : List AsmOp) (L : AsmOpList) :
    L.append_all ops =
      { L with list_ := L.list_ ++
          (ops.filter (fun x => !x.is_nop)).map (fun x => x.withIndent L.indent_) } := by
  induction ops generalizing L with
  | nil =>
    cases L with
    | mk l i c r => simp [AsmOpList.append_all]
  | cons op rest ih =>
    show (L.append op).append_all rest = _
    rw [ih, AsmOpList.append_eq]
    cases h : op.is_nop
    · simp [h]
    · simp [h]

theorem AsmOp.Comment_is_comment (comment : String) (g : Int × Int) :
    (AsmOp.Comment comment g).is_comment = true ∧ (AsmOp.Comment comment g).is_nop = false := by
  have h : ("// " ++ comment).isEmpty = false := by
    cases hh : ("// " ++ comment).isEmpty
    · rfl
    · rw [String.isEmpty_iff] at hh
      have h2 := congrArg String.data hh
      rw [String.data_append] at h2
      exact absurd h2 (by simp)
  constructor
  · show (AsmOpType.a_none == AsmOpType.a_none && !("// " ++ comment).isEmpty) = true
    rw [h]
    rfl
  · show (AsmOpType.a_none == AsmOpType.a_none && ("// " ++ comment).isEmpty) = false
    rw [h]
    rfl

/-- C33: `L.append(op)` returns true; if `op.is_nop()` the list is unchanged,
otherwise the op vector grows by exactly one element at the end, equal to `op`
except that its indent is the list's `indent_`, the earlier elements and the
other members being unchanged.  So `append` never introduces a nop, a list
built from the empty one by `append` alone holds exactly the non-nop ops, in
order, and no nop; and comment ops such as `AsmOp::Comment` are not nops and
are kept. -/
theorem AsmOpList.append_spec (L : AsmOpList) (op : AsmOp) (indent : Int) (ops : List AsmOp)
    (comment : String) (g : Int × Int) :
    ((L.append_ret op).2 = true ∧ (L.append_ret op).1 = L.append op) ∧
    L.append op =
      (if op.is_nop then L else { L with list_ := L.list_ ++ [op.withIndent L.indent_] }) ∧
    (L.append op).list_.any AsmOp.is_nop = L.list_.any AsmOp.is_nop ∧
    (((AsmOpList.mk1 indent).append_all ops).list_ =
        (ops.filter (fun x => !x.is_nop)).map (fun x => x.withIndent indent) ∧
      ((AsmOpList.mk1 indent).append_all ops).list_.any AsmOp.is_nop = false) ∧
    ((AsmOp.Comment comment g).is_comment = true ∧ (AsmOp.Comment comment g).is_nop = false ∧
      L.append (AsmOp.Comment comment g) =
        { L with list_ := L.list_ ++ [(AsmOp.Comment comment g).withIndent L.indent_] }) ∧
    (op.is_comment = true →
      L.append op = { L with list_ := L.list_ ++ [op.withIndent L.indent_] } ∧
        (op.withIndent L.indent_).is_comment = true) := by
  have hc := AsmOp.Comment_is_comment comment g
  have ha : ((AsmOpList.mk1 indent).append_all ops).list_ =
      (ops.filter (fun x => !x.is_nop)).map (fun x => x.withIndent indent) := by
    rw [AsmOpList.append_all_eq]
    simp [AsmOpList.mk1]
  refine ⟨⟨rfl, rfl⟩, AsmOpList.append_eq L op, ?_, ⟨ha, ?_⟩, ⟨hc.1, hc.2, ?_⟩, ?_⟩
  · rw [AsmOpList.append_eq]
    cases h : op.is_nop
    · simp [h, AsmOp.withIndent_is_nop]
    · simp
  · rw [ha]
    simp [AsmOp.withIndent_is_nop]
  · rw [AsmOpList.append_eq, hc.2]
    simp
  · intro hk
    have hn : op.is_nop = false := by
      simp only [AsmOp.is_comment, Bool.and_eq_true, Bool.not_eq_true'] at hk
      simp [AsmOp.is_nop, hk.2]
    rw [AsmOpList.append_eq, hn]
    exact ⟨by simp, hk⟩

theorem AsmOpList.add_nop (L : AsmOpList) (l op : AsmOp)
    (hl : L.list_.getLast? = some l) (hn : l.is_nop = false) (ho : op.is_nop = true) :
    L.add op = { L with list_ := L.list_.dropLast ++ [l.withIndent L.indent_] } := by
  unfold AsmOpList.add
  rw [AsmOpList.append_eq, ho, if_pos rfl]
  simp [AsmOpList.adjust_last, hl, hn]

theorem AsmOpList.add_not_nop (M : AsmOpList) (x : AsmOp) (hx : x.is_nop = false) :
    M.add x = M.append x := by
  unfold AsmOpList.add
  rw [AsmOpList.append_eq, hx]
  simp only [Bool.false_eq_true, if_false]
  have h := AsmOpList.adjust_last_snoc M M.list_ (x.withIndent M.indent_) hx
  rw [h]
  rfl

/-- C34: `add` (and `operator<<`) runs `adjust_last` twice.  On a non-empty
list whose last op `l` is not a nop, adding a nop leaves the number of ops and
every op's type, operands, text, `gconst` and origin unchanged and only
overwrites the indent of the last op with the list's `indent_` (so the list
is left as it was exactly when that op already had this indent); and adding
a non-nop op to any list has the same result as `append`. -/
theorem AsmOpList.add_spec (L : AsmOpList) (l op : AsmOp)
    (hl : L.list_.getLast? = some l) (hn : l.is_nop = false) (ho : op.is_nop = true) :
    L.add op = { L with list_ := L.list_.dropLast ++ [l.withIndent L.indent_] } ∧
    (L.add op).list_.length = L.list_.length ∧
    (L.add op).list_.map (fun x => x.withIndent 0) = L.list_.map (fun x => x.withIndent 0) ∧
    (L.add op = L ↔ l.indent = L.indent_) ∧
    (∀ (M : AsmOpList) (x : AsmOp), x.is_nop = false → M.add x = M.append x) := by
  have h := AsmOpList.add_nop L l op hl hn ho
  have hd : L.list_ = L.list_.dropLast ++ [l] := by
    have := List.dropLast_append_getLast? l hl
    exact this.symm
  refine ⟨h, ?_, ?_, ?_, AsmOpList.add_not_nop⟩
  · rw [h]
    conv_rhs => rw [hd]
    simp
  · rw [h]
    conv_rhs => rw [hd]
    simp [AsmOp.withIndent]
  · rw [h]
    constructor
    · intro e
      have e1 : L.list_.dropLast ++ [l.withIndent L.indent_] = L.list_ :=
        congrArg AsmOpList.list_ e
      have e2 : L.list_.dropLast ++ [l.withIndent L.indent_] = L.list_.dropLast ++ [l] :=
        e1.trans hd
      have e3 : [l.withIndent L.indent_] = [l] := List.append_cancel_left e2
      have e4 : l.withIndent L.indent_ = l := List.singleton_inj.1 e3
      have e5 := congrArg AsmOp.indent e4
      exact e5.symm
    · intro e
      have e4 : l.withIndent L.indent_ = l := by
        cases l with
        | mk t i a b gc o orig =>
          simp only [AsmOp.withIndent]
          simp at e
          rw [e]
      rw [e4, ← hd]

/-- C34 (witness): the list `[NOP]` at indent 2, whose op has indent 0, and a
nop: the op count stays 1 and the list is not left as it was. -/
theorem AsmOpList.add_spec_witness :
    AsmOpList.example4.list_.getLast? = some (AsmOp.Custom "NOP") ∧
    (AsmOp.Custom "NOP").is_nop = false ∧ AsmOp.example_nop.is_nop = true ∧
    (AsmOpList.example4.add AsmOp.example_nop).list_.length = AsmOpList.example4.list_.length ∧
    ¬ (AsmOpList.example4.add AsmOp.example_nop = AsmOpList.example4) :=
  have h := AsmOpList.add_spec AsmOpList.example4 (AsmOp.Custom "NOP") AsmOp.example_nop
    rfl (by decide) (by decide)
  ⟨rfl, by decide, by decide, h.2.1, fun e => absurd (h.2.2.2.1.1 e) (by decide)⟩

/-! ## `TypeExpr`: tensors, tuples and fresh ids -/

theorem TypeExpr.compute_width_frame (t : TypeExpr) :
    t.compute_width.constr = t.constr ∧ t.compute_width.value = t.value ∧
      t.compute_width.args = t.args := by
  cases t with
  | mk c v a b as f => cases c <;> exact ⟨rfl, rfl, rfl⟩

theorem TypeExpr.mkList_frame (c : te_type) (list : List TypeExpr) :
    (TypeExpr.mkList c list).constr = c ∧
      (TypeExpr.mkList c list).value = int_of_size list.length ∧
      (TypeExpr.mkList c list).args = list := by
  have h := TypeExpr.compute_width_frame (TypeExpr.mk c (int_of_size list.length) 0 0 list false)
  exact ⟨h.1, h.2.1, h.2.2⟩

theorem TypeExpr.mkElem_frame (c : te_type) (elem0 : TypeExpr) :
    (TypeExpr.mkElem c elem0).constr = c ∧ (TypeExpr.mkElem c elem0).value = 1 ∧
      (TypeExpr.mkElem c elem0).args = [elem0] := by
  have h := TypeExpr.compute_width_frame (TypeExpr.mk c 1 0 0 [elem0] false)
  exact ⟨h.1, h.2.1, h.2.2⟩

theorem TypeExpr.new_tensor_not_reduced (list : List TypeExpr) (red : Bool)
    (h : red = false ∨ list.length ≠ 1) :
    TypeExpr.new_tensor list red = TypeExpr.mkList te_type.te_Tensor list := by
  unfold TypeExpr.new_tensor
  rw [dif_neg]
  rintro ⟨h1, h2⟩
  rcases h with h | h
  · rw [h] at h1
    exact absurd h1 (by decide)
  · exact h h2

theorem TypeExpr.new_tensor_value_two_pow_31 (list : List TypeExpr) (red : Bool)
    (h : list.length = 2 ^ 31) :
    (TypeExpr.new_tensor list red).constr = te_type.te_Tensor ∧
      (TypeExpr.new_tensor list red).args = list ∧
      (TypeExpr.new_tensor list red).value = -2 ^ 31 := by
  have hne : list.length ≠ 1 := by
    rw [h]
    decide
  rw [TypeExpr.new_tensor_not_reduced list red (Or.inr hne)]
  have f := TypeExpr.mkList_frame te_type.te_Tensor list
  exact ⟨f.1, f.2.2, f.2.1.trans (int_of_size_two_pow_31 _ h)⟩

theorem TypeExpr.example_long_length : TypeExpr.example_long.length = 2 ^ 31 := by
  unfold TypeExpr.example_long
  exact List.length_replicate _ _

/-- C35 (counterexample): for a vector of `2^31` elements `new_tensor` returns a
`te_Tensor` node whose `args` are the vector's elements, but whose `value`, the
size converted to `int`, is `-2^31` and not the vector's length. -/
theorem TypeExpr.new_tensor_counterexample :
    TypeExpr.example_long.length = 2 ^ 31 ∧
    (TypeExpr.new_tensor TypeExpr.example_long true).constr = te_type.te_Tensor ∧
    (TypeExpr.new_tensor TypeExpr.example_long true).args = TypeExpr.example_long ∧
    (TypeExpr.new_tensor TypeExpr.example_long true).value = -2 ^ 31 :=
  ⟨TypeExpr.example_long_length,
    TypeExpr.new_tensor_value_two_pow_31 TypeExpr.example_long true TypeExpr.example_long_length⟩

/-- C35 (amended): `new_tensor` of the one-element vector `[t]` with
`red = true` is `t` itself; for a vector whose length is not 1, or with
`red = false`, it is a `te_Tensor` node whose `args` are the elements in order
and whose `value` is the length converted to `int`, which is the vector's
length for fewer than `2^31` elements; and `new_tuple` of the vector `[t]`
(with its default `red = false`) is a `te_Tuple` whose single argument is a
`te_Tensor` with the single child `t`. -/
theorem TypeExpr.new_tensor_spec (t : TypeExpr) (list : List TypeExpr) (red : Bool)
    (h : red = false ∨ list.length ≠ 1) :
    TypeExpr.new_tensor [t] true = t ∧
    ((TypeExpr.new_tensor list red).constr = te_type.te_Tensor ∧
      (TypeExpr.new_tensor list red).args = list ∧
      (TypeExpr.new_tensor list red).value = int_of_size list.length ∧
      (list.length < 2 ^ 31 → (TypeExpr.new_tensor list red).value = (list.length : Int))) ∧
    ((TypeExpr.new_tuple [t] false).constr = te_type.te_Tuple ∧
      (TypeExpr.new_tuple [t] false).args = [TypeExpr.new_tensor [t] false] ∧
      (TypeExpr.new_tensor [t] false).constr = te_type.te_Tensor ∧
      (TypeExpr.new_tensor [t] false).args = [t] ∧
      (TypeExpr.new_tensor [t] false).value = 1) := by
  have h1 := TypeExpr.new_tensor_not_reduced list red h
  have h2 := TypeExpr.new_tensor_not_reduced [t] false (Or.inl rfl)
  have f1 := TypeExpr.mkList_frame te_type.te_Tensor list
  have f2 := TypeExpr.mkList_frame te_type.te_Tensor [t]
  have f3 := TypeExpr.mkElem_frame te_type.te_Tuple (TypeExpr.new_tensor [t] false)
  refine ⟨rfl, ?_, f3.1, f3.2.2, ?_, ?_, ?_⟩
  · rw [h1]
    exact ⟨f1.1, f1.2.2, f1.2.1, fun hlen => f1.2.1.trans (int_of_size_of_lt _ hlen)⟩
  · rw [h2]
    exact f2.1
  · rw [h2]
    exact f2.2.2
  · rw [h2]
    exact f2.2.1

/-- C35 (witness): the empty vector with `red = true`, and the atomic type 1. -/
theorem TypeExpr.new_tensor_spec_witness :
    ((true = false ∨ ([] : List TypeExpr).length ≠ 1)) ∧
    TypeExpr.new_tensor [TypeExpr.new_atomic 1] true = TypeExpr.new_atomic 1 ∧
    (TypeExpr.new_tensor [] true).constr = te_type.te_Tensor ∧
    (TypeExpr.new_tensor [] true).value = 0 ∧
    (TypeExpr.new_tuple [TypeExpr.new_atomic 1] false).args =
      [TypeExpr.new_tensor [TypeExpr.new_atomic 1] false] :=
  have h := TypeExpr.new_tensor_spec (TypeExpr.new_atomic 1) [] true (Or.inr (by decide))
  ⟨Or.inr (by decide), h.1, h.2.1.1, h.2.1.2.2.2 (by decide), h.2.2.2.1⟩

theorem TypeExpr.fresh_seq_counters (calls : List TypeExpr.Fresh) (c : TypeExpr.Counters) :
    c.holes ≤ (TypeExpr.fresh_seq c calls).2.holes ∧
      (TypeExpr.fresh_seq c calls).2.type_vars ≤ c.type_vars := by
  induction calls generalizing c with
  | nil => exact ⟨le_refl _, le_refl _⟩
  | cons f rest ih =>
    have h := ih (TypeExpr.fresh c f).2
    show (c.holes ≤ (TypeExpr.fresh_seq (TypeExpr.fresh c f).2 rest).2.holes ∧
      (TypeExpr.fresh_seq (TypeExpr.fresh c f).2 rest).2.type_vars ≤ c.type_vars)
    cases f with
    | hole =>
      have e1 : (TypeExpr.fresh c TypeExpr.Fresh.hole).2.holes = c.holes + 1 := rfl
      have e2 : (TypeExpr.fresh c TypeExpr.Fresh.hole).2.type_vars = c.type_vars := rfl
      omega
    | hole_width w =>
      have e1 : (TypeExpr.fresh c (TypeExpr.Fresh.hole_width w)).2.holes = c.holes + 1 := rfl
      have e2 : (TypeExpr.fresh c (TypeExpr.Fresh.hole_width w)).2.type_vars = c.type_vars := rfl
      omega
    | var =>
      have e1 : (TypeExpr.fresh c TypeExpr.Fresh.var).2.holes = c.holes := rfl
      have e2 : (TypeExpr.fresh c TypeExpr.Fresh.var).2.type_vars = c.type_vars - 1 := rfl
      omega

theorem TypeExpr.fresh_seq_ids (calls : List TypeExpr.Fresh) (c : TypeExpr.Counters) :
    (List.Pairwise (fun a b => a < b) (TypeExpr.hole_ids (TypeExpr.fresh_seq c calls).1) ∧
      ∀ i ∈ TypeExpr.hole_ids (TypeExpr.fresh_seq c calls).1,
        c.holes < i ∧ i ≤ (TypeExpr.fresh_seq c calls).2.holes) ∧
    (List.Pairwise (fun a b => b < a) (TypeExpr.var_ids (TypeExpr.fresh_seq c calls).1) ∧
      ∀ i ∈ TypeExpr.var_ids (TypeExpr.fresh_seq c calls).1,
        i < c.type_vars ∧ (TypeExpr.fresh_seq c calls).2.type_vars ≤ i) := by
  induction calls generalizing c with
  | nil =>
    refine ⟨⟨List.Pairwise.nil, ?_⟩, List.Pairwise.nil, ?_⟩ <;>
      · intro i hi
        simp [TypeExpr.fresh_seq, TypeExpr.hole_ids, TypeExpr.var_ids] at hi
  | cons f rest ih =>
    have h := ih (TypeExpr.fresh c f).2
    have hc := TypeExpr.fresh_seq_counters rest (TypeExpr.fresh c f).2
    have hs : TypeExpr.fresh_seq c (f :: rest) =
        ((TypeExpr.fresh c f).1 :: (TypeExpr.fresh_seq (TypeExpr.fresh c f).2 rest).1,
          (TypeExpr.fresh_seq (TypeExpr.fresh c f).2 rest).2) := rfl
    rw [hs]
    generalize TypeExpr.fresh_seq (TypeExpr.fresh c f).2 rest = r at h hc
    cases f with
    | hole =>
      have e1 : (TypeExpr.fresh c TypeExpr.Fresh.hole).2.holes = c.holes + 1 := rfl
      have e2 : (TypeExpr.fresh c TypeExpr.Fresh.hole).2.type_vars = c.type_vars := rfl
      have e3 : TypeExpr.hole_ids ((TypeExpr.fresh c TypeExpr.Fresh.hole).1 :: r.1) =
          (c.holes + 1) :: TypeExpr.hole_ids r.1 := rfl
      have e4 : TypeExpr.var_ids ((TypeExpr.fresh c TypeExpr.Fresh.hole).1 :: r.1) =
          TypeExpr.var_ids r.1 := rfl
      rw [e1, e2] at h hc
      rw [e3, e4]
      refine ⟨⟨List.Pairwise.cons (fun i hi => ?_) h.1.1, fun i hi => ?_⟩, h.2.1, h.2.2⟩
      · have := h.1.2 i hi
        omega
      · rcases List.mem_cons.1 hi with hi | hi
        · subst hi
          exact ⟨by omega, hc.1⟩
        · have := h.1.2 i hi
          exact ⟨by omega, this.2⟩
    | hole_width w =>
      have e1 : (TypeExpr.fresh c (TypeExpr.Fresh.hole_width w)).2.holes = c.holes + 1 := rfl
      have e2 : (TypeExpr.fresh c (TypeExpr.Fresh.hole_width w)).2.type_vars = c.type_vars := rfl
      have e3 : TypeExpr.hole_ids ((TypeExpr.fresh c (TypeExpr.Fresh.hole_width w)).1 :: r.1) =
          (c.holes + 1) :: TypeExpr.hole_ids r.1 := rfl
      have e4 : TypeExpr.var_ids ((TypeExpr.fresh c (TypeExpr.Fresh.hole_width w)).1 :: r.1) =
          TypeExpr.var_ids r.1 := rfl
      rw [e1, e2] at h hc
      rw [e3, e4]
      refine ⟨⟨List.Pairwise.cons (fun i hi => ?_) h.1.1, fun i hi => ?_⟩, h.2.1, h.2.2⟩
      · have := h.1.2 i hi
        omega
      · rcases List.mem_cons.1 hi with hi | hi
        · subst hi
          exact ⟨by omega, hc.1⟩
        · have := h.1.2 i hi
          exact ⟨by omega, this.2⟩
    | var =>
      have e1 : (TypeExpr.fresh c TypeExpr.Fresh.var).2.holes = c.holes := rfl
      have e2 : (TypeExpr.fresh c TypeExpr.Fresh.var).2.type_vars = c.type_vars - 1 := rfl
      have e3 : TypeExpr.hole_ids ((TypeExpr.fresh c TypeExpr.Fresh.var).1 :: r.1) =
          TypeExpr.hole_ids r.1 := rfl
      have e4 : TypeExpr.var_ids ((TypeExpr.fresh c TypeExpr.Fresh.var).1 :: r.1) =
          (c.type_vars - 1) :: TypeExpr.var_ids r.1 := rfl
      rw [e1, e2] at h hc
      rw [e3, e4]
      refine ⟨h.1, List.Pairwise.cons (fun i hi => ?_) h.2.1, fun i hi => ?_⟩
      · have := h.2.2 i hi
        omega
      · rcases List.mem_cons.1 hi with hi | hi
        · subst hi
          exact ⟨by omega, hc.2⟩
        · have := h.2.2 i hi
          exact ⟨by omega, this.2⟩

/-- C36: each call of `new_hole()` or `new_hole(width)` increments `holes` by
exactly 1 and returns a `te_Unknown` node whose `value` is the new counter, and
each `new_var()` decrements `type_vars` by exactly 1 and returns a `te_Var`
node whose `value` is the new counter; so in any sequence of such calls the
hole ids, in creation order, are strictly increasing (later hole, higher id;
no two equal) and the ids of the rigid variables are strictly decreasing. -/
theorem TypeExpr.fresh_ids (holes type_vars width : Int) (c : TypeExpr.Counters)
    (calls : List TypeExpr.Fresh) :
    ((TypeExpr.new_hole holes).2 = holes + 1 ∧
      (TypeExpr.new_hole holes).1.constr = te_type.te_Unknown ∧
      (TypeExpr.new_hole holes).1.value = holes + 1) ∧
    ((TypeExpr.new_hole_width holes width).2 = holes + 1 ∧
      (TypeExpr.new_hole_width holes width).1.constr = te_type.te_Unknown ∧
      (TypeExpr.new_hole_width holes width).1.value = holes + 1) ∧
    ((TypeExpr.new_var type_vars).2 = type_vars - 1 ∧
      (TypeExpr.new_var type_vars).1.constr = te_type.te_Var ∧
      (TypeExpr.new_var type_vars).1.value = type_vars - 1) ∧
    (List.Pairwise (fun a b => a < b) (TypeExpr.hole_ids (TypeExpr.fresh_seq c calls).1) ∧
      (TypeExpr.hole_ids (TypeExpr.fresh_seq c calls).1).Nodup ∧
      ∀ i ∈ TypeExpr.hole_ids (TypeExpr.fresh_seq c calls).1, c.holes < i) ∧
    (List.Pairwise (fun a b => b < a) (TypeExpr.var_ids (TypeExpr.fresh_seq c calls).1) ∧
      (TypeExpr.var_ids (TypeExpr.fresh_seq c calls).1).Nodup ∧
      ∀ i ∈ TypeExpr.var_ids (TypeExpr.fresh_seq c calls).1, i < c.type_vars) := by
  have h := TypeExpr.fresh_seq_ids calls c
  refine ⟨⟨rfl, rfl, rfl⟩, ⟨rfl, rfl, rfl⟩, ⟨rfl, rfl, rfl⟩,
    ⟨h.1.1, h.1.1.imp (fun hab => ne_of_lt hab), fun i hi => (h.1.2 i hi).1⟩,
    h.2.1, h.2.1.imp (fun hab => ne_of_gt hab), fun i hi => (h.2.2 i hi).1⟩

/-! ## `StackTransform::invalidate` -/

theorem StackTransform.call_invalid (rn : StackTransform → StackTransform × Bool)
    (t : StackTransform) (c : StackTransform.Call) (hc : c.shifts_up = false) :
    (StackTransform.call rn t c).invalid = t.invalid := by
  cases c with
  | touch i => rfl
  | shift offs =>
    have h : offs ≤ 0 := by
      simp [StackTransform.Call.shifts_up] at hc
      exact hc
    simp [StackTransform.call, StackTransform.shift, h]

theorem StackTransform.calls_invalid (rn : StackTransform → StackTransform × Bool)
    (cs : List StackTransform.Call) (t : StackTransform)
    (h : ∀ c ∈ cs, c.shifts_up = false) :
    (StackTransform.calls rn t cs).invalid = t.invalid := by
  induction cs generalizing t with
  | nil => rfl
  | cons c rest ih =>
    show (StackTransform.calls rn (StackTransform.call rn t c) rest).invalid = _
    rw [ih _ (fun x hx => h x (List.mem_cons_of_mem _ hx)),
      StackTransform.call_invalid rn t c (h c (List.mem_cons_self _ _))]

/-- C37: `t.invalidate()` returns false, sets the `invalid` flag and changes
none of `d`, `n`, `dp`, `c`, `A`; afterwards `is_valid()` and `is_id()` are
false, whatever `d` and `n` are, and they are still false after any sequence
of `touch(i)` and `shift(offs)` calls with `offs <= 0`; `set_id()` then
returns true and makes the transform valid (and the identity) again. -/
theorem StackTransform.invalidate_spec (rn : StackTransform → StackTransform × Bool)
    (t : StackTransform) (cs : List StackTransform.Call)
    (h : ∀ c ∈ cs, c.shifts_up = false) :
    (t.invalidate.2 = false ∧ t.invalidate.1.invalid = true ∧ t.invalidate.1.d = t.d ∧
      t.invalidate.1.n = t.n ∧ t.invalidate.1.dp = t.dp ∧ t.invalidate.1.c = t.c ∧
      t.invalidate.1.A = t.A) ∧
    (t.invalidate.1.is_valid = false ∧ t.invalidate.1.is_id = false) ∧
    ((StackTransform.calls rn t.invalidate.1 cs).is_valid = false ∧
      (StackTransform.calls rn t.invalidate.1 cs).is_id = false) ∧
    ((StackTransform.calls rn t.invalidate.1 cs).set_id.2 = true ∧
      (StackTransform.calls rn t.invalidate.1 cs).set_id.1.is_valid = true ∧
      (StackTransform.calls rn t.invalidate.1 cs).set_id.1.is_id = true) := by
  have hi := StackTransform.calls_invalid rn cs t.invalidate.1 h
  have hi2 : (StackTransform.calls rn t.invalidate.1 cs).invalid = true := hi
  refine ⟨⟨rfl, rfl, rfl, rfl, rfl, rfl, rfl⟩, ⟨rfl, rfl⟩, ⟨?_, ?_⟩, rfl, rfl, rfl⟩
  · simp [StackTransform.is_valid, hi2]
  · simp [StackTransform.is_id, StackTransform.is_valid, hi2]

/-- C37 (witness): an invalidated identity transform, then `touch(3)`,
`shift(-2)` and `shift(0)`. -/
theorem StackTransform.invalidate_spec_witness :
    (∀ c ∈ [StackTransform.Call.touch 3, StackTransform.Call.shift (-2),
        StackTransform.Call.shift 0], c.shifts_up = false) ∧
    (StackTransform.calls (fun t => (t, true)) StackTransform.id.invalidate.1
        [StackTransform.Call.touch 3, StackTransform.Call.shift (-2),
          StackTransform.Call.shift 0]).is_id = false :=
  ⟨by decide, (StackTransform.invalidate_spec (fun t => (t, true)) StackTransform.id
    [StackTransform.Call.touch 3, StackTransform.Call.shift (-2), StackTransform.Call.shift 0]
    (by decide)).2.2.1.2⟩

/-! ## `VarDescr`: the liveness flags -/

theorem int_eq_of_testBit_eq (a b : Int) (h : ∀ i, a.testBit i = b.testBit i) : a = b := by
  have hfalse : ∀ n m : Nat, n.testBit (n + m) = false ∧ m.testBit (n + m) = false := by
    intro n m
    constructor
    · exact Nat.testBit_lt_two_pow
        (lt_of_lt_of_le (Nat.lt_two_pow n) (Nat.pow_le_pow_right (by decide) (Nat.le_add_right n m)))
    · exact Nat.testBit_lt_two_pow
        (lt_of_lt_of_le (Nat.lt_two_pow m) (Nat.pow_le_pow_right (by decide) (Nat.le_add_left m n)))
  cases a with
  | ofNat n =>
    cases b with
    | ofNat m =>
      congr 1
      exact Nat.eq_of_testBit_eq (fun i => h i)
    | negSucc m =>
      have h1 := h (n + m)
      have h2 := hfalse n m
      simp only [Int.testBit] at h1
      rw [h2.1, h2.2] at h1
      exact absurd h1 (by decide)
  | negSucc n =>
    cases b with
    | ofNat m =>
      have h1 := h (n + m)
      have h2 := hfalse n m
      simp only [Int.testBit] at h1
      rw [h2.1, h2.2] at h1
      exact absurd h1 (by decide)
    | negSucc m =>
      congr 1
      apply Nat.eq_of_testBit_eq
      intro i
      have h1 := h i
      simp only [Int.testBit] at h1
      cases hn : n.testBit i <;> cases hm : m.testBit i <;> simp [hn, hm] at h1 ⊢

theorem VarDescr.is_unused_eq (v : VarDescr) : v.is_unused = v.flags.testBit 1 :=
  land_two_pow_ne_zero v.flags 1

theorem VarDescr.is_last_eq (v : VarDescr) : v.is_last = v.flags.testBit 0 :=
  land_two_pow_ne_zero v.flags 0

theorem VarDescr.testBit_Unused (i : Nat) :
    VarDescr._Unused.testBit i = decide (i = 1) := by
  show ((2 ^ 1 : Nat) : Int).testBit i = _
  show (2 ^ 1 : Nat).testBit i = _
  rw [Nat.testBit_two_pow]
  by_cases h : i = 1
  · simp [h]
  · simp [h, Ne.symm h]

theorem VarDescr.testBit_unused (v : VarDescr) (i : Nat) :
    v.unused.flags.testBit i = (v.flags.testBit i || decide (i = 1)) := by
  show (Int.lor v.flags VarDescr._Unused).testBit i = _
  rw [Int.testBit_lor, VarDescr.testBit_Unused]

theorem VarDescr.testBit_clear_unused (v : VarDescr) (i : Nat) :
    v.clear_unused.flags.testBit i = (v.flags.testBit i && !decide (i = 1)) := by
  show (Int.land v.flags (Int.lnot VarDescr._Unused)).testBit i = _
  rw [Int.testBit_land, Int.testBit_lnot, VarDescr.testBit_Unused]

theorem VarDescr.testBit_add_assign (x y : VarDescr) (i : Nat) :
    (x.add_assign y).flags.testBit i = (x.flags.testBit i && y.flags.testBit i) := by
  show (Int.land x.flags y.flags).testBit i = _
  rw [Int.testBit_land]

/-- C38: the two liveness masks and the fourteen value-fact masks of `VarDescr`
are sixteen pairwise distinct single bits (bits 0, 1 and 4 to 17); `unused()`
sets and `clear_unused()` clears bit 1 of `flags` and changes no other bit, so
`is_unused()` is true after the one and false after the other, `is_last()`,
`val`, `idx` and the constants are unchanged, and each is idempotent; and
`x += y` replaces `x.flags` by the bitwise AND with `y.flags`, so that
`is_last()` (resp. `is_unused()`) holds afterwards iff it held for both, with
`x.val` and `x.idx` unchanged. -/
theorem VarDescr.liveness_flags (x y : VarDescr) :
    (VarDescr.allMasks = VarDescr.allBits.map (fun k => ((2 ^ k : Nat) : Int)) ∧
      VarDescr.allMasks.length = 16 ∧ VarDescr.allBits.Nodup ∧ VarDescr.allMasks.Nodup) ∧
    ((∀ i, x.unused.flags.testBit i = (x.flags.testBit i || decide (i = 1))) ∧
      x.unused.is_unused = true ∧ x.unused.is_last = x.is_last ∧
      x.unused.val = x.val ∧ x.unused.idx = x.idx ∧ x.unused.int_const = x.int_const ∧
      x.unused.str_const = x.str_const ∧ x.unused.unused = x.unused) ∧
    ((∀ i, x.clear_unused.flags.testBit i = (x.flags.testBit i && !decide (i = 1))) ∧
      x.clear_unused.is_unused = false ∧ x.clear_unused.is_last = x.is_last ∧
      x.clear_unused.val = x.val ∧ x.clear_unused.idx = x.idx ∧
      x.clear_unused.int_const = x.int_const ∧ x.clear_unused.str_const = x.str_const ∧
      x.clear_unused.clear_unused = x.clear_unused) ∧
    ((x.add_assign y).flags = VarDescr.band x.flags y.flags ∧
      (x.add_assign y).is_last = (x.is_last && y.is_last) ∧
      (x.add_assign y).is_unused = (x.is_unused && y.is_unused) ∧
      (x.add_assign y).val = x.val ∧ (x.add_assign y).idx = x.idx ∧
      (x.add_assign y).int_const = x.int_const ∧ (x.add_assign y).str_const = x.str_const) := by
  refine ⟨⟨by decide, by decide, by decide, by decide⟩, ⟨VarDescr.testBit_unused x, ?_, ?_,
    rfl, rfl, rfl, rfl, ?_⟩, ⟨VarDescr.testBit_clear_unused x, ?_, ?_, rfl, rfl, rfl, rfl, ?_⟩,
    rfl, ?_, ?_, rfl, rfl, rfl, rfl⟩
  · rw [VarDescr.is_unused_eq, VarDescr.testBit_unused]; simp
  · rw [VarDescr.is_last_eq, VarDescr.is_last_eq, VarDescr.testBit_unused]; simp
  · have hf : x.unused.unused.flags = x.unused.flags := by
      apply int_eq_of_testBit_eq
      intro i
      rw [VarDescr.testBit_unused, VarDescr.testBit_unused]
      cases x.flags.testBit i <;> cases decide (i = 1) <;> rfl
    show ({ x.unused with flags := x.unused.unused.flags } : VarDescr) = x.unused
    rw [hf]
  · rw [VarDescr.is_unused_eq, VarDescr.testBit_clear_unused]; simp
  · rw [VarDescr.is_last_eq, VarDescr.is_last_eq, VarDescr.testBit_clear_unused]; simp
  · have hf : x.clear_unused.clear_unused.flags = x.clear_unused.flags := by
      apply int_eq_of_testBit_eq
      intro i
      rw [VarDescr.testBit_clear_unused, VarDescr.testBit_clear_unused]
      cases x.flags.testBit i <;> cases decide (i = 1) <;> rfl
    show ({ x.clear_unused with flags := x.clear_unused.clear_unused.flags } : VarDescr) =
      x.clear_unused
    rw [hf]
  · rw [VarDescr.is_last_eq, VarDescr.is_last_eq, VarDescr.is_last_eq,
      VarDescr.testBit_add_assign]
  · rw [VarDescr.is_unused_eq, VarDescr.is_unused_eq, VarDescr.is_unused_eq,
      VarDescr.testBit_add_assign]

end tolk

namespace ton.validatorsession

/-! ## `MemPool::alloc`: alignment -/

theorem MemPool.align_sub_one (k : Nat) (hk : k < 64) :
    (2 ^ k + size_t_range - 1) % size_t_range = 2 ^ k - 1 := by
  have h1 : 2 ^ k < size_t_range := Nat.pow_lt_pow_right (by norm_num) hk
  have h2 : 1 ≤ 2 ^ k := Nat.one_le_two_pow
  have h3 : 2 ^ k + size_t_range - 1 = (2 ^ k - 1) + size_t_range := by omega
  rw [h3, Nat.add_mod_right, Nat.mod_eq_of_lt (by omega)]

theorem MemPool.get_padding_eq (k q : Nat) (hk : k < 64) :
    MemPool.get_padding (2 ^ k) q =
      ((size_t_range - q % size_t_range) % size_t_range) % 2 ^ k := by
  unfold MemPool.get_padding
  rw [MemPool.align_sub_one k hk]
  exact Nat.and_pow_two_sub_one_eq_mod _ k

theorem MemPool.get_padding_aligned (k q : Nat) (hk : k < 64) :
    (q + MemPool.get_padding (2 ^ k) q) % 2 ^ k = 0 := by
  rw [MemPool.get_padding_eq k q hk, Nat.add_mod_mod]
  have hdvd : 2 ^ k ∣ size_t_range := pow_dvd_pow 2 hk.le
  have hW : 0 < size_t_range := by unfold size_t_range; positivity
  have hr : q % size_t_range < size_t_range := Nat.mod_lt q hW
  have hq : q = size_t_range * (q / size_t_range) + q % size_t_range :=
    (Nat.div_add_mod q size_t_range).symm
  apply Nat.mod_eq_zero_of_dvd
  by_cases h0 : q % size_t_range = 0
  · rw [h0, Nat.sub_zero, Nat.mod_self, Nat.add_zero]
    exact dvd_trans hdvd (Nat.dvd_of_mod_eq_zero h0)
  · have hx : (size_t_range - q % size_t_range) % size_t_range =
        size_t_range - q % size_t_range := Nat.mod_eq_of_lt (by omega)
    rw [hx]
    have hsum : q + (size_t_range - q % size_t_range) =
        size_t_range * (q / size_t_range + 1) := by
      rw [Nat.mul_add, Nat.mul_one]
      omega
    rw [hsum]
    exact dvd_trans hdvd (Dvd.intro _ rfl)

theorem MemPool.get_padding_lt (k q : Nat) (hk : k < 64) :
    MemPool.get_padding (2 ^ k) q < 2 ^ k := by
  rw [MemPool.get_padding_eq k q hk]
  exact Nat.mod_lt _ (by positivity)

theorem MemPool.get_padding_least (k q d : Nat) (hk : k < 64) (hd : (q + d) % 2 ^ k = 0) :
    MemPool.get_padding (2 ^ k) q ≤ d := by
  have h1 := MemPool.get_padding_aligned k q hk
  have h2 := MemPool.get_padding_lt k q hk
  by_contra hlt
  push_neg at hlt
  have hdiff : (MemPool.get_padding (2 ^ k) q - d) % 2 ^ k = 0 := by
    have e : q + MemPool.get_padding (2 ^ k) q =
        (q + d) + (MemPool.get_padding (2 ^ k) q - d) := by omega
    rw [e, Nat.add_mod, hd, Nat.zero_add, Nat.mod_mod] at h1
    exact h1
  have hsmall : MemPool.get_padding (2 ^ k) q - d < 2 ^ k := by omega
  rw [Nat.mod_eq_of_lt hsmall] at hdiff
  omega

theorem MemPool.alloc_loop_succ (newChunk : Nat → Option Nat) (size align fuel : Nat)
    (m : MemPool) (hc : m.chunk_size_ ≠ 0) :
    MemPool.alloc_loop newChunk size align (fuel + 1) m =
      if m.ptr_ / m.chunk_size_ < m.data_.length then
        if ((m.ptr_ + MemPool.get_padding align (m.chunk_addr m.ptr_)) % size_t_range + size) %
            size_t_range ≤ (m.data_.length * m.chunk_size_) % size_t_range then
          some (Except.ok (m.chunk_addr m.ptr_ + MemPool.get_padding align (m.chunk_addr m.ptr_),
            { m with ptr_ := ((m.ptr_ + MemPool.get_padding align (m.chunk_addr m.ptr_)) %
                size_t_range + size) % size_t_range }))
        else
          match newChunk m.data_.length with
          | none => some (Except.error Fault.bad_alloc)
          | some v =>
            MemPool.alloc_loop newChunk size align fuel
              { m with
                ptr_ := (m.data_.length * m.chunk_size_) % size_t_range
                data_ := m.data_ ++ [v] }
      else
        match newChunk m.data_.length with
        | none => some (Except.error Fault.bad_alloc)
        | some v =>
          MemPool.alloc_loop newChunk size align fuel { m with data_ := m.data_ ++ [v] } := by
  rw [MemPool.alloc_loop, if_neg hc]
  rfl

theorem MemPool.alloc_loop_returns (newChunk : Nat → Option Nat) (size align : Nat) :
    ∀ (fuel : Nat) (m : MemPool) (p : Nat) (m2 : MemPool),
      MemPool.alloc_loop newChunk size align fuel m = some (Except.ok (p, m2)) →
      ∃ t, (t = m.ptr_ ∨ ∃ n, m.data_.length ≤ n ∧ n < m2.data_.length ∧
            t = (n * m.chunk_size_) % size_t_range) ∧
        t / m.chunk_size_ < m2.data_.length ∧
        p = m2.chunk_addr t + MemPool.get_padding align (m2.chunk_addr t) ∧
        m2.ptr_ = ((t + MemPool.get_padding align (m2.chunk_addr t)) % size_t_range + size) %
          size_t_range ∧
        m2.ptr_ ≤ (m2.data_.length * m2.chunk_size_) % size_t_range ∧
        m2.chunk_size_ = m.chunk_size_ ∧
        ∃ ext, m2.data_ = m.data_ ++ ext ∧
          ∀ i v, ext[i]? = some v → newChunk (m.data_.length + i) = some v
  | 0, _, _, _, h => by simp [MemPool.alloc_loop] at h
  | fuel + 1, m, p, m2, h => by
    have hext : ∀ (v : Nat) (ext : List Nat), newChunk m.data_.length = some v →
        (∀ i w, ext[i]? = some w → newChunk ((m.data_ ++ [v]).length + i) = some w) →
        ∀ i w, ([v] ++ ext)[i]? = some w → newChunk (m.data_.length + i) = some w := by
      intro v ext hv hx i w hi
      cases i with
      | zero =>
        simp only [List.singleton_append, List.getElem?_cons_zero, Option.some.injEq] at hi
        rw [← hi]
        exact hv
      | succ j =>
        simp only [List.singleton_append, List.getElem?_cons_succ] at hi
        have := hx j w hi
        simp only [List.length_append, List.length_singleton] at this
        rw [show m.data_.length + (j + 1) = m.data_.length + 1 + j by omega]
        exact this
    by_cases hc : m.chunk_size_ = 0
    · rw [MemPool.alloc_loop, if_pos hc] at h
      simp at h
    · rw [MemPool.alloc_loop_succ newChunk size align fuel m hc] at h
      split at h
      · rename_i hidx
        split at h
        · rename_i hfit
          simp only [Option.some.injEq, Except.ok.injEq, Prod.mk.injEq] at h
          obtain ⟨hp, hm⟩ := h
          subst hm
          exact ⟨m.ptr_, Or.inl rfl, hidx, hp.symm, rfl, hfit, rfl, [],
            (List.append_nil _).symm, fun i v hi => by simp at hi⟩
        · split at h
          · simp at h
          · rename_i v hv
            obtain ⟨t, ht, h1, h2, h3, h4, h5, ext, h6, h7⟩ :=
              MemPool.alloc_loop_returns newChunk size align fuel _ p m2 h
            have hlen : m.data_.length < m2.data_.length := by
              rw [h6]
              simp only [List.length_append, List.length_singleton]
              omega
            refine ⟨t, Or.inr ?_, h1, h2, h3, h4, h5, [v] ++ ext, ?_, hext v ext hv h7⟩
            · rcases ht with ht | ⟨n, hn, hn2, ht⟩
              · exact ⟨m.data_.length, le_refl _, hlen, ht⟩
              · refine ⟨n, ?_, hn2, ht⟩
                simp only [List.length_append, List.length_singleton] at hn
                omega
            · rw [h6, List.append_assoc]
      · split at h
        · simp at h
        · rename_i v hv
          obtain ⟨t, ht, h1, h2, h3, h4, h5, ext, h6, h7⟩ :=
            MemPool.alloc_loop_returns newChunk size align fuel _ p m2 h
          refine ⟨t, ?_, h1, h2, h3, h4, h5, [v] ++ ext, ?_, hext v ext hv h7⟩
          · rcases ht with ht | ⟨n, hn, hn2, ht⟩
            · exact Or.inl ht
            · refine Or.inr ⟨n, ?_, hn2, ht⟩
              simp only [List.length_append, List.length_singleton] at hn
              omega
          · rw [h6, List.append_assoc]

theorem MemPool.alloc_loop_mono (newChunk : Nat → Option Nat) (size align : Nat) :
    ∀ (fuel : Nat) (m : MemPool) (r : Except Fault (Nat × MemPool)),
      MemPool.alloc_loop newChunk size align fuel m = some r →
      MemPool.alloc_loop newChunk size align (fuel + 1) m = some r
  | 0, _, _, h => by simp [MemPool.alloc_loop] at h
  | fuel + 1, m, r, h => by
    by_cases hc : m.chunk_size_ = 0
    · rw [MemPool.alloc_loop, if_pos hc] at h ⊢
      exact h
    · rw [MemPool.alloc_loop_succ newChunk size align fuel m hc] at h
      rw [MemPool.alloc_loop_succ newChunk size align (fuel + 1) m hc]
      split
      · rename_i hidx
        rw [if_pos hidx] at h
        split
        · rename_i hfit
          rw [if_pos hfit] at h
          exact h
        · rename_i hfit
          rw [if_neg hfit] at h
          cases hv : newChunk m.data_.length with
          | none =>
            rw [hv] at h
            exact h
          | some v =>
            rw [hv] at h
            exact MemPool.alloc_loop_mono newChunk size align fuel _ r h
      · rename_i hidx
        rw [if_neg hidx] at h
        cases hv : newChunk m.data_.length with
        | none =>
          rw [hv] at h
          exact h
        | some v =>
          rw [hv] at h
          exact MemPool.alloc_loop_mono newChunk size align fuel _ r h

theorem MemPool.alloc_loop_mono_le (newChunk : Nat → Option Nat) (size align : Nat)
    (fuel fuel2 : Nat) (hle : fuel ≤ fuel2) (m : MemPool) (r : Except Fault (Nat × MemPool))
    (h : MemPool.alloc_loop newChunk size align fuel m = some r) :
    MemPool.alloc_loop newChunk size align fuel2 m = some r := by
  induction fuel2, hle using Nat.le_induction with
  | base => exact h
  | succ n _ ih => exact MemPool.alloc_loop_mono newChunk size align n m r ih

theorem MemPool.alloc_loop_fresh_chunk (newChunk : Nat → Option Nat) (size align : Nat)
    (fuel : Nat) (m : MemPool) (n : Nat) (hc : 0 < m.chunk_size_)
    (hpad : ∀ q, MemPool.get_padding align q + size ≤ m.chunk_size_)
    (hlen : m.data_.length = n + 1) (hptr : m.ptr_ = n * m.chunk_size_)
    (hspace : (n + 1) * m.chunk_size_ < size_t_range) :
    ∃ r, MemPool.alloc_loop newChunk size align (fuel + 1) m = some (Except.ok r) := by
  have hidx : m.ptr_ / m.chunk_size_ < m.data_.length := by
    rw [hptr, Nat.mul_div_cancel n hc, hlen]
    exact Nat.lt_succ_self n
  have hmul : (n + 1) * m.chunk_size_ = n * m.chunk_size_ + m.chunk_size_ := by ring
  have hp := hpad (m.chunk_addr m.ptr_)
  rw [MemPool.alloc_loop_succ newChunk size align fuel m (Nat.pos_iff_ne_zero.mp hc),
    if_pos hidx]
  have h1 : (m.ptr_ + MemPool.get_padding align (m.chunk_addr m.ptr_)) % size_t_range =
      m.ptr_ + MemPool.get_padding align (m.chunk_addr m.ptr_) := by
    apply Nat.mod_eq_of_lt; omega
  have h2 : (m.ptr_ + MemPool.get_padding align (m.chunk_addr m.ptr_) + size) % size_t_range =
      m.ptr_ + MemPool.get_padding align (m.chunk_addr m.ptr_) + size := by
    apply Nat.mod_eq_of_lt; omega
  have h3 : (m.data_.length * m.chunk_size_) % size_t_range = (n + 1) * m.chunk_size_ := by
    rw [hlen]
    exact Nat.mod_eq_of_lt hspace
  rw [h1, h2, h3, if_pos (by omega)]
  exact ⟨_, rfl⟩

theorem MemPool.alloc_loop_terminates (newChunk : Nat → Option Nat) (size align : Nat) :
    ∀ (n : Nat) (m : MemPool), 0 < m.chunk_size_ →
      (∀ q, MemPool.get_padding align q + size ≤ m.chunk_size_) →
      m.ptr_ / m.chunk_size_ + 1 - m.data_.length = n →
      (max m.data_.length (m.ptr_ / m.chunk_size_ + 1) + 1) * m.chunk_size_ < size_t_range →
      (∃ r, MemPool.alloc_loop newChunk size align (n + 2) m = some (Except.ok r)) ∨
      (MemPool.alloc_loop newChunk size align (n + 2) m = some (Except.error Fault.bad_alloc) ∧
        ∃ j, newChunk j = none)
  | 0, m, hc, hpad, hn, hspace => by
    have hidx : m.ptr_ / m.chunk_size_ < m.data_.length := by omega
    have hmax : max m.data_.length (m.ptr_ / m.chunk_size_ + 1) = m.data_.length :=
      max_eq_left (by omega)
    rw [hmax] at hspace
    rw [MemPool.alloc_loop_succ newChunk size align 1 m (Nat.pos_iff_ne_zero.mp hc),
      if_pos hidx]
    split
    · exact Or.inl ⟨_, rfl⟩
    · cases hv : newChunk m.data_.length with
      | none => exact Or.inr ⟨rfl, m.data_.length, hv⟩
      | some v =>
        left
        have hsp : (m.data_.length + 1) * m.chunk_size_ < size_t_range := hspace
        have hlt : m.data_.length * m.chunk_size_ < size_t_range := by
          have : (m.data_.length + 1) * m.chunk_size_ =
              m.data_.length * m.chunk_size_ + m.chunk_size_ := by ring
          omega
        exact MemPool.alloc_loop_fresh_chunk newChunk size align 0
          { m with ptr_ := (m.data_.length * m.chunk_size_) % size_t_range
                   data_ := m.data_ ++ [v] }
          m.data_.length hc hpad (by simp) (Nat.mod_eq_of_lt hlt) hsp
  | n + 1, m, hc, hpad, hn, hspace => by
    have hidx : ¬ m.ptr_ / m.chunk_size_ < m.data_.length := by omega
    rw [MemPool.alloc_loop_succ newChunk size align (n + 2) m (Nat.pos_iff_ne_zero.mp hc),
      if_neg hidx]
    cases hv : newChunk m.data_.length with
    | none => exact Or.inr ⟨rfl, m.data_.length, hv⟩
    | some v =>
      refine MemPool.alloc_loop_terminates newChunk size align n
        { m with data_ := m.data_ ++ [v] } hc hpad ?_ ?_
      · simp only [List.length_append, List.length_singleton]
        omega
      · simp only [List.length_append, List.length_singleton]
        have e1 : max (m.data_.length + 1) (m.ptr_ / m.chunk_size_ + 1) =
            m.ptr_ / m.chunk_size_ + 1 := max_eq_right (by omega)
        have e2 : max m.data_.length (m.ptr_ / m.chunk_size_ + 1) =
            m.ptr_ / m.chunk_size_ + 1 := max_eq_right (by omega)
        rw [e1]
        rw [e2] at hspace
        exact hspace

theorem MemPool.alloc_checks_pass (newChunk : Nat → Option Nat) (fuel : Nat) (m : MemPool)
    (size k : Nat) (hk : k < 64) (hsz : size + 2 ^ k ≤ m.chunk_size_)
    (hcs : m.chunk_size_ < size_t_range) :
    MemPool.alloc newChunk fuel m size (2 ^ k) =
      MemPool.alloc_loop newChunk size (2 ^ k) fuel m := by
  have h1 : 2 ^ k ≠ 0 := by positivity
  have h2 : Nat.land (2 ^ k) ((2 ^ k + size_t_range - 1) % size_t_range) = 0 := by
    rw [MemPool.align_sub_one k hk]
    have := Nat.and_pow_two_sub_one_eq_mod (2 ^ k) k
    rw [Nat.mod_self] at this
    exact this
  have h3 : (size + 2 ^ k) % size_t_range ≤ m.chunk_size_ := by
    rw [Nat.mod_eq_of_lt (by omega)]
    exact hsz
  unfold MemPool.alloc
  rw [if_neg (by simp [h1, h2]), if_neg (by simp [h3])]

/-- C20: for a pool state, an `align` that is a power of two (`2^k`, `k < 64`)
and a `size` with `size + align <= chunk_size_`: every pointer `p` that
`MemPool::alloc(size, align)` returns is a multiple of `align`, and it is the
address `q = data_[t / chunk_size_] + t % chunk_size_` of the byte number `t`
of the pool as the call leaves it, plus the padding of `q`, where `t` is the
old `ptr_` or the first byte after the chunks that the pool had at some
iteration, `ptr_` has advanced to `t + padding + size`, and the chunks of the
pool are the old ones followed by the arrays that `new` handed out; the
padding of an address is less than `align`, makes the address aligned, and is
the least such amount.  The call ends after at
most `ptr_ / chunk_size_ + 3` iterations when the chunks of the pool and the
chunk it may add span less than `2^64` bytes: it returns such a pointer, or
`new` has thrown `std::bad_alloc`, and it returns when `new` does not throw. -/
theorem MemPool.alloc_aligned (newChunk : Nat → Option Nat) (m : MemPool) (size k : Nat)
    (hk : k < 64) (hsz : size + 2 ^ k ≤ m.chunk_size_) :
    (∀ fuel p m2, MemPool.alloc newChunk fuel m size (2 ^ k) = some (Except.ok (p, m2)) →
      p % 2 ^ k = 0 ∧
      ∃ t, (t = m.ptr_ ∨ ∃ n, m.data_.length ≤ n ∧ n < m2.data_.length ∧
            t = (n * m.chunk_size_) % size_t_range) ∧
        t / m.chunk_size_ < m2.data_.length ∧
        p = m2.chunk_addr t + MemPool.get_padding (2 ^ k) (m2.chunk_addr t) ∧
        m2.ptr_ = ((t + MemPool.get_padding (2 ^ k) (m2.chunk_addr t)) % size_t_range + size) %
          size_t_range ∧
        m2.ptr_ ≤ (m2.data_.length * m2.chunk_size_) % size_t_range ∧
        m2.chunk_size_ = m.chunk_size_ ∧
        ∃ ext, m2.data_ = m.data_ ++ ext ∧
          ∀ i v, ext[i]? = some v → newChunk (m.data_.length + i) = some v) ∧
    ((max m.data_.length (m.ptr_ / m.chunk_size_ + 1) + 1) * m.chunk_size_ < size_t_range →
      ∀ fuel, m.ptr_ / m.chunk_size_ + 3 ≤ fuel →
        ((∃ p m2, MemPool.alloc newChunk fuel m size (2 ^ k) = some (Except.ok (p, m2)) ∧
            p % 2 ^ k = 0) ∨
          (MemPool.alloc newChunk fuel m size (2 ^ k) = some (Except.error Fault.bad_alloc) ∧
            ∃ j, newChunk j = none)) ∧
        ((∀ j, newChunk j ≠ none) →
          ∃ p m2, MemPool.alloc newChunk fuel m size (2 ^ k) = some (Except.ok (p, m2)))) ∧
    (∀ q, MemPool.get_padding (2 ^ k) q < 2 ^ k ∧
      (q + MemPool.get_padding (2 ^ k) q) % 2 ^ k = 0 ∧
      ∀ d, (q + d) % 2 ^ k = 0 → MemPool.get_padding (2 ^ k) q ≤ d) := by
  have hret : ∀ fuel p m2,
      MemPool.alloc newChunk fuel m size (2 ^ k) = some (Except.ok (p, m2)) →
      p % 2 ^ k = 0 ∧
      ∃ t, (t = m.ptr_ ∨ ∃ n, m.data_.length ≤ n ∧ n < m2.data_.length ∧
            t = (n * m.chunk_size_) % size_t_range) ∧
        t / m.chunk_size_ < m2.data_.length ∧
        p = m2.chunk_addr t + MemPool.get_padding (2 ^ k) (m2.chunk_addr t) ∧
        m2.ptr_ = ((t + MemPool.get_padding (2 ^ k) (m2.chunk_addr t)) % size_t_range + size) %
          size_t_range ∧
        m2.ptr_ ≤ (m2.data_.length * m2.chunk_size_) % size_t_range ∧
        m2.chunk_size_ = m.chunk_size_ ∧
        ∃ ext, m2.data_ = m.data_ ++ ext ∧
          ∀ i v, ext[i]? = some v → newChunk (m.data_.length + i) = some v := by
    intro fuel p m2 h
    unfold MemPool.alloc at h
    split at h
    · simp at h
    · split at h
      · simp at h
      · obtain ⟨t, ht⟩ := MemPool.alloc_loop_returns newChunk size (2 ^ k) fuel m p m2 h
        refine ⟨?_, t, ht⟩
        rw [ht.2.2.1]
        exact MemPool.get_padding_aligned k _ hk
  refine ⟨hret, ?_, ?_⟩
  · intro hspace fuel hfuel
    have hpos : 0 < m.chunk_size_ := by
      have : 0 < 2 ^ k := by positivity
      omega
    have hcs : m.chunk_size_ < size_t_range := by
      have h1 : 1 * m.chunk_size_ ≤
          (max m.data_.length (m.ptr_ / m.chunk_size_ + 1) + 1) * m.chunk_size_ :=
        Nat.mul_le_mul_right _ (by omega)
      omega
    have hpad : ∀ q, MemPool.get_padding (2 ^ k) q + size ≤ m.chunk_size_ := by
      intro q
      have := MemPool.get_padding_lt k q hk
      omega
    have hle : m.ptr_ / m.chunk_size_ + 1 - m.data_.length + 2 ≤ fuel := by
      have := Nat.sub_le (m.ptr_ / m.chunk_size_ + 1) m.data_.length
      omega
    have hall := MemPool.alloc_checks_pass newChunk fuel m size k hk hsz hcs
    have hcases : (∃ p m2, MemPool.alloc newChunk fuel m size (2 ^ k) =
          some (Except.ok (p, m2)) ∧ p % 2 ^ k = 0) ∨
        (MemPool.alloc newChunk fuel m size (2 ^ k) = some (Except.error Fault.bad_alloc) ∧
          ∃ j, newChunk j = none) := by
      rcases MemPool.alloc_loop_terminates newChunk size (2 ^ k)
        (m.ptr_ / m.chunk_size_ + 1 - m.data_.length) m hpos hpad rfl hspace with
        ⟨r, hr⟩ | ⟨hr, hj⟩
      · left
        have hr2 := MemPool.alloc_loop_mono_le newChunk size (2 ^ k) _ fuel hle m _ hr
        rw [← hall] at hr2
        exact ⟨r.1, r.2, hr2, (hret fuel r.1 r.2 hr2).1⟩
      · right
        have hr2 := MemPool.alloc_loop_mono_le newChunk size (2 ^ k) _ fuel hle m _ hr
        rw [← hall] at hr2
        exact ⟨hr2, hj⟩
    refine ⟨hcases, fun hnc => ?_⟩
    rcases hcases with ⟨p, m2, h, _⟩ | ⟨_, j, hj⟩
    · exact ⟨p, m2, h⟩
    · exact absurd hj (hnc j)
  · intro q
    exact ⟨MemPool.get_padding_lt k q hk, MemPool.get_padding_aligned k q hk,
      fun d hd => MemPool.get_padding_least k q d hk hd⟩

/-- C20 (witness): 5 bytes with alignment 8 from the pool with one chunk at
4104 and `ptr_ = 10`: the chunk address is 4114, the padding 6, the result
4120, and `ptr_` advances to `10 + 6 + 5`. -/
theorem MemPool.alloc_aligned_witness :
    3 < 64 ∧ 5 + 2 ^ 3 ≤ MemPool.example1.chunk_size_ ∧
    MemPool.alloc MemPool.example_chunks 3 MemPool.example1 5 (2 ^ 3) =
      some (Except.ok (4120, { chunk_size_ := 64, ptr_ := 21, data_ := [4104] })) ∧
    4120 % 2 ^ 3 = 0 ∧ MemPool.example1.chunk_addr 10 = 4114 ∧
    MemPool.get_padding (2 ^ 3) 4114 = 6 := by
  have h := (MemPool.alloc_aligned MemPool.example_chunks MemPool.example1 5 3
    (by decide) (by decide)).1 3 4120
    { chunk_size_ := 64, ptr_ := 21, data_ := [4104] } rfl
  exact ⟨by decide, by decide, rfl, h.1, by decide, by decide⟩

/-! ## `MemPool::alloc`: the two `CHECK`s -/

theorem MemPool.testBit_of_between (x k : Nat) (h1 : 2 ^ k ≤ x) (h2 : x < 2 ^ (k + 1)) :
    x.testBit k = true := by
  have hdiv : x / 2 ^ k = 1 :=
    Nat.div_eq_of_lt_le (by omega) (by rw [pow_succ] at h2; omega)
  rw [Nat.testBit_to_div_mod, hdiv]
  rfl

/-- The first `CHECK` of `MemPool::alloc`, `align && !(align & (align - 1))`,
passes for a `size_t` value exactly when it is a power of two. -/
theorem MemPool.check_align_iff (align : Nat) (h : align < size_t_range) :
    (align ≠ 0 ∧ Nat.land align ((align + size_t_range - 1) % size_t_range) = 0) ↔
      ∃ k, k < 64 ∧ align = 2 ^ k := by
  constructor
  · rintro ⟨h0, hland⟩
    have hsub : (align + size_t_range - 1) % size_t_range = align - 1 := by
      have e : align + size_t_range - 1 = (align - 1) + size_t_range := by omega
      rw [e, Nat.add_mod_right, Nat.mod_eq_of_lt (by omega)]
    rw [hsub] at hland
    have hlo := Nat.pow_log_le_self 2 h0
    have hhi := Nat.lt_pow_succ_log_self (by decide : 1 < 2) align
    have heq : align = 2 ^ Nat.log 2 align := by
      by_contra hne
      have hb1 := MemPool.testBit_of_between align (Nat.log 2 align) hlo hhi
      have hb2 := MemPool.testBit_of_between (align - 1) (Nat.log 2 align) (by omega) (by omega)
      have hb := Nat.testBit_and align (align - 1) (Nat.log 2 align)
      have hl : align &&& (align - 1) = 0 := hland
      rw [hl, Nat.zero_testBit, hb1, hb2] at hb
      exact absurd hb (by decide)
    refine ⟨Nat.log 2 align, ?_, heq⟩
    by_contra hk
    have : 2 ^ 64 ≤ 2 ^ Nat.log 2 align := Nat.pow_le_pow_right (by decide) (by omega)
    unfold size_t_range at h
    omega
  · rintro ⟨k, hk, rfl⟩
    refine ⟨by positivity, ?_⟩
    rw [MemPool.align_sub_one k hk]
    have := Nat.and_pow_two_sub_one_eq_mod (2 ^ k) k
    rw [Nat.mod_self] at this
    exact this

theorem MemPool.alloc_loop_fault (newChunk : Nat → Option Nat) (size align : Nat) :
    ∀ (fuel : Nat) (m : MemPool) (e : Fault),
      MemPool.alloc_loop newChunk size align fuel m = some (Except.error e) →
      e = Fault.division_by_zero ∨ e = Fault.bad_alloc
  | 0, _, _, h => by simp [MemPool.alloc_loop] at h
  | fuel + 1, m, e, h => by
    by_cases hc : m.chunk_size_ = 0
    · rw [MemPool.alloc_loop, if_pos hc] at h
      simp only [Option.some.injEq, Except.error.injEq] at h
      exact Or.inl h.symm
    · rw [MemPool.alloc_loop_succ newChunk size align fuel m hc] at h
      split at h
      · split at h
        · simp at h
        · split at h
          · simp only [Option.some.injEq, Except.error.injEq] at h
            exact Or.inr h.symm
          · have ih := MemPool.alloc_loop_fault newChunk size align fuel _ e h
            exact ih
      · split at h
        · simp only [Option.some.injEq, Except.error.injEq] at h
          exact Or.inr h.symm
        · have ih := MemPool.alloc_loop_fault newChunk size align fuel _ e h
          exact ih

/-- When `size + align` does not wrap, `MemPool::alloc(size, align)` fails its
first `CHECK` exactly when `align` is not a power of two (0 included), fails
its second `CHECK` exactly when `align` is a power of two and
`size + align > chunk_size_`, and enters the loop otherwise. -/
theorem MemPool.alloc_checks_spec (newChunk : Nat → Option Nat) (fuel : Nat) (m : MemPool)
    (size align : Nat) (ha : align < size_t_range) (hs : size + align < size_t_range) :
    (MemPool.alloc newChunk fuel m size align = some (Except.error (Fault.check_failed 185)) ↔
      ¬ ∃ k, k < 64 ∧ align = 2 ^ k) ∧
    (MemPool.alloc newChunk fuel m size align = some (Except.error (Fault.check_failed 186)) ↔
      (∃ k, k < 64 ∧ align = 2 ^ k) ∧ m.chunk_size_ < size + align) ∧
    ((∃ k, k < 64 ∧ align = 2 ^ k) → size + align ≤ m.chunk_size_ →
      MemPool.alloc newChunk fuel m size align =
        MemPool.alloc_loop newChunk size align fuel m) := by
  have hiff := MemPool.check_align_iff align ha
  have hmod : (size + align) % size_t_range = size + align := Nat.mod_eq_of_lt hs
  unfold MemPool.alloc
  rw [hmod]
  by_cases h1 : align ≠ 0 ∧ Nat.land align ((align + size_t_range - 1) % size_t_range) = 0
  · have hp := hiff.mp h1
    rw [if_neg (not_not.mpr h1)]
    by_cases h2 : size + align ≤ m.chunk_size_
    · rw [if_neg (not_not.mpr h2)]
      refine ⟨⟨fun h => ?_, fun h => absurd hp h⟩, ⟨fun h => ?_, fun h => by omega⟩, fun _ _ => rfl⟩
      · rcases MemPool.alloc_loop_fault newChunk size align fuel m _ h with e | e <;>
          exact absurd e (by simp)
      · rcases MemPool.alloc_loop_fault newChunk size align fuel m _ h with e | e <;>
          exact absurd e (by simp)
    · rw [if_pos h2]
      refine ⟨⟨fun h => ?_, fun h => absurd hp h⟩, ⟨fun _ => ⟨hp, by omega⟩, fun _ => rfl⟩,
        fun _ h => absurd h h2⟩
      simp at h
  · rw [if_pos h1]
    have hnp : ¬ ∃ k, k < 64 ∧ align = 2 ^ k := fun h => h1 (hiff.mpr h)
    refine ⟨⟨fun _ => hnp, fun _ => rfl⟩, ⟨fun h => ?_, fun h => absurd h.1 hnp⟩,
      fun h _ => absurd h hnp⟩
    simp at h

/-- C28: the call `alloc(2^64 - 1, 1)` on the empty pool with chunks of 64
bytes has `size + align = 2^64 > chunk_size_`, but the `size_t` sum in
`CHECK(size + align <= chunk_size_)` wraps to 0, the `CHECK` passes and the
call returns a pointer after adding two chunks; and on a pool with
`chunk_size_ = 2^63` the request of `size = chunk_size_` with alignment `2^63`
passes both `CHECK`s for the same reason: it returns when `new` hands out the
chunk, and ends in `std::bad_alloc`, not in a failed `CHECK`, when `new`
throws. -/
theorem MemPool.alloc_check_wraps :
    (64 < (2 ^ 64 - 1) + 1 ∧ ((2 ^ 64 - 1) + 1) % size_t_range = 0 ∧
      MemPool.alloc MemPool.example_chunks 3 (MemPool.empty 64) (2 ^ 64 - 1) 1 =
        some (Except.ok (8192, { chunk_size_ := 64, ptr_ := 63, data_ := [4096, 8192] }))) ∧
    (2 ^ 63 < 2 ^ 63 + 2 ^ 63 ∧
      MemPool.alloc (fun n => some (2 ^ 63 * (n + 1))) 2 (MemPool.empty (2 ^ 63)) (2 ^ 63)
          (2 ^ 63) =
        some (Except.ok (2 ^ 63,
          { chunk_size_ := 2 ^ 63, ptr_ := 2 ^ 63, data_ := [2 ^ 63] })) ∧
      MemPool.alloc MemPool.no_chunks 2 (MemPool.empty (2 ^ 63)) (2 ^ 63) (2 ^ 63) =
        some (Except.error Fault.bad_alloc)) := by
  refine ⟨⟨by decide, by decide, rfl⟩, by decide, rfl, rfl⟩

/-! ## `MemPool`: what the wrapped `CHECK` lets through -/

/-- C21: on the empty pool with chunks of 64 bytes the call
`alloc(2^64 - 1, 1)` passes both `CHECK`s, because `size + align` wraps to 0,
and returns the address 8192 of the second chunk for a region of `2^64 - 1`
bytes, which lies in no chunk of the pool. -/
theorem MemPool.alloc_region_escapes :
    MemPool.alloc MemPool.example_chunks 3 (MemPool.empty 64) (2 ^ 64 - 1) 1 =
      some (Except.ok (8192, { chunk_size_ := 64, ptr_ := 63, data_ := [4096, 8192] })) ∧
    MemPool.region_in_chunk { chunk_size_ := 64, ptr_ := 63, data_ := [4096, 8192] }
      8192 (2 ^ 64 - 1) = false :=
  ⟨rfl, by decide⟩

/-- C22: from the empty pool with chunks of 64 bytes, the three calls
`alloc(10, 1)`, `alloc(2^64 - 1, 1)`, `alloc(1, 1)` all return (the second
passes `CHECK(size + align <= chunk_size_)` because the sum wraps to 0);
`ptr_` goes from 10 down to 9, and the third region `[4105, 4106)` lies inside
the first region `[4096, 4106)`, although the pool has a single chunk. -/
theorem MemPool.alloc_seq_overlaps :
    MemPool.alloc_seq MemPool.example_chunks 2 (MemPool.empty 64)
        [(10, 1), (2 ^ 64 - 1, 1), (1, 1)] =
      some (Except.ok ([(4096, 10, 10), (4106, 2 ^ 64 - 1, 9), (4105, 1, 10)],
        { chunk_size_ := 64, ptr_ := 10, data_ := [4096] })) ∧
    ¬ (10 ≤ 9) ∧ ¬ MemPool.disjoint_regions (4096, 10, 10) (4105, 1, 10) ∧
    List.Pairwise (MemPool.disjoint_chunks 64) [4096] :=
  ⟨rfl, by decide, by decide, by decide⟩

/-- C27: on the empty pool with chunks of 64 bytes the call
`alloc(2^64 - 1, 1)` passes both `CHECK`s (the sum wraps to 0), returns in its
third iteration and has added two chunks; on the empty pool with
`chunk_size_ = 0` the same call passes both `CHECK`s and divides by
`chunk_size_`. -/
theorem MemPool.alloc_adds_two_chunks :
    (MemPool.alloc MemPool.example_chunks 3 (MemPool.empty 64) (2 ^ 64 - 1) 1 =
        some (Except.ok (8192, { chunk_size_ := 64, ptr_ := 63, data_ := [4096, 8192] })) ∧
      MemPool.alloc MemPool.example_chunks 2 (MemPool.empty 64) (2 ^ 64 - 1) 1 = none ∧
      (MemPool.empty 64).data_.length + 2 = [4096, 8192].length) ∧
    MemPool.alloc MemPool.example_chunks 3 (MemPool.empty 0) (2 ^ 64 - 1) 1 =
      some (Except.error Fault.division_by_zero) :=
  ⟨⟨rfl, rfl, by decide⟩, rfl⟩

/-! ## `MemPool`: `contains` and `clear` -/

theorem MemPool.contains_iff (m : MemPool) (p : Nat) :
    m.contains p = true ↔ p = 0 ∨ ∃ v, v ∈ m.data_ ∧ v ≤ p ∧ p ≤ v + m.chunk_size_ := by
  unfold MemPool.contains
  by_cases h : p = 0
  · simp [h]
  · simp [h, List.any_eq_true]

/-- C29: for every pool and every address `p`, `contains(p)` is true iff `p`
is null or some chunk `v` of `data_` has `v <= p <= v + chunk_size_`, the upper
bound included; so the one-past-the-end address of a chunk is contained, null
is contained even in an empty pool, and `is_persistent(nullptr)` is true.  But
not every pointer that `alloc` returns is contained: from the empty pool with
chunks of 64 bytes, after `alloc(10, 1)` the call `alloc(2^64 - 1024, 1024)`
passes both `CHECK`s (the sum wraps to 0) and returns the address 5120, which
`contains` rejects, the only chunk being `[4096, 4160]`. -/
theorem MemPool.alloc_not_contained (d : ValidatorSessionDescriptionImpl) (m : MemPool)
    (p : Nat) :
    (m.contains p = true ↔ p = 0 ∨ ∃ v, v ∈ m.data_ ∧ v ≤ p ∧ p ≤ v + m.chunk_size_) ∧
    (∀ v, v ∈ m.data_ → m.contains (v + m.chunk_size_) = true) ∧
    (MemPool.empty m.chunk_size_).contains 0 = true ∧
    d.is_persistent 0 = true ∧
    (MemPool.alloc_seq MemPool.example_chunks 2 (MemPool.empty 64)
        [(10, 1), (2 ^ 64 - 1024, 1024)] =
        some (Except.ok ([(4096, 10, 10), (5120, 2 ^ 64 - 1024, 0)],
          { chunk_size_ := 64, ptr_ := 0, data_ := [4096] })) ∧
      MemPool.contains { chunk_size_ := 64, ptr_ := 0, data_ := [4096] } 5120 = false) := by
  refine ⟨MemPool.contains_iff m p, ?_, rfl, rfl, rfl, by decide⟩
  intro v hv
  exact (MemPool.contains_iff m _).2 (Or.inr ⟨v, hv, Nat.le_add_right _ _, le_refl _⟩)

theorem MemPool.clear_loop_eq : ∀ (fuel : Nat) (data : List Nat), data.length ≤ fuel + 1 →
    MemPool.clear_loop fuel data = data.take 1
  | 0, data, h => by
    rw [MemPool.clear_loop, List.take_of_length_le h]
  | fuel + 1, data, h => by
    rw [MemPool.clear_loop]
    split
    · rename_i hlen
      rw [MemPool.clear_loop_eq fuel data.dropLast (by rw [List.length_dropLast]; omega),
        List.dropLast_eq_take, List.take_take]
      congr 1
      omega
    · rename_i hlen
      rw [List.take_of_length_le (by omega)]

theorem MemPool.clear_eq (m : MemPool) :
    m.clear = { m with data_ := m.data_.take 1, ptr_ := 0 } := by
  unfold MemPool.clear
  rw [MemPool.clear_loop_eq m.data_.length m.data_ (by omega)]

theorem MemPool.alloc_after_clear (newChunk : Nat → Option Nat) (m : MemPool) (v : Nat)
    (rest : List Nat) (size k fuel : Nat) (hdata : m.data_ = v :: rest) (hk : k < 64)
    (hsz : size + 2 ^ k ≤ m.chunk_size_) (hcs : m.chunk_size_ < size_t_range) :
    MemPool.alloc newChunk (fuel + 1) m.clear size (2 ^ k) =
      some (Except.ok (v + MemPool.get_padding (2 ^ k) v,
        { chunk_size_ := m.chunk_size_, ptr_ := MemPool.get_padding (2 ^ k) v + size,
          data_ := [v] })) := by
  have hclear : m.clear = { chunk_size_ := m.chunk_size_, ptr_ := 0, data_ := [v] } := by
    rw [MemPool.clear_eq, hdata]
    rfl
  have hpos : 0 < m.chunk_size_ := by
    have : 0 < 2 ^ k := by positivity
    omega
  have hpad := MemPool.get_padding_lt k v hk
  rw [hclear, MemPool.alloc_checks_pass newChunk (fuel + 1)
      { chunk_size_ := m.chunk_size_, ptr_ := 0, data_ := [v] } size k hk hsz hcs,
    MemPool.alloc_loop_succ newChunk size (2 ^ k) fuel
      { chunk_size_ := m.chunk_size_, ptr_ := 0, data_ := [v] } (Nat.pos_iff_ne_zero.mp hpos)]
  have haddr : MemPool.chunk_addr { chunk_size_ := m.chunk_size_, ptr_ := 0, data_ := [v] } 0 =
      v := by
    simp [MemPool.chunk_addr]
  simp only [haddr, Nat.zero_div, List.length_singleton, Nat.zero_add, Nat.one_mul]
  have e1 : MemPool.get_padding (2 ^ k) v % size_t_range = MemPool.get_padding (2 ^ k) v :=
    Nat.mod_eq_of_lt (by omega)
  have e2 : (MemPool.get_padding (2 ^ k) v + size) % size_t_range =
      MemPool.get_padding (2 ^ k) v + size := Nat.mod_eq_of_lt (by omega)
  have e3 : m.chunk_size_ % size_t_range = m.chunk_size_ := Nat.mod_eq_of_lt hcs
  rw [e1, e2, e3, if_pos (by decide), if_pos (by omega)]

/-- C30: for every pool with `k` chunks, after `clear()` the pool has
`min(k, 1)` chunks, namely the first chunk if there was one, `ptr_ = 0`, and
`chunk_size_` is unchanged.  But a following `alloc` that returns need not stay
in the kept chunk: after `clear()` on the pool with the chunks 4096 and 8192,
the call `alloc(2^64 - 1, 1)` passes both `CHECK`s (the sum wraps to 0) and
returns, having added a chunk, the address 8192 of that chunk. -/
theorem MemPool.clear_then_alloc (m : MemPool) :
    (m.clear.data_ = m.data_.take 1 ∧ m.clear.data_.length = min m.data_.length 1 ∧
      m.clear.ptr_ = 0 ∧ m.clear.chunk_size_ = m.chunk_size_) ∧
    (MemPool.example2.clear = { chunk_size_ := 64, ptr_ := 0, data_ := [4096] } ∧
      MemPool.alloc MemPool.example_chunks 3 MemPool.example2.clear (2 ^ 64 - 1) 1 =
        some (Except.ok (8192, { chunk_size_ := 64, ptr_ := 63, data_ := [4096, 8192] })) ∧
      MemPool.example2.clear.data_.length < [4096, 8192].length) := by
  refine ⟨?_, rfl, rfl, by decide⟩
  rw [MemPool.clear_eq]
  refine ⟨rfl, ?_, rfl, rfl⟩
  show (m.data_.take 1).length = min m.data_.length 1
  rw [List.length_take, Nat.min_comm]

/-! ## The session description: cache lookup, priorities, cutoff weight -/

/-- C23: for every description and every hash `h`, `get_by_hash(h, true)` and
`get_by_hash(h, false)` return the same object, the content of the cache slot
`h mod cache_size`, whatever `allow_temp` is. -/
theorem ValidatorSessionDescriptionImpl.get_by_hash_allow_temp
    (d : ValidatorSessionDescriptionImpl) (cache_size h : Nat) (hcs : 0 < cache_size) :
    d.get_by_hash cache_size h true = d.get_by_hash cache_size h false ∧
    ∀ allow_temp, d.get_by_hash cache_size h allow_temp =
      Except.ok (d.cache_ (h % cache_size)) := by
  refine ⟨rfl, fun a => ?_⟩
  unfold ValidatorSessionDescriptionImpl.get_by_hash
  rw [if_neg (Nat.pos_iff_ne_zero.mp hcs)]

/-- C23 (witness): the cache of `2^20` slots and the hash `2^20 + 5`. -/
theorem ValidatorSessionDescriptionImpl.get_by_hash_allow_temp_witness :
    0 < 2 ^ 20 ∧
    (ValidatorSessionDescriptionImpl.example_opts 3).get_by_hash (2 ^ 20) (2 ^ 20 + 5) true =
      (ValidatorSessionDescriptionImpl.example_opts 3).get_by_hash (2 ^ 20) (2 ^ 20 + 5) false :=
  ⟨by decide, (ValidatorSessionDescriptionImpl.get_by_hash_allow_temp
    (ValidatorSessionDescriptionImpl.example_opts 3) (2 ^ 20) (2 ^ 20 + 5) (by decide)).1⟩

theorem to_int32_of_lt (x : Nat) (h : x < 2 ^ 31) : to_int32 x = (x : Int) := by
  have h2 : x % uint32_range = x := Nat.mod_eq_of_lt (by unfold uint32_range; omega)
  unfold to_int32
  rw [h2, if_pos h]

/-- The value of `get_node_priority` when `total_nodes < 2^31`, with the
difference `src_idx - round % total_nodes` taken modulo `total_nodes` in natural
numbers. -/
theorem ValidatorSessionDescriptionImpl.get_node_priority_eq
    (d : ValidatorSessionDescriptionImpl) (n src round : Nat) (hn : 1 ≤ n) (hn2 : n < 2 ^ 31)
    (hs : src < n) :
    d.get_node_priority n src round =
      Except.ok (if (if src < round % n then src + n - round % n else src - round % n) <
          d.round_candidates
        then (((if src < round % n then src + n - round % n else src - round % n) : Nat) : Int)
        else -1) := by
  have hr : round % n < n := Nat.mod_lt _ (by omega)
  unfold ValidatorSessionDescriptionImpl.get_node_priority
  rw [if_neg (by omega)]
  simp only []
  by_cases hlt : src < round % n
  · simp only [hlt, if_true]
    have e1 : (src + n) % uint32_range = src + n :=
      Nat.mod_eq_of_lt (by unfold uint32_range; omega)
    have e2 : (src + n + uint32_range - round % n) % uint32_range = src + n - round % n := by
      unfold uint32_range; omega
    rw [e1, e2]
    split
    · rw [to_int32_of_lt _ (by omega)]
    · rfl
  · simp only [hlt, if_false]
    have e2 : (src + uint32_range - round % n) % uint32_range = src - round % n := by
      unfold uint32_range; omega
    rw [e2]
    split
    · rw [to_int32_of_lt _ (by omega)]
    · rfl

theorem int_sub_emod (n src round : Nat) (hn : 1 ≤ n) (hs : src < n) :
    ((src : Int) - (round : Int)) % (n : Int) =
      (((if src < round % n then src + n - round % n else src - round % n) : Nat) : Int) := by
  have hr : round % n < n := Nat.mod_lt _ (by omega)
  have hq : round = n * (round / n) + round % n := (Nat.div_add_mod round n).symm
  generalize round / n = q at hq
  generalize round % n = r at hq hr
  subst hq
  by_cases hlt : src < r
  · rw [if_pos hlt]
    have e : (src : Int) - ((n * q + r : Nat) : Int) =
        ((src + n - r : Nat) : Int) + (n : Int) * (-((q : Int) + 1)) := by
      rw [Nat.cast_sub (by omega)]
      push_cast
      ring
    rw [e, Int.add_mul_emod_self_left]
    exact Int.emod_eq_of_lt (by positivity) (by exact_mod_cast (by omega : src + n - r < n))
  · rw [if_neg hlt]
    have e : (src : Int) - ((n * q + r : Nat) : Int) =
        ((src - r : Nat) : Int) + (n : Int) * (-(q : Int)) := by
      rw [Nat.cast_sub (by omega)]
      push_cast
      ring
    rw [e, Int.add_mul_emod_self_left]
    exact Int.emod_eq_of_lt (by positivity) (by exact_mod_cast (by omega : src - r < n))

/-- C25: for `n = total_nodes` with `1 <= n < 2^31`, every `round` and every
`src_idx < n`, `get_node_priority(src_idx, round)` returns
`(src_idx - round) mod n` when that value is below `round_candidates` and `-1`
otherwise; so the result is `-1` or lies in `[0, round_candidates)`, and for a
fixed round two different nodes below `n` never receive the same non-negative
priority. -/
theorem ValidatorSessionDescriptionImpl.get_node_priority_spec
    (d : ValidatorSessionDescriptionImpl) (n src round : Nat) (hn : 1 ≤ n) (hn2 : n < 2 ^ 31)
    (hs : src < n) :
    d.get_node_priority n src round =
      Except.ok (if ((src : Int) - (round : Int)) % (n : Int) < (d.round_candidates : Int)
        then ((src : Int) - (round : Int)) % (n : Int) else -1) ∧
    (∃ p : Int, d.get_node_priority n src round = Except.ok p ∧
      (p = -1 ∨ (0 ≤ p ∧ p < (d.round_candidates : Int)))) ∧
    ∀ src2 p, src2 < n → src2 ≠ src → 0 ≤ p →
      d.get_node_priority n src round = Except.ok p →
      d.get_node_priority n src2 round ≠ Except.ok p := by
  have hr : round % n < n := Nat.mod_lt _ (by omega)
  have key := ValidatorSessionDescriptionImpl.get_node_priority_eq d n src round hn hn2 hs
  have hemod := int_sub_emod n src round hn hs
  have hinj : ∀ src2, src2 < n →
      (if src < round % n then src + n - round % n else src - round % n) =
        (if src2 < round % n then src2 + n - round % n else src2 - round % n) → src2 = src := by
    intro src2 hs2 h3
    split at h3 <;> split at h3 <;> omega
  refine ⟨?_, ?_, ?_⟩
  · rw [key, hemod]
    generalize (if src < round % n then src + n - round % n else src - round % n) = dd
    by_cases h : dd < d.round_candidates
    · rw [if_pos h, if_pos (by exact_mod_cast h)]
    · rw [if_neg h, if_neg (by exact_mod_cast h)]
  · rw [key]
    refine ⟨_, rfl, ?_⟩
    generalize (if src < round % n then src + n - round % n else src - round % n) = dd
    by_cases h : dd < d.round_candidates
    · rw [if_pos h]
      right
      exact ⟨by positivity, by exact_mod_cast h⟩
    · rw [if_neg h]
      left; rfl
  · intro src2 p hs2 hne hp h1 h2
    rw [key] at h1
    rw [ValidatorSessionDescriptionImpl.get_node_priority_eq d n src2 round hn hn2 hs2] at h2
    simp only [Except.ok.injEq] at h1 h2
    have hi := hinj src2 hs2
    generalize (if src < round % n then src + n - round % n else src - round % n) = dd at h1 hi
    generalize (if src2 < round % n then src2 + n - round % n else src2 - round % n) = dd2
      at h2 hi
    by_cases ha : dd < d.round_candidates
    · rw [if_pos ha] at h1
      by_cases hb : dd2 < d.round_candidates
      · rw [if_pos hb] at h2
        rw [← h2] at h1
        exact hne (hi (by exact_mod_cast h1))
      · rw [if_neg hb] at h2
        omega
    · rw [if_neg ha] at h1
      omega

/-- C25 (witness): seven nodes, three candidates, round 12: node 6 has priority
`(6 - 12) mod 7 = 1`. -/
theorem ValidatorSessionDescriptionImpl.get_node_priority_spec_witness :
    (ValidatorSessionDescriptionImpl.example_opts 3).get_node_priority 7 6 12 = Except.ok 1 :=
  (ValidatorSessionDescriptionImpl.get_node_priority_spec
    (ValidatorSessionDescriptionImpl.example_opts 3) 7 6 12 (by decide) (by decide)
    (by decide)).1

/-- C24 (counterexample): with three nodes and three candidates, in round
`2^32 - 1` the sum `round + priority` wraps for priority 1, so
`get_node_by_priority` gives node 0, whose priority in that round is 0, not 1;
and with `2^31 + 1` nodes and as many candidates the priority `2^31` of node
`2^31` in round 0 comes back as the negative `td::int32` value `-2^31`. -/
theorem ValidatorSessionDescriptionImpl.priority_round_trip_counterexample :
    (1 ≤ (ValidatorSessionDescriptionImpl.example_opts 3).get_max_priority ∧
      (ValidatorSessionDescriptionImpl.example_opts 3).get_node_by_priority 3 (2 ^ 32 - 1) 1 =
        Except.ok 0 ∧
      (ValidatorSessionDescriptionImpl.example_opts 3).get_node_priority 3 0 (2 ^ 32 - 1) =
        Except.ok 0 ∧
      (ValidatorSessionDescriptionImpl.example_opts 3).get_node_priority 3 0 (2 ^ 32 - 1) ≠
        Except.ok 1) ∧
    (2 ^ 31 ≤ (ValidatorSessionDescriptionImpl.example_opts (2 ^ 31 + 1)).get_max_priority ∧
      (ValidatorSessionDescriptionImpl.example_opts (2 ^ 31 + 1)).get_node_by_priority
        (2 ^ 31 + 1) 0 (2 ^ 31) = Except.ok (2 ^ 31) ∧
      (ValidatorSessionDescriptionImpl.example_opts (2 ^ 31 + 1)).get_node_priority
        (2 ^ 31 + 1) (2 ^ 31) 0 = Except.ok (-(2 ^ 31))) := by
  refine ⟨⟨by decide, rfl, rfl, ?_⟩, by decide, rfl, rfl⟩
  intro h
  have h0 : (ValidatorSessionDescriptionImpl.example_opts 3).get_node_priority 3 0 (2 ^ 32 - 1) =
      Except.ok 0 := rfl
  rw [h0] at h
  simp at h

/-- C24 (amended): for `total_nodes = n >= 1`, `1 <= round_candidates <= n`,
every `td::uint32` round and every priority `<= get_max_priority()` such that
`round + priority` does not wrap (`< 2^32`), `get_node_by_priority(round,
priority)` is a node below `n` whose `get_node_priority` in that round is
`priority` converted to `td::int32`, which is `priority` itself when
`priority < 2^31`. -/
theorem ValidatorSessionDescriptionImpl.priority_round_trip
    (d : ValidatorSessionDescriptionImpl) (n round priority : Nat)
    (hn : 1 ≤ n) (hn2 : n < 2 ^ 32) (hrc : 1 ≤ d.round_candidates)
    (hrc2 : d.round_candidates ≤ n) (hp : priority ≤ d.get_max_priority)
    (hsum : round + priority < 2 ^ 32) :
    ∃ node, d.get_node_by_priority n round priority = Except.ok node ∧ node < n ∧
      d.get_node_priority n node round = Except.ok (to_int32 priority) ∧
      (priority < 2 ^ 31 → to_int32 priority = (priority : Int)) := by
  have hmax : d.get_max_priority = d.round_candidates - 1 := by
    unfold ValidatorSessionDescriptionImpl.get_max_priority uint32_range
    omega
  have hp2 : priority ≤ d.round_candidates - 1 := by rw [← hmax]; exact hp
  have hr : round % n < n := Nat.mod_lt _ (by omega)
  have hsum2 : (round + priority) % uint32_range = round + priority :=
    Nat.mod_eq_of_lt (by unfold uint32_range; omega)
  have hnode : (round + priority) % n = (round % n + priority) % n := by
    conv_lhs => rw [Nat.add_mod]
    conv_rhs => rw [Nat.add_mod, Nat.mod_mod]
  have hn0 : ¬ n = 0 := by omega
  refine ⟨(round + priority) % n, ?_, Nat.mod_lt _ (by omega), ?_,
    fun h => to_int32_of_lt priority h⟩
  · unfold ValidatorSessionDescriptionImpl.get_node_by_priority
    rw [if_neg (not_not.mpr hp), if_neg hn0, hsum2]
  · unfold ValidatorSessionDescriptionImpl.get_node_priority
    rw [if_neg hn0]
    simp only []
    rw [hnode]
    by_cases hlt : round % n + priority < n
    · have hnl : ¬ (round % n + priority < round % n) := by omega
      have e : (round % n + priority + uint32_range - round % n) % uint32_range = priority := by
        unfold uint32_range; omega
      have hlt2 : priority < d.round_candidates := by omega
      rw [Nat.mod_eq_of_lt hlt, if_neg hnl, e, if_pos hlt2]
    · have e0 : (round % n + priority) % n = round % n + priority - n := by
        rw [Nat.mod_eq_sub_mod (by omega)]
        exact Nat.mod_eq_of_lt (by omega)
      have hl : round % n + priority - n < round % n := by omega
      have e : ((round % n + priority - n + n) % uint32_range + uint32_range - round % n) %
          uint32_range = priority := by
        unfold uint32_range; omega
      have hlt2 : priority < d.round_candidates := by omega
      rw [e0, if_pos hl, e, if_pos hlt2]

/-- C24 (witness): seven nodes, three candidates, round 12, priority 2: the
node is `14 mod 7 = 0` and its priority in round 12 is 2. -/
theorem ValidatorSessionDescriptionImpl.priority_round_trip_witness :
    (ValidatorSessionDescriptionImpl.example_opts 3).get_node_by_priority 7 12 2 = Except.ok 0 ∧
    ∃ node, (ValidatorSessionDescriptionImpl.example_opts 3).get_node_by_priority 7 12 2 =
        Except.ok node ∧ node < 7 ∧
      (ValidatorSessionDescriptionImpl.example_opts 3).get_node_priority 7 node 12 =
        Except.ok (to_int32 2) ∧
      (2 < 2 ^ 31 → to_int32 2 = ((2 : Nat) : Int)) :=
  ⟨rfl, ValidatorSessionDescriptionImpl.priority_round_trip
    (ValidatorSessionDescriptionImpl.example_opts 3) 7 12 2 (by decide) (by decide) (by decide)
    (by decide) (by decide) (by decide)⟩

theorem ValidatorSessionDescriptionImpl.ctor_loop_spec (compute_short_id : Nat → Nat)
    (weight_range : Nat) :
    ∀ (nodes : List ValidatorSessionNode) (sources : List Source) (total : Nat)
      (rev : List (Nat × Nat)) (sources1 : List Source) (total1 : Nat) (rev1 : List (Nat × Nat)),
      ValidatorSessionDescriptionImpl.ctor_loop compute_short_id weight_range nodes
        (sources, total, rev) = Except.ok (sources1, total1, rev1) →
      sources1 = sources ++ nodes.map (Source.mk1 compute_short_id) ∧
      total1 % weight_range = (total + (nodes.map (fun x => x.weight)).sum) % weight_range ∧
      (nodes ≠ [] → total1 < weight_range ∨ weight_range = 0)
  | [], sources, total, rev, sources1, total1, rev1, h => by
    simp only [ValidatorSessionDescriptionImpl.ctor_loop, Except.ok.injEq, Prod.mk.injEq] at h
    obtain ⟨h1, h2, _⟩ := h
    subst h1 h2
    simp
  | node :: rest, sources, total, rev, sources1, total1, rev1, h => by
    simp only [ValidatorSessionDescriptionImpl.ctor_loop] at h
    split at h
    · simp at h
    · obtain ⟨h1, h2, h3⟩ := ValidatorSessionDescriptionImpl.ctor_loop_spec compute_short_id
        weight_range rest _ _ _ sources1 total1 rev1 h
      refine ⟨?_, ?_, fun _ => ?_⟩
      · rw [h1]; simp
      · rw [h2]
        simp only [List.map_cons, List.sum_cons, Source.mk1]
        rw [Nat.add_mod, Nat.mod_mod, ← Nat.add_mod, Nat.add_assoc]
      · by_cases hw : weight_range = 0
        · exact Or.inr hw
        · left
          by_cases hrest : rest = []
          · subst hrest
            simp only [ValidatorSessionDescriptionImpl.ctor_loop, Except.ok.injEq,
              Prod.mk.injEq] at h
            rw [← h.2.1]
            exact Nat.mod_lt _ (Nat.pos_of_ne_zero hw)
          · rcases h3 hrest with h4 | h4
            · exact h4
            · exact absurd h4 hw

/-- C31: with a positive `cache_size`, `update_hash(obj, h)` returns; if
`is_persistent(obj)` then afterwards `get_by_hash(h1, _)` returns `obj` for
every `h1` with `h1 mod cache_size = h mod cache_size`, every other cache slot
and every other member is unchanged; and if `is_persistent(obj)` is false the
description, with every cache slot, is unchanged. -/
theorem ValidatorSessionDescriptionImpl.update_hash_spec (d : ValidatorSessionDescriptionImpl)
    (cache_size obj h : Nat) (hc : 0 < cache_size) :
    (d.is_persistent obj = true →
      ∃ d1, d.update_hash cache_size obj h = Except.ok d1 ∧
        (∀ (h1 : Nat) (allow_temp : Bool), h1 % cache_size = h % cache_size →
          d1.get_by_hash cache_size h1 allow_temp = Except.ok obj) ∧
        (∀ x, x ≠ h % cache_size → d1.cache_ x = d.cache_ x) ∧
        (∀ (h1 : Nat) (allow_temp : Bool), h1 % cache_size ≠ h % cache_size →
          d1.get_by_hash cache_size h1 allow_temp = d.get_by_hash cache_size h1 allow_temp) ∧
        d1 = { d with cache_ := d1.cache_ }) ∧
    (d.is_persistent obj = false → d.update_hash cache_size obj h = Except.ok d) := by
  have hc0 : cache_size ≠ 0 := Nat.pos_iff_ne_zero.1 hc
  constructor
  · intro hp
    refine ⟨{ d with cache_ := fun x => if x = h % cache_size then obj else d.cache_ x },
      ?_, ?_, ?_, ?_, rfl⟩
    · simp [ValidatorSessionDescriptionImpl.update_hash, hp, hc0]
    · intro h1 b he
      simp [ValidatorSessionDescriptionImpl.get_by_hash, hc0, he]
    · intro x hx
      simp [hx]
    · intro h1 b hne
      simp [ValidatorSessionDescriptionImpl.get_by_hash, hc0, hne]
  · intro hp
    simp [ValidatorSessionDescriptionImpl.update_hash, hp]

/-- C31 (witness): with 8 slots and the pool chunk `[4096, 4160]`, storing the
persistent object 4100 under hash 13 makes hash 21 find it, and storing the
object 9000, which is not persistent, changes nothing. -/
theorem ValidatorSessionDescriptionImpl.update_hash_spec_witness :
    0 < 8 ∧ ValidatorSessionDescriptionImpl.example5.is_persistent 4100 = true ∧
    ValidatorSessionDescriptionImpl.example5.is_persistent 9000 = false ∧
    (∃ d1, ValidatorSessionDescriptionImpl.example5.update_hash 8 4100 13 = Except.ok d1 ∧
      d1.get_by_hash 8 21 false = Except.ok 4100) ∧
    ValidatorSessionDescriptionImpl.example5.update_hash 8 9000 13 =
      Except.ok ValidatorSessionDescriptionImpl.example5 :=
  have h := ValidatorSessionDescriptionImpl.update_hash_spec
    ValidatorSessionDescriptionImpl.example5 8 4100 13 (by decide)
  have h2 := ValidatorSessionDescriptionImpl.update_hash_spec
    ValidatorSessionDescriptionImpl.example5 8 9000 13 (by decide)
  ⟨by decide, by decide, by decide,
    (h.1 (by decide)).elim (fun d1 hd => ⟨d1, hd.1, hd.2.1 21 false (by decide)⟩),
    h2.2 (by decide)⟩

/-! ## The constructor of the description -/

theorem ValidatorSessionDescriptionImpl.rev_find_cons_eq (e : Nat × Nat)
    (rest : List (Nat × Nat)) (x : Nat) (h : e.1 = x) :
    ValidatorSessionDescriptionImpl.rev_find (e :: rest) x = some e.2 := by
  unfold ValidatorSessionDescriptionImpl.rev_find
  rw [List.find?_cons_of_pos _ (by simp [h])]
  rfl

theorem ValidatorSessionDescriptionImpl.rev_find_cons_ne (e : Nat × Nat)
    (rest : List (Nat × Nat)) (x : Nat) (h : ¬ e.1 = x) :
    ValidatorSessionDescriptionImpl.rev_find (e :: rest) x =
      ValidatorSessionDescriptionImpl.rev_find rest x := by
  unfold ValidatorSessionDescriptionImpl.rev_find
  rw [List.find?_cons_of_neg _ (by simp [h])]

theorem ValidatorSessionDescriptionImpl.rev_find_none (rev : List (Nat × Nat)) (x : Nat) :
    ValidatorSessionDescriptionImpl.rev_find rev x = none ↔ x ∉ rev.map Prod.fst := by
  induction rev with
  | nil => simp [ValidatorSessionDescriptionImpl.rev_find]
  | cons e rest ih =>
    by_cases h : e.1 = x
    · rw [ValidatorSessionDescriptionImpl.rev_find_cons_eq e rest x h]
      simp [h]
    · rw [ValidatorSessionDescriptionImpl.rev_find_cons_ne e rest x h, ih]
      have h2 : ¬ x = e.1 := fun e2 => h e2.symm
      simp [h2]

theorem ValidatorSessionDescriptionImpl.rev_find_mem (rev : List (Nat × Nat)) (x i : Nat)
    (h : ValidatorSessionDescriptionImpl.rev_find rev x = some i) : (x, i) ∈ rev := by
  induction rev with
  | nil => simp [ValidatorSessionDescriptionImpl.rev_find] at h
  | cons e rest ih =>
    by_cases he : e.1 = x
    · rw [ValidatorSessionDescriptionImpl.rev_find_cons_eq e rest x he] at h
      have h2 : e.2 = i := Option.some.inj h
      rw [← h2, ← he]
      exact List.mem_cons_self _ _
    · rw [ValidatorSessionDescriptionImpl.rev_find_cons_ne e rest x he] at h
      exact List.mem_cons_of_mem _ (ih h)

theorem ValidatorSessionDescriptionImpl.rev_find_of_mem (rev : List (Nat × Nat)) (x i : Nat)
    (hn : (rev.map Prod.fst).Nodup) (h : (x, i) ∈ rev) :
    ValidatorSessionDescriptionImpl.rev_find rev x = some i := by
  induction rev with
  | nil => simp at h
  | cons e rest ih =>
    rw [List.map_cons, List.nodup_cons] at hn
    rcases List.mem_cons.1 h with h1 | h1
    · rw [← h1]
      exact ValidatorSessionDescriptionImpl.rev_find_cons_eq _ rest x rfl
    · have hx : x ∈ rest.map Prod.fst := List.mem_map.2 ⟨(x, i), h1, rfl⟩
      have he : ¬ e.1 = x := fun e2 => hn.1 (e2 ▸ hx)
      rw [ValidatorSessionDescriptionImpl.rev_find_cons_ne e rest x he]
      exact ih hn.2 h1

theorem ValidatorSessionDescriptionImpl.ctor_loop_rev (compute_short_id : Nat → Nat)
    (weight_range : Nat) :
    ∀ (nodes : List ValidatorSessionNode) (sources : List Source) (total : Nat)
      (rev : List (Nat × Nat)),
      rev.map Prod.fst = sources.map (fun s => s.id) →
      rev.map Prod.snd = List.range sources.length →
      (sources.map (fun s => s.id)).Nodup →
      (ValidatorSessionDescriptionImpl.ctor_loop compute_short_id weight_range nodes
          (sources, total, rev) = Except.error (Fault.check_failed 45) ∧
        ¬ (sources.map (fun s => s.id) ++
            nodes.map (fun n => compute_short_id n.pub_key)).Nodup) ∨
      (∃ sources1 total1 rev1,
        ValidatorSessionDescriptionImpl.ctor_loop compute_short_id weight_range nodes
          (sources, total, rev) = Except.ok (sources1, total1, rev1) ∧
        rev1.map Prod.fst = sources1.map (fun s => s.id) ∧
        rev1.map Prod.snd = List.range sources1.length ∧
        (sources1.map (fun s => s.id)).Nodup ∧
        (sources.map (fun s => s.id) ++
            nodes.map (fun n => compute_short_id n.pub_key)).Nodup)
  | [], sources, total, rev, h1, h2, h3 => by
    right
    refine ⟨sources, total, rev, rfl, h1, h2, h3, ?_⟩
    simpa using h3
  | node :: rest, sources, total, rev, h1, h2, h3 => by
    cases hf : ValidatorSessionDescriptionImpl.rev_find rev (compute_short_id node.pub_key) with
    | some j =>
      left
      constructor
      · simp only [ValidatorSessionDescriptionImpl.ctor_loop, Source.mk1, hf]
      · have hm : compute_short_id node.pub_key ∈ rev.map Prod.fst := by
          by_contra hc
          rw [(ValidatorSessionDescriptionImpl.rev_find_none rev _).2 hc] at hf
          exact absurd hf (by simp)
        rw [h1] at hm
        intro hnd
        have hd := (List.nodup_append.1 hnd).2.2
        exact hd hm (List.mem_cons_self _ _)
    | none =>
      have hm : compute_short_id node.pub_key ∉ sources.map (fun s => s.id) := by
        rw [← h1]
        exact (ValidatorSessionDescriptionImpl.rev_find_none rev _).1 hf
      have hstep : ValidatorSessionDescriptionImpl.ctor_loop compute_short_id weight_range
          (node :: rest) (sources, total, rev) =
          ValidatorSessionDescriptionImpl.ctor_loop compute_short_id weight_range rest
            (sources ++ [Source.mk1 compute_short_id node],
              (total + (Source.mk1 compute_short_id node).weight) % weight_range,
              ValidatorSessionDescriptionImpl.rev_insert rev
                (Source.mk1 compute_short_id node).id sources.length) := by
        simp only [ValidatorSessionDescriptionImpl.ctor_loop, Source.mk1, hf]
      have g1 : (ValidatorSessionDescriptionImpl.rev_insert rev
          (Source.mk1 compute_short_id node).id sources.length).map Prod.fst =
          (sources ++ [Source.mk1 compute_short_id node]).map (fun s => s.id) := by
        simp [ValidatorSessionDescriptionImpl.rev_insert, h1]
      have g2 : (ValidatorSessionDescriptionImpl.rev_insert rev
          (Source.mk1 compute_short_id node).id sources.length).map Prod.snd =
          List.range (sources ++ [Source.mk1 compute_short_id node]).length := by
        simp [ValidatorSessionDescriptionImpl.rev_insert, h2, List.range_succ]
      have g3 : ((sources ++ [Source.mk1 compute_short_id node]).map (fun s => s.id)).Nodup := by
        rw [List.map_append, List.nodup_append]
        refine ⟨h3, by simp, ?_⟩
        intro a ha hb
        simp only [List.map_cons, List.map_nil, List.mem_singleton] at hb
        rw [hb] at ha
        exact hm ha
      have e : (sources ++ [Source.mk1 compute_short_id node]).map (fun s => s.id) ++
          rest.map (fun n => compute_short_id n.pub_key) =
          sources.map (fun s => s.id) ++
            (node :: rest).map (fun n => compute_short_id n.pub_key) := by
        simp [Source.mk1]
      have ih := ValidatorSessionDescriptionImpl.ctor_loop_rev compute_short_id weight_range rest
        (sources ++ [Source.mk1 compute_short_id node])
        ((total + (Source.mk1 compute_short_id node).weight) % weight_range)
        (ValidatorSessionDescriptionImpl.rev_insert rev
          (Source.mk1 compute_short_id node).id sources.length) g1 g2 g3
      rw [hstep]
      rw [e] at ih
      exact ih

theorem ValidatorSessionDescriptionImpl.rev_entry (sources : List Source)
    (rev : List (Nat × Nat)) (h1 : rev.map Prod.fst = sources.map (fun s => s.id))
    (h2 : rev.map Prod.snd = List.range sources.length) (k : Nat) :
    rev[k]? = (sources[k]?).map (fun s => (s.id, k)) := by
  have a1 : (rev.map Prod.fst)[k]? = (sources.map (fun s => s.id))[k]? := by rw [h1]
  have a2 : (rev.map Prod.snd)[k]? = (List.range sources.length)[k]? := by rw [h2]
  rw [List.getElem?_map, List.getElem?_map] at a1
  rw [List.getElem?_map] at a2
  cases hs : sources[k]? with
  | none =>
    rw [hs] at a1
    cases hr : rev[k]? with
    | none => rfl
    | some e =>
      rw [hr] at a1
      simp at a1
  | some s =>
    have hk : k < sources.length := (List.getElem?_eq_some_iff.1 hs).1
    rw [hs] at a1
    rw [List.getElem?_range hk] at a2
    cases hr : rev[k]? with
    | none =>
      rw [hr] at a1
      simp at a1
    | some e =>
      rw [hr] at a1 a2
      simp only [Option.map_some', Option.some.injEq] at a1 a2
      show some e = some (s.id, k)
      rw [← a1, ← a2]

theorem ValidatorSessionDescriptionImpl.create_cases (compute_short_id : Nat → Nat)
    (weight_range round_candidates : Nat) (mem_perm mem_temp : MemPool)
    (nodes : List ValidatorSessionNode) (local_id : Nat) (hlen : nodes.length < uint32_range) :
    (ValidatorSessionDescriptionImpl.create compute_short_id weight_range round_candidates
        mem_perm mem_temp nodes local_id = Except.error (Fault.check_failed 45) ∧
      ¬ (nodes.map (fun n => compute_short_id n.pub_key)).Nodup) ∨
    (ValidatorSessionDescriptionImpl.create compute_short_id weight_range round_candidates
        mem_perm mem_temp nodes local_id = Except.error (Fault.check_failed 51) ∧
      (nodes.map (fun n => compute_short_id n.pub_key)).Nodup ∧
      local_id ∉ nodes.map (fun n => compute_short_id n.pub_key)) ∨
    (∃ total rev idx,
      ValidatorSessionDescriptionImpl.create compute_short_id weight_range round_candidates
        mem_perm mem_temp nodes local_id =
        Except.ok
          { round_candidates := round_candidates,
            sources_ := (nodes.map (Source.mk1 compute_short_id)),
            rev_sources_ := rev,
            total_weight_ := total,
            cutoff_weight_ := ((total * 2) % weight_range / 3 + 1) % weight_range,
            self_idx_ := idx, cache_ := fun _ => 0, mem_perm_ := mem_perm,
            mem_temp_ := mem_temp } ∧
      (nodes.map (fun n => compute_short_id n.pub_key)).Nodup ∧
      local_id ∈ nodes.map (fun n => compute_short_id n.pub_key) ∧
      rev.map Prod.fst = nodes.map (fun n => compute_short_id n.pub_key) ∧
      rev.map Prod.snd = List.range nodes.length ∧
      ValidatorSessionDescriptionImpl.rev_find rev local_id = some idx ∧
      total = (nodes.map (fun n => n.weight)).sum % weight_range) := by
  have htake : nodes.take (nodes.length % uint32_range) = nodes := by
    rw [Nat.mod_eq_of_lt hlen, List.take_length]
  have hcreate : ValidatorSessionDescriptionImpl.create compute_short_id weight_range
      round_candidates mem_perm mem_temp nodes local_id =
      (match ValidatorSessionDescriptionImpl.ctor_loop compute_short_id weight_range nodes
          ([], 0, []) with
      | Except.error e => Except.error e
      | Except.ok (sources, total_weight, rev) =>
        match ValidatorSessionDescriptionImpl.rev_find rev local_id with
        | none => Except.error (Fault.check_failed 51)
        | some idx =>
          Except.ok
            { round_candidates := round_candidates, sources_ := sources, rev_sources_ := rev,
              total_weight_ := total_weight,
              cutoff_weight_ := ((total_weight * 2) % weight_range / 3 + 1) % weight_range,
              self_idx_ := idx, cache_ := fun _ => 0, mem_perm_ := mem_perm,
              mem_temp_ := mem_temp }) := by
    unfold ValidatorSessionDescriptionImpl.create
    simp only []
    rw [htake]
  have hloop := ValidatorSessionDescriptionImpl.ctor_loop_rev compute_short_id weight_range
    nodes [] 0 [] rfl rfl List.nodup_nil
  simp only [List.map_nil, List.nil_append, List.length_nil] at hloop
  rcases hloop with ⟨herr, hnd⟩ | ⟨sources1, total1, rev1, hok, r1, r2, _, hnd⟩
  · left
    rw [hcreate, herr]
    exact ⟨rfl, hnd⟩
  · right
    obtain ⟨s1, s2, s3⟩ := ValidatorSessionDescriptionImpl.ctor_loop_spec compute_short_id
      weight_range _ _ _ _ _ _ _ hok
    rw [List.nil_append] at s1
    have hids : sources1.map (fun s => s.id) = nodes.map (fun n => compute_short_id n.pub_key) := by
      rw [s1, List.map_map]
      rfl
    rw [hids] at r1
    have hl : sources1.length = nodes.length := by rw [s1, List.length_map]
    rw [hl] at r2
    cases hfind : ValidatorSessionDescriptionImpl.rev_find rev1 local_id with
    | none =>
      left
      rw [hcreate, hok]
      simp only [hfind]
      refine ⟨trivial, hnd, ?_⟩
      rw [← r1]
      exact (ValidatorSessionDescriptionImpl.rev_find_none rev1 local_id).1 hfind
    | some idx =>
      right
      refine ⟨total1, rev1, idx, ?_, hnd, ?_, r1, r2, hfind, ?_⟩
      · rw [hcreate, hok]
        simp only [hfind]
        rw [s1]
      · rw [← r1]
        by_contra hc
        rw [(ValidatorSessionDescriptionImpl.rev_find_none rev1 local_id).2 hc] at hfind
        exact absurd hfind (by simp)
      · have hne : nodes ≠ [] := by
          intro hn
          rw [hn] at r1
          have : rev1 = [] := by simpa using r1
          rw [this] at hfind
          simp [ValidatorSessionDescriptionImpl.rev_find] at hfind
        rw [Nat.zero_add] at s2
        rcases s3 hne with h4 | h4
        · rw [← s2, Nat.mod_eq_of_lt h4]
        · rw [← s2, h4, Nat.mod_zero]

theorem ValidatorSessionNode.example_many_ids (n : Nat) :
    List.map (fun (x : ValidatorSessionNode) => id x.pub_key) (ValidatorSessionNode.example_many n) =
      List.range n := by
  unfold ValidatorSessionNode.example_many
  rw [List.map_map]
  exact List.map_id _

theorem ValidatorSessionDescriptionImpl.create_truncated (weight_range round_candidates : Nat)
    (mem_perm mem_temp : MemPool) (n local_id : Nat) (hn : n % uint32_range = 0) :
    ValidatorSessionDescriptionImpl.create id weight_range round_candidates mem_perm mem_temp
      (ValidatorSessionNode.example_many n) local_id = Except.error (Fault.check_failed 51) := by
  have hl : (ValidatorSessionNode.example_many n).length = n := by
    unfold ValidatorSessionNode.example_many
    rw [List.length_map, List.length_range]
  unfold ValidatorSessionDescriptionImpl.create
  simp only []
  rw [hl, hn, List.take_zero]
  rfl

/-- C32 (counterexample): two nodes of weight `2^63` each, with a 64-bit
`ValidatorWeight`, are accepted and `total_weight_` is 0, not the sum `2^64` of
the weights; and for `2^32` nodes with the distinct short ids `0, ..., 2^32 - 1`
and the local id 0, which is one of them, the node count converted to
`td::uint32` is 0, no node is read and the CHECK on `local_id` fails. -/
theorem ValidatorSessionDescriptionImpl.create_counterexample :
    ((∃ d, ValidatorSessionDescriptionImpl.create id (2 ^ 64) 3
        { chunk_size_ := 64, ptr_ := 0, data_ := [] } { chunk_size_ := 64, ptr_ := 0, data_ := [] }
        ValidatorSessionNode.example_heavy 1 = Except.ok d ∧ d.total_weight_ = 0) ∧
      (ValidatorSessionNode.example_heavy.map (fun n => n.weight)).sum = 2 ^ 64) ∧
    ((List.map (fun (x : ValidatorSessionNode) => id x.pub_key)
        (ValidatorSessionNode.example_many (2 ^ 32))).Nodup ∧
      0 ∈ List.map (fun (x : ValidatorSessionNode) => id x.pub_key)
        (ValidatorSessionNode.example_many (2 ^ 32)) ∧
      ValidatorSessionDescriptionImpl.create id (2 ^ 64) 3
        { chunk_size_ := 64, ptr_ := 0, data_ := [] } { chunk_size_ := 64, ptr_ := 0, data_ := [] }
        (ValidatorSessionNode.example_many (2 ^ 32)) 0 =
        Except.error (Fault.check_failed 51)) := by
  refine ⟨⟨⟨_, rfl, rfl⟩, by decide⟩, ?_, ?_, ?_⟩
  · rw [ValidatorSessionNode.example_many_ids]
    exact List.nodup_range _
  · rw [ValidatorSessionNode.example_many_ids, List.mem_range]
    exact Nat.pos_pow_of_pos 32 (by decide)
  · exact ValidatorSessionDescriptionImpl.create_truncated _ _ _ _ _ _ (Nat.mod_self _)

/-- C32 (amended): for fewer than `2^32` nodes, each node's short id being
given by `compute_short_id`, the constructor fails a CHECK iff two nodes have
the same short id or `local_id` is the short id of no node, and otherwise it
returns; when it returns, `sources_` has the nodes in input order,
`rev_sources_` maps `sources_[i].id` to `i` for every `i`, `self_idx_` is the
unique index whose id equals `local_id`, `total_weight_` is the sum of the
node weights reduced modulo the range of `ValidatorWeight` (the sum itself when
it is below the range), and every cache slot is null. -/
theorem ValidatorSessionDescriptionImpl.create_spec (compute_short_id : Nat → Nat)
    (weight_range round_candidates : Nat) (mem_perm mem_temp : MemPool)
    (nodes : List ValidatorSessionNode) (local_id : Nat) (hlen : nodes.length < uint32_range) :
    ((∃ line, ValidatorSessionDescriptionImpl.create compute_short_id weight_range
        round_candidates mem_perm mem_temp nodes local_id =
          Except.error (Fault.check_failed line)) ↔
      (¬ (nodes.map (fun n => compute_short_id n.pub_key)).Nodup ∨
        local_id ∉ nodes.map (fun n => compute_short_id n.pub_key))) ∧
    ((nodes.map (fun n => compute_short_id n.pub_key)).Nodup →
      local_id ∈ nodes.map (fun n => compute_short_id n.pub_key) →
      ∃ d, ValidatorSessionDescriptionImpl.create compute_short_id weight_range
        round_candidates mem_perm mem_temp nodes local_id = Except.ok d) ∧
    (∀ d, ValidatorSessionDescriptionImpl.create compute_short_id weight_range
        round_candidates mem_perm mem_temp nodes local_id = Except.ok d →
      d.sources_ = nodes.map (Source.mk1 compute_short_id) ∧
      (∀ i s, d.sources_[i]? = some s →
        ValidatorSessionDescriptionImpl.rev_find d.rev_sources_ s.id = some i) ∧
      (∃ s, d.sources_[d.self_idx_]? = some s ∧ s.id = local_id) ∧
      (∀ j s, d.sources_[j]? = some s → s.id = local_id → j = d.self_idx_) ∧
      d.total_weight_ = (nodes.map (fun n => n.weight)).sum % weight_range ∧
      ((nodes.map (fun n => n.weight)).sum < weight_range →
        d.total_weight_ = (nodes.map (fun n => n.weight)).sum) ∧
      (∀ x, d.cache_ x = 0)) := by
  rcases ValidatorSessionDescriptionImpl.create_cases compute_short_id weight_range
    round_candidates mem_perm mem_temp nodes local_id hlen with
    ⟨hc, hnd⟩ | ⟨hc, hnd, hloc⟩ | ⟨total, rev, idx, hc, hnd, hloc, r1, r2, hfind, htot⟩
  · rw [hc]
    refine ⟨⟨fun _ => Or.inl hnd, fun _ => ⟨45, rfl⟩⟩, fun h => absurd h hnd, ?_⟩
    intro d hd
    exact absurd hd (by simp)
  · rw [hc]
    refine ⟨⟨fun _ => Or.inr hloc, fun _ => ⟨51, rfl⟩⟩, fun _ h => absurd h hloc, ?_⟩
    intro d hd
    exact absurd hd (by simp)
  · rw [hc]
    refine ⟨⟨?_, ?_⟩, fun _ _ => ⟨_, rfl⟩, ?_⟩
    · rintro ⟨line, hl⟩
      exact absurd hl (by simp)
    · rintro (h | h)
      · exact absurd hnd h
      · exact absurd hloc h
    · intro d hd
      have hd1 := (Except.ok.inj hd).symm
      subst hd1
      have r1s : rev.map Prod.fst =
          (nodes.map (Source.mk1 compute_short_id)).map (fun s => s.id) := by
        rw [r1, List.map_map]
        rfl
      have r2s : rev.map Prod.snd =
          List.range (nodes.map (Source.mk1 compute_short_id)).length := by
        rw [r2, List.length_map]
      have hrn : (rev.map Prod.fst).Nodup := by
        rw [r1]
        exact hnd
      have hentry := ValidatorSessionDescriptionImpl.rev_entry
        (nodes.map (Source.mk1 compute_short_id)) rev r1s r2s
      have hself : ∃ s, (nodes.map (Source.mk1 compute_short_id))[idx]? = some s ∧
          s.id = local_id := by
        have hm := ValidatorSessionDescriptionImpl.rev_find_mem rev local_id idx hfind
        obtain ⟨k, hk⟩ := List.mem_iff_getElem?.1 hm
        rw [hentry k] at hk
        cases hs : (nodes.map (Source.mk1 compute_short_id))[k]? with
        | none =>
          rw [hs] at hk
          simp at hk
        | some s =>
          rw [hs] at hk
          simp only [Option.map_some', Option.some.injEq, Prod.mk.injEq] at hk
          rw [← hk.2]
          exact ⟨s, hs, hk.1⟩
      have hfindi : ∀ i s, (nodes.map (Source.mk1 compute_short_id))[i]? = some s →
          ValidatorSessionDescriptionImpl.rev_find rev s.id = some i := by
        intro i s hs
        apply ValidatorSessionDescriptionImpl.rev_find_of_mem rev s.id i hrn
        apply List.mem_iff_getElem?.2
        refine ⟨i, ?_⟩
        rw [hentry i, hs]
        rfl
      refine ⟨rfl, hfindi, hself, ?_, htot, ?_, fun _ => rfl⟩
      · intro j s hs hid
        have h1 := hfindi j s hs
        rw [hid] at h1
        show j = idx
        rw [hfind] at h1
        exact (Option.some.inj h1).symm
      · intro hlt
        show total = _
        rw [htot, Nat.mod_eq_of_lt hlt]

/-- C32 (witness): the three validators with the keys 11, 12, 13 and the local
id 12 give the description `example3`, whose `self_idx_` is 1 and whose
`total_weight_` is 10. -/
theorem ValidatorSessionDescriptionImpl.create_spec_witness :
    ValidatorSessionNode.example3.length < uint32_range ∧
    ValidatorSessionDescriptionImpl.create id (2 ^ 64) 3
      { chunk_size_ := 64, ptr_ := 0, data_ := [] } { chunk_size_ := 64, ptr_ := 0, data_ := [] }
      ValidatorSessionNode.example3 12 = Except.ok ValidatorSessionDescriptionImpl.example3 ∧
    ValidatorSessionDescriptionImpl.example3.sources_ =
      ValidatorSessionNode.example3.map (Source.mk1 id) ∧
    ValidatorSessionDescriptionImpl.example3.total_weight_ =
      (ValidatorSessionNode.example3.map (fun n => n.weight)).sum :=
  have hd : ValidatorSessionDescriptionImpl.create id (2 ^ 64) 3
      { chunk_size_ := 64, ptr_ := 0, data_ := [] } { chunk_size_ := 64, ptr_ := 0, data_ := [] }
      ValidatorSessionNode.example3 12 = Except.ok ValidatorSessionDescriptionImpl.example3 := rfl
  have h := (ValidatorSessionDescriptionImpl.create_spec id (2 ^ 64) 3
    { chunk_size_ := 64, ptr_ := 0, data_ := [] } { chunk_size_ := 64, ptr_ := 0, data_ := [] }
    ValidatorSessionNode.example3 12 (by decide)).2.2 ValidatorSessionDescriptionImpl.example3 hd
  ⟨by decide, hd, h.1, h.2.2.2.2.2.1 (by decide)⟩

end ton.validatorsession
